import Mathlib

/-!
# Intel instruction encoding specification language

A shallow embedding of `cpu_instructions/x86/encoding_specification.cc`:
the parser of the encoding specification language of the Intel manuals
(`ParseEncodingSpecification`) and the derivation of the operand encoding
locations of a parsed specification (`GetAvailableEncodings`).

The parser is written with `RE2::Consume` over fixed patterns. The patterns are
transcribed as values of `Regex`, and `Regex.run` gives them the leftmost-first
(backtracking priority) meaning of RE2: the matches of a pattern at the start of
the text, best first.
-/

namespace x86

/-! ## The pattern matcher -/

/-- The fragment of the RE2 pattern language used by the parser. `cls` is a
character class given by its members, `opt` is the greedy `?`, `star c` is the
greedy `c*` of a single character and `group i` is the `i`-th capturing group. -/
inductive Regex where
  | eps : Regex
  | lit : List Char → Regex
  | cls : List Char → Regex
  | seq : Regex → Regex → Regex
  | alt : Regex → Regex → Regex
  | opt : Regex → Regex
  | star : Char → Regex
  | group : Nat → Regex → Regex

/-- The texts of the capturing groups that took part in a match. -/
abbrev Captures := List (Nat × List Char)

/-- The matches of the greedy `c*`: the longest run first, then the shorter ones. -/
def starRun (c : Char) : List Char → List (Captures × List Char)
  | [] => [([], [])]
  | d :: t => if d = c then starRun c t ++ [([], d :: t)] else [([], d :: t)]

/-- All matches of a pattern anchored at the start of the text, in the order of
preference of a leftmost-first matcher; each match is the captured groups and
the text left after it. -/
def Regex.run : Regex → List Char → List (Captures × List Char)
  | .eps, s => [([], s)]
  | .lit l, s => if l.isPrefixOf s then [([], s.drop l.length)] else []
  | .cls cs, s =>
    match s with
    | [] => []
    | d :: t => if cs.contains d then [([], t)] else []
  | .seq a b, s =>
    (a.run s).flatMap fun m1 => (b.run m1.2).map fun m2 => (m1.1 ++ m2.1, m2.2)
  | .alt a b, s => a.run s ++ b.run s
  | .opt a, s => a.run s ++ [([], s)]
  | .star c, s => starRun c s
  | .group i a, s =>
    (a.run s).map fun m => ((i, s.take (s.length - m.2.length)) :: m.1, m.2)

/-- A lower bound on the number of characters a match of the pattern takes. -/
def Regex.minLen : Regex → Nat
  | .eps => 0
  | .lit l => l.length
  | .cls _ => 1
  | .seq a b => a.minLen + b.minLen
  | .alt a b => min a.minLen b.minLen
  | .opt _ => 0
  | .star _ => 0
  | .group _ a => a.minLen

/-- The concatenation of the patterns of a list. -/
def Regex.seqs : List Regex → Regex
  | [] => .eps
  | [a] => a
  | a :: b :: rest => .seq a (Regex.seqs (b :: rest))

/-- The ordered alternatives of a list (the empty list matches nothing). -/
def Regex.alts : List Regex → Regex
  | [] => .cls []
  | [a] => a
  | a :: b :: rest => .alt a (Regex.alts (b :: rest))

/-- The pattern of a literal text. -/
def Regex.str (s : String) : Regex := .lit s.toList

/-- The text of capturing group `i`; a group that did not take part in the match
is handed to a `string` argument as the empty text. -/
def capture (caps : Captures) (i : Nat) : List Char := (caps.lookup i).getD []

/-- The members of the character class `[0-9A-F]`, in the order of their values. -/
def upperHexDigits : List Char := "0123456789ABCDEF".toList

/-- The hexadecimal digits with the letters in lower case, in the order of their
values. -/
def lowerHexDigits : List Char := "0123456789abcdef".toList

/-- The value of one hexadecimal digit, read in either case: its position among the
sixteen digits. -/
def hexDigit (c : Char) : Option Nat :=
  let upper := upperHexDigits.indexOf c
  let lower := lowerHexDigits.indexOf c
  if upper < 16 then some upper
  else if lower < 16 then some lower
  else none

/-- The digits of a text read in base 16, most significant first. -/
def hexValue : List Char → Nat → Option Nat
  | [], acc => some acc
  | c :: t, acc =>
    match hexDigit c with
    | none => none
    | some d => hexValue t (acc * 16 + d)

/-- The conversion of `RE2::Hex` for a target of `bits` value bits: a non-empty
text of hexadecimal digits whose value fits the target. -/
def parseHex (bits : Nat) (s : List Char) : Option Nat :=
  match s with
  | [] => none
  | _ :: _ =>
    match hexValue s 0 with
    | none => none
    | some v => if v < 2 ^ bits then some v else none

/-- The call `RE2::Consume(&text, re, args...)`: the best match of `re` at the
start of the text, its groups converted to the arguments by `conv`; on success
the arguments and the text after the match, and `none` (text unchanged) when the
pattern does not match or an argument cannot be converted. -/
def Consume {α : Type} (re : Regex) (conv : Captures → Option α) (s : List Char) :
    Option (α × List Char) :=
  match (re.run s).head? with
  | none => none
  | some m =>
    match conv m.1 with
    | none => none
    | some a => some (a, m.2)

/-! ## Results -/

/-- How a call can end without a value: `invalidArgument` is the status produced
by `InvalidArgumentError`, `fatal` is a failed `CHECK` or `FindOrDie`, which
aborts the process, and `outOfSteps` marks a loop of the embedding that was
given too few steps (by `ParseEncodingSpecification_steps` the parser never ends
so). -/
inductive Failure where
  | invalidArgument (msg : String) : Failure
  | fatal (msg : String) : Failure
  | outOfSteps : Failure
  deriving DecidableEq

deriving instance DecidableEq for Except

/-- The loop `while (RE2::Consume(&text, re, args...)) body`, run for at most
`steps` iterations; `body` may leave the enclosing function with a failure. -/
def whileConsume {σ α : Type} (re : Regex) (conv : Captures → Option α)
    (body : σ → α → Except Failure σ) :
    Nat → σ → List Char → Except Failure (σ × List Char)
  | 0, _, _ => .error .outOfSteps
  | n + 1, st, s =>
    match Consume re conv s with
    | none => .ok (st, s)
    | some (a, rest) =>
      match body st a with
      | .error e => .error e
      | .ok st1 => whileConsume re conv body n st1 rest

/-! ## The data model

The messages and enumerations of `cpu_instructions/proto/x86/encoding_specification.proto`
and `instruction_encoding.proto` are not among the sources. They are modelled from
section 3 of the specification, with the names the source file uses for the fields
and values it reads and writes. -/

/-- Modelled from the spec: the enumeration `VexPrefixEncodingSpecification::VexPrefixType` of the
protocol buffer definitions, with the values the source file names. -/
inductive VexPrefixType where
  | VEX_PREFIX
  | EVEX_PREFIX
  deriving DecidableEq

/-- Modelled from the spec: the enumeration `VexPrefixEncodingSpecification::VexOperandUsage` of the
protocol buffer definitions, with the values the source file names. -/
inductive VexOperandUsage where
  | NO_VEX_OPERAND_USAGE
  | VEX_OPERAND_IS_FIRST_SOURCE_REGISTER
  | VEX_OPERAND_IS_DESTINATION_REGISTER
  | VEX_OPERAND_IS_SECOND_SOURCE_REGISTER
  deriving DecidableEq

/-- Modelled from the spec: the enumeration `VexPrefixEncodingSpecification::VectorSize` of the
protocol buffer definitions, with the values the source file names. -/
inductive VectorSize where
  | VECTOR_SIZE_BIT_IS_ZERO
  | VECTOR_SIZE_BIT_IS_ONE
  | VECTOR_SIZE_128_BIT
  | VECTOR_SIZE_256_BIT
  | VECTOR_SIZE_512_BIT
  | VECTOR_SIZE_IS_IGNORED
  deriving DecidableEq

/-- Modelled from the spec: the enumeration `VexEncoding::MandatoryPrefix` of the
protocol buffer definitions, with the values the source file names. -/
inductive MandatoryPrefix where
  | NO_MANDATORY_PREFIX
  | MANDATORY_PREFIX_OPERAND_SIZE_OVERRIDE
  | MANDATORY_PREFIX_REPNE
  | MANDATORY_PREFIX_REPE
  deriving DecidableEq

/-- Modelled from the spec: the enumeration `VexPrefixEncodingSpecification::VexWUsage` of the
protocol buffer definitions, with the values the source file names. -/
inductive VexWUsage where
  | VEX_W_IS_IGNORED
  | VEX_W_IS_ZERO
  | VEX_W_IS_ONE
  deriving DecidableEq

/-- Modelled from the spec: the enumeration `VexEncoding::MapSelect` of the
protocol buffer definitions, with the values the source file names. -/
inductive MapSelect where
  | MAP_SELECT_0F
  | MAP_SELECT_0F3A
  | MAP_SELECT_0F38
  deriving DecidableEq

/-- Modelled from the spec: the enumeration `VexPrefixEncodingSpecification::VsibUsage` of the
protocol buffer definitions, with the values the source file names. -/
inductive VsibUsage where
  | VSIB_UNUSED
  | VSIB_USED
  deriving DecidableEq

/-- Modelled from the spec: the enumeration `EncodingSpecification::OperandInOpcode` of the
protocol buffer definitions, with the values the source file names. -/
inductive OperandInOpcode where
  | NO_OPERAND_IN_OPCODE
  | GENERAL_PURPOSE_REGISTER_IN_OPCODE
  | FP_STACK_REGISTER_IN_OPCODE
  deriving DecidableEq

/-- Modelled from the spec: the enumeration `EncodingSpecification::ModRmUsage` of the
protocol buffer definitions, with the values the source file names. -/
inductive ModRmUsage where
  | NO_MODRM_USAGE
  | FULL_MODRM
  | OPCODE_EXTENSION_IN_MODRM
  deriving DecidableEq

/-- Modelled from the spec: the enumeration `InstructionOperand::Encoding` of the
protocol buffer definitions, with the values that `GetAvailableEncodings` inserts. -/
inductive Encoding where
  | MODRM_REG_ENCODING
  | MODRM_RM_ENCODING
  | OPCODE_ENCODING
  | VEX_V_ENCODING
  | VEX_SUFFIX_ENCODING
  | VSIB_ENCODING
  | IMMEDIATE_VALUE_ENCODING
  deriving DecidableEq

/-- Modelled from the spec: the message `LegacyPrefixEncodingSpecification` of the
protocol buffer definitions, five flags that are false in a fresh message. -/
structure LegacyPrefixEncodingSpecification where
  has_mandatory_operand_size_override_prefix : Bool := false
  has_mandatory_address_size_override_prefix : Bool := false
  has_mandatory_repe_prefix : Bool := false
  has_mandatory_repne_prefix : Bool := false
  has_mandatory_rex_w_prefix : Bool := false
  deriving DecidableEq

/-- Modelled from the spec: the message `VexPrefixEncodingSpecification` of the
protocol buffer definitions; a prefix has no operand suffix and does not use VSIB
until the suffix parser says so. -/
structure VexPrefixEncodingSpecification where
  prefix_type : VexPrefixType
  vex_operand_usage : VexOperandUsage
  vector_size : VectorSize
  mandatory_prefix : MandatoryPrefix
  vex_w_usage : VexWUsage
  map_select : MapSelect
  has_vex_operand_suffix : Bool := false
  vsib_usage : VsibUsage := .VSIB_UNUSED
  deriving DecidableEq

/-- Modelled from the spec: the message `EncodingSpecification` of the protocol
buffer definitions. The two prefix messages are optional sub-messages
(`has_vex_prefix()` is `vex_prefix.isSome`); a cleared message has neither, opcode
0, no operand in the opcode, no ModR/M usage, no immediate value and code offset
size 0, which stands for no code offset. -/
structure EncodingSpecification where
  legacy_prefixes : Option LegacyPrefixEncodingSpecification := none
  vex_prefix : Option VexPrefixEncodingSpecification := none
  opcode : Nat := 0
  operand_in_opcode : OperandInOpcode := .NO_OPERAND_IN_OPCODE
  modrm_usage : ModRmUsage := .NO_MODRM_USAGE
  modrm_opcode_extension : Int := 0
  immediate_value_bytes : List Nat := []
  code_offset_bytes : Nat := 0
  deriving DecidableEq

/-- Modelled from the spec: the generated accessor `has_vex_prefix()`, which tells
whether the VEX prefix is populated. -/
def has_vex_prefix (spec : EncodingSpecification) : Bool :=
  Option.isSome spec.vex_prefix

/-- Modelled from the spec: the read `specification.vex_prefix().vsib_usage()`
through the generated accessors; the getter of an absent sub-message reads the
default message, whose usage is `VSIB_UNUSED`. -/
def vsib_usage (spec : EncodingSpecification) : VsibUsage :=
  match spec.vex_prefix with
  | some vex => vex.vsib_usage
  | none => .VSIB_UNUSED

/-! ## Token tables -/

/-- The table `kVexOperandUsageTokens`. -/
def kVexOperandUsageTokens : List (List Char × VexOperandUsage) :=
  [ ("".toList, .NO_VEX_OPERAND_USAGE),
    ("NDS".toList, .VEX_OPERAND_IS_FIRST_SOURCE_REGISTER),
    ("NDD".toList, .VEX_OPERAND_IS_DESTINATION_REGISTER),
    ("DDS".toList, .VEX_OPERAND_IS_SECOND_SOURCE_REGISTER) ]

/-- The table `kVectorSizeTokens`. -/
def kVectorSizeTokens : List (List Char × VectorSize) :=
  [ ("LZ".toList, .VECTOR_SIZE_BIT_IS_ZERO),
    ("L0".toList, .VECTOR_SIZE_BIT_IS_ZERO),
    ("L1".toList, .VECTOR_SIZE_BIT_IS_ONE),
    ("128".toList, .VECTOR_SIZE_128_BIT),
    ("256".toList, .VECTOR_SIZE_256_BIT),
    ("512".toList, .VECTOR_SIZE_512_BIT),
    ("LIG".toList, .VECTOR_SIZE_IS_IGNORED),
    ("LIG.128".toList, .VECTOR_SIZE_128_BIT) ]

/-- The table `kMandatoryPrefixTokens`. -/
def kMandatoryPrefixTokens : List (List Char × MandatoryPrefix) :=
  [ ("".toList, .NO_MANDATORY_PREFIX),
    ("66".toList, .MANDATORY_PREFIX_OPERAND_SIZE_OVERRIDE),
    ("F2".toList, .MANDATORY_PREFIX_REPNE),
    ("F3".toList, .MANDATORY_PREFIX_REPE) ]

/-- The table `kVexWUsageTokens`. -/
def kVexWUsageTokens : List (List Char × VexWUsage) :=
  [ ("".toList, .VEX_W_IS_IGNORED),
    ("W0".toList, .VEX_W_IS_ZERO),
    ("W1".toList, .VEX_W_IS_ONE),
    ("WIG".toList, .VEX_W_IS_IGNORED) ]

/-- The table `kMapSelectTokens`. -/
def kMapSelectTokens : List (Nat × MapSelect) :=
  [ (0x0f, .MAP_SELECT_0F),
    (0x0f3a, .MAP_SELECT_0F3A),
    (0x0f38, .MAP_SELECT_0F38) ]

/-- Modelled from the spec: the lookup `FindOrDie(map, key)` of `util/gtl/map_util.h`,
the value stored under the key and a fatal failure when the map has no such key. -/
def FindOrDie {κ β : Type} [BEq κ] (table : List (κ × β)) (key : κ) : Except Failure β :=
  match table.lookup key with
  | some v => .ok v
  | none => .error (.fatal "Map key not found")

/-! ## The parser -/

/-- The test `sp.starts_with(text)` of a `StringPiece`. -/
def starts_with (sp : List Char) (text : String) : Bool :=
  text.toList.isPrefixOf sp

/-- The function `ConsumeWhitespace`: removes leading spaces and `+` signs. -/
def ConsumeWhitespace : List Char → List Char
  | [] => []
  | c :: t => if c = ' ' ∨ c = '+' then ConsumeWhitespace t else c :: t

/-- The value of a C++ expression stored in a `uint32_t`. -/
def uint32 (n : Nat) : Nat := n % 4294967296

/-- The pattern `kLegacyPrefixRegex`:
`" *(?:(66)|(67)|(F2)|(F3)|(REX(?:\\.(?:R|W))?))(?: *\\+ *)?"`. -/
def kLegacyPrefixRegex : Regex :=
  .seqs [
    .star ' ',
    .alts [
      .group 1 (.str "66"),
      .group 2 (.str "67"),
      .group 3 (.str "F2"),
      .group 4 (.str "F3"),
      .group 5 (.seqs [.str "REX", .opt (.seqs [.str ".", .alts [.str "R", .str "W"]])]) ],
    .opt (.seqs [.star ' ', .str "+", .star ' ']) ]

/-- The sub-pattern `" *\\. *"` that separates the fields of a VEX prefix. -/
def vexDot : Regex := .seqs [.star ' ', .str ".", .star ' ']

/-- The pattern `kVexPrefixRegexp`:
`"(E?VEX)(?: *\\. *(NDS|NDD|DDS))?(?: *\\. *(LIG|LZ|L0|L1|LIG\\.128|128|256|512))?"`
`"(?: *\\. *(66|F2|F3))? *\\. *(0F|0F3A|0F38)(?: *\\. *(W0|W1|WIG))? "`. -/
def kVexPrefixRegexp : Regex :=
  .seqs [
    .group 1 (.seqs [.opt (.str "E"), .str "VEX"]),
    .opt (.seqs [vexDot, .group 2 (.alts [.str "NDS", .str "NDD", .str "DDS"])]),
    .opt (.seqs [vexDot, .group 3 (.alts [.str "LIG", .str "LZ", .str "L0", .str "L1",
      .str "LIG.128", .str "128", .str "256", .str "512"])]),
    .opt (.seqs [vexDot, .group 4 (.alts [.str "66", .str "F2", .str "F3"])]),
    vexDot,
    .group 5 (.alts [.str "0F", .str "0F3A", .str "0F38"]),
    .opt (.seqs [vexDot, .group 6 (.alts [.str "W0", .str "W1", .str "WIG"])]),
    .str " " ]

/-- The pattern `opcode_byte_parser`:
`" *([0-9A-F]{2})(?: *\\+ *(i|rb|rw|rd|ro))?"`. -/
def opcode_byte_parser_re : Regex :=
  .seqs [
    .star ' ',
    .group 1 (.seqs [.cls upperHexDigits, .cls upperHexDigits]),
    .opt (.seqs [.star ' ', .str "+", .star ' ',
      .group 2 (.alts [.str "i", .str "rb", .str "rw", .str "rd", .str "ro"])]) ]

/-- The pattern `modrm_and_imm_parser`:
`" *(?:(\\/is4)|i([bwdo])|/([r0-9])|(/vsib)|(?:m(?:64|128|256))|c([bwdpot]))"`. -/
def modrm_and_imm_parser_re : Regex :=
  .seqs [
    .star ' ',
    .alts [
      .group 1 (.str "/is4"),
      .seqs [.str "i", .group 2 (.cls "bwdo".toList)],
      .seqs [.str "/", .group 3 (.cls "r0123456789".toList)],
      .group 4 (.str "/vsib"),
      .seqs [.str "m", .alts [.str "64", .str "128", .str "256"]],
      .seqs [.str "c", .group 5 (.cls "bwdpot".toList)] ] ]

/-- The five `string` arguments of the `Consume` call of `ParseLegacyPrefixes`. -/
structure LegacyPrefixArgs where
  operand_size_override_prefix : List Char
  address_size_override_prefix : List Char
  repne_prefix : List Char
  repe_prefix : List Char
  rex_prefix : List Char

/-- The arguments of the `Consume` call of `ParseLegacyPrefixes`, from the groups. -/
def legacyPrefixArgs (caps : Captures) : Option LegacyPrefixArgs :=
  some {
    operand_size_override_prefix := capture caps 1
    address_size_override_prefix := capture caps 2
    repne_prefix := capture caps 3
    repe_prefix := capture caps 4
    rex_prefix := capture caps 5 }

/-- The body of the loop of `ParseLegacyPrefixes`: each flag is or-ed with the
non-emptiness of its argument; the state is the five local flags. -/
def legacyPrefixBody (flags : LegacyPrefixEncodingSpecification) (args : LegacyPrefixArgs) :
    Except Failure LegacyPrefixEncodingSpecification :=
  .ok {
    has_mandatory_operand_size_override_prefix :=
      flags.has_mandatory_operand_size_override_prefix ||
        !args.operand_size_override_prefix.isEmpty
    has_mandatory_address_size_override_prefix :=
      flags.has_mandatory_address_size_override_prefix ||
        !args.address_size_override_prefix.isEmpty
    has_mandatory_repe_prefix := flags.has_mandatory_repe_prefix || !args.repe_prefix.isEmpty
    has_mandatory_repne_prefix := flags.has_mandatory_repne_prefix || !args.repne_prefix.isEmpty
    has_mandatory_rex_w_prefix := flags.has_mandatory_rex_w_prefix || !args.rex_prefix.isEmpty }

/-- The method `ParseLegacyPrefixes`: consumes the legacy prefixes at the start of
the text, stores the flags in a populated `legacy_prefixes` and returns the new
parser state with the text after the prefixes. -/
def ParseLegacyPrefixes (specification_ : EncodingSpecification) (specification : List Char) :
    Except Failure (EncodingSpecification × List Char) :=
  match whileConsume kLegacyPrefixRegex legacyPrefixArgs legacyPrefixBody
      (specification.length + 1) {} specification with
  | .error e => .error e
  | .ok (flags, rest) => .ok ({ specification_ with legacy_prefixes := some flags }, rest)

/-- The arguments of the `Consume` call of `ParseVexOrEvexPrefix`. -/
structure VexPrefixArgs where
  prefix_type_str : List Char
  vex_operand_directionality : List Char
  vex_l_usage_str : List Char
  mandatory_prefix_str : List Char
  opcode_map : Nat
  vex_w_str : List Char

/-- The arguments of the `Consume` call of `ParseVexOrEvexPrefix`, from the groups;
the fifth is converted by `RE2::Hex` into a `uint32_t`. -/
def vexPrefixArgs (caps : Captures) : Option VexPrefixArgs :=
  match parseHex 32 (capture caps 5) with
  | none => none
  | some opcode_map =>
    some {
      prefix_type_str := capture caps 1
      vex_operand_directionality := capture caps 2
      vex_l_usage_str := capture caps 3
      mandatory_prefix_str := capture caps 4
      opcode_map := opcode_map
      vex_w_str := capture caps 6 }

/-- The failure for a 512 bit vector size outside an EVEX prefix. -/
def vectorSize512 : Failure :=
  .invalidArgument "The 512 bit vector size can be used only in an EVEX prefix"

/-- The method `ParseVexOrEvexPrefix`: matches the VEX prefix pattern, resolves
its tokens through the tables in the order of the source, rejects the 512 bit
size outside EVEX and seeds the opcode with the opcode map. -/
def ParseVexOrEvexPrefix (specification_ : EncodingSpecification) (specification : List Char) :
    Except Failure (EncodingSpecification × List Char) :=
  match Consume kVexPrefixRegexp vexPrefixArgs specification with
  | none =>
    .error (.invalidArgument
      ("Could not parse the VEX prefix: \x27" ++ String.mk specification ++ "\x27"))
  | some (args, rest) =>
    let prefix_type : VexPrefixType :=
      if args.prefix_type_str = "EVEX".toList then .EVEX_PREFIX else .VEX_PREFIX
    match FindOrDie kVectorSizeTokens args.vex_l_usage_str with
    | .error e => .error e
    | .ok vector_size =>
    match FindOrDie kVexOperandUsageTokens args.vex_operand_directionality with
    | .error e => .error e
    | .ok vex_operand_usage =>
    if vector_size = .VECTOR_SIZE_512_BIT ∧ prefix_type ≠ .EVEX_PREFIX then
      .error vectorSize512
    else
    match FindOrDie kMandatoryPrefixTokens args.mandatory_prefix_str with
    | .error e => .error e
    | .ok mandatory_prefix =>
    match FindOrDie kVexWUsageTokens args.vex_w_str with
    | .error e => .error e
    | .ok vex_w_usage =>
    match FindOrDie kMapSelectTokens args.opcode_map with
    | .error e => .error e
    | .ok map_select =>
      .ok ({ specification_ with
              vex_prefix := some {
                prefix_type := prefix_type
                vex_operand_usage := vex_operand_usage
                vector_size := vector_size
                mandatory_prefix := mandatory_prefix
                vex_w_usage := vex_w_usage
                map_select := map_select }
              opcode := args.opcode_map }, rest)

/-- The state of the opcode byte loop of `ParseOpcodeAndSuffixes`. -/
structure OpcodeState where
  num_opcode_bytes : Nat
  opcode : Nat
  specification_ : EncodingSpecification

/-- The arguments of the `Consume` call of the opcode byte loop; the first is
converted by `RE2::Hex` into an `int`. -/
def opcodeByteArgs (caps : Captures) : Option (Nat × List Char) :=
  match parseHex 31 (capture caps 1) with
  | none => none
  | some opcode_byte => some (opcode_byte, capture caps 2)

/-- The body of the opcode byte loop. -/
def opcodeByteBody (st : OpcodeState) (args : Nat × List Char) : Except Failure OpcodeState :=
  let opcode := uint32 (uint32 (st.opcode <<< 8) ||| args.1)
  match args.2 with
  | [] => .ok { st with num_opcode_bytes := st.num_opcode_bytes + 1, opcode := opcode }
  | c :: _ =>
    .ok {
      num_opcode_bytes := st.num_opcode_bytes + 1
      opcode := opcode
      specification_ := { st.specification_ with
        operand_in_opcode :=
          if c = 'i' then .FP_STACK_REGISTER_IN_OPCODE
          else .GENERAL_PURPOSE_REGISTER_IN_OPCODE } }

/-- The opcode byte loop of `ParseOpcodeAndSuffixes`, from the initialisation of
its variables to its exit: the final variables and the text after the bytes. -/
def ParseOpcodeBytes (specification_ : EncodingSpecification) (specification : List Char) :
    Except Failure (OpcodeState × List Char) :=
  whileConsume opcode_byte_parser_re opcodeByteArgs opcodeByteBody (specification.length + 1)
    { num_opcode_bytes := 0, opcode := specification_.opcode, specification_ := specification_ }
    specification

/-- The arguments of the `Consume` call of the suffix loop. -/
structure SuffixArgs where
  is4_suffix_str : List Char
  immediate_value_size_str : List Char
  modrm_suffix_str : List Char
  vsib_suffix_str : List Char
  code_offset_size_str : List Char

/-- The arguments of the `Consume` call of the suffix loop, from the groups. -/
def suffixArgs (caps : Captures) : Option SuffixArgs :=
  some {
    is4_suffix_str := capture caps 1
    immediate_value_size_str := capture caps 2
    modrm_suffix_str := capture caps 3
    vsib_suffix_str := capture caps 4
    code_offset_size_str := capture caps 5 }

/-- The update `mutable_vex_prefix()->set_...` of a present VEX prefix. -/
def updateVexPrefix (spec : EncodingSpecification)
    (f : VexPrefixEncodingSpecification → VexPrefixEncodingSpecification) :
    EncodingSpecification :=
  { spec with vex_prefix := Option.map f spec.vex_prefix }

/-- The body of the suffix loop of `ParseOpcodeAndSuffixes`. -/
def suffixBody (spec : EncodingSpecification) (args : SuffixArgs) :
    Except Failure EncodingSpecification :=
  match args.modrm_suffix_str with
  | modrm_suffix :: _ =>
    if modrm_suffix = 'r' then .ok { spec with modrm_usage := .FULL_MODRM }
    else
      .ok { spec with
        modrm_usage := .OPCODE_EXTENSION_IN_MODRM
        modrm_opcode_extension := (modrm_suffix.toNat : Int) - ('0'.toNat : Int) }
  | [] =>
  match args.immediate_value_size_str with
  | size :: _ =>
    if size = 'b' then
      .ok { spec with immediate_value_bytes := spec.immediate_value_bytes ++ [1] }
    else if size = 'w' then
      .ok { spec with immediate_value_bytes := spec.immediate_value_bytes ++ [2] }
    else if size = 'd' then
      .ok { spec with immediate_value_bytes := spec.immediate_value_bytes ++ [4] }
    else if size = 'o' then
      .ok { spec with immediate_value_bytes := spec.immediate_value_bytes ++ [8] }
    else
      .error (.invalidArgument
        ("Invalid immediate value size: " ++ String.mk args.immediate_value_size_str))
  | [] =>
  match args.code_offset_size_str with
  | size :: _ =>
    if size = 'b' then .ok { spec with code_offset_bytes := 1 }
    else if size = 'w' then .ok { spec with code_offset_bytes := 2 }
    else if size = 'd' then .ok { spec with code_offset_bytes := 4 }
    else if size = 'p' then .ok { spec with code_offset_bytes := 6 }
    else if size = 'o' then .ok { spec with code_offset_bytes := 8 }
    else if size = 't' then .ok { spec with code_offset_bytes := 10 }
    else
      .error (.invalidArgument
        ("Invalid code offset size: " ++ String.mk args.immediate_value_size_str))
  | [] =>
  match args.is4_suffix_str with
  | _ :: _ =>
    if args.is4_suffix_str ≠ "/is4".toList then .error (.fatal "Check failed: /is4")
    else if has_vex_prefix spec = false then
      .error (.invalidArgument
        ("The VEX operand suffix /is4 is specified for an instruction that " ++
          "does not use the VEX prefix."))
    else .ok (updateVexPrefix spec fun vex => { vex with has_vex_operand_suffix := true })
  | [] =>
  match args.vsib_suffix_str with
  | _ :: _ =>
    if args.vsib_suffix_str ≠ "/vsib".toList then .error (.fatal "Check failed: /vsib")
    else if has_vex_prefix spec = false then
      .error (.invalidArgument
        ("The VEX operand suffix /vsib is specified for an instruction that " ++
          "does not use the VEX prefix."))
    else .ok (updateVexPrefix spec fun vex => { vex with vsib_usage := .VSIB_USED })
  | [] => .ok spec

/-- The suffix loop of `ParseOpcodeAndSuffixes`: the parser state when the loop
stops and the text it did not consume. -/
def ParseSuffixes (specification_ : EncodingSpecification) (specification : List Char) :
    Except Failure (EncodingSpecification × List Char) :=
  whileConsume modrm_and_imm_parser_re suffixArgs suffixBody (specification.length + 1)
    specification_ specification

/-- The message of the failure for text left after the suffixes. -/
def notFullyParsed (rest : List Char) : Failure :=
  .invalidArgument ("The specification was not fully parsed: " ++ String.mk rest)

/-- The failure for a specification without an opcode byte. -/
def noOpcodeByte : Failure :=
  .invalidArgument "The instruction did not have an opcode byte."

/-- The failure for a VEX specification with other than one opcode byte. -/
def unexpectedOpcodeBytes : Failure :=
  .invalidArgument "Unexpected number of opcode bytes in a VEX-encoded instruction."

/-- The method `ParseOpcodeAndSuffixes`: the opcode byte loop, the checks on the
number of bytes, the suffix loop, the VSIB fix-up and the check that nothing but
spaces and `+` signs is left. -/
def ParseOpcodeAndSuffixes (specification_ : EncodingSpecification) (specification : List Char) :
    Except Failure EncodingSpecification :=
  match ParseOpcodeBytes specification_ specification with
  | .error e => .error e
  | .ok (st, rest) =>
    let spec1 : EncodingSpecification := { st.specification_ with opcode := st.opcode }
    if st.num_opcode_bytes = 0 then .error noOpcodeByte
    else if has_vex_prefix spec1 ∧ st.num_opcode_bytes ≠ 1 then .error unexpectedOpcodeBytes
    else if rest.isEmpty then .ok spec1
    else
      match ParseSuffixes spec1 rest with
      | .error e => .error e
      | .ok (spec2, rest2) =>
        let spec3 : EncodingSpecification :=
          if vsib_usage spec2 = .VSIB_USED ∧ spec2.modrm_usage = .NO_MODRM_USAGE then
            { spec2 with modrm_usage := .FULL_MODRM }
          else spec2
        match ConsumeWhitespace rest2 with
        | [] => .ok spec3
        | c :: t => .error (notFullyParsed (c :: t))

/-- The first statement of `ParseFromString`: the prefix parser chosen by the
start of the text, run on the given parser state. -/
def ParsePrefix (specification_ : EncodingSpecification) (specification : List Char) :
    Except Failure (EncodingSpecification × List Char) :=
  if starts_with specification "VEX." || starts_with specification "EVEX" then
    ParseVexOrEvexPrefix specification_ specification
  else
    ParseLegacyPrefixes specification_ specification

/-- The method `ParseFromString`: clears the state, parses the prefix with the
parser chosen by the start of the text, then the opcode and the suffixes. -/
def ParseFromString (specification : List Char) : Except Failure EncodingSpecification :=
  match ParsePrefix {} specification with
  | .error e => .error e
  | .ok (spec1, rest) => ParseOpcodeAndSuffixes spec1 rest

/-- The function `ParseEncodingSpecification`. -/
def ParseEncodingSpecification (specification : String) : Except Failure EncodingSpecification :=
  ParseFromString specification.toList

/-- The part of the prefix description that the prefix parsers write and the
opcode and suffix parser leaves alone: the legacy prefixes and, of a VEX prefix,
everything but the operand suffix flag and the VSIB usage. -/
def prefixCore (spec : EncodingSpecification) :
    Option LegacyPrefixEncodingSpecification ×
      Option (VexPrefixType × VexOperandUsage × VectorSize × MandatoryPrefix × VexWUsage ×
        MapSelect) :=
  (spec.legacy_prefixes,
    Option.map (fun vex => (vex.prefix_type, vex.vex_operand_usage, vex.vector_size,
      vex.mandatory_prefix, vex.vex_w_usage, vex.map_select)) spec.vex_prefix)

/-! ## Operand encodings -/

/-- The function `GetAvailableEncodings`; `erase(key)` of a `std::multiset` removes
every element equal to the key, and the `CHECK_NE` on the ModR/M usage is a fatal
failure. -/
def GetAvailableEncodings (encoding_specification : EncodingSpecification) :
    Except Failure (Multiset Encoding) :=
  let modrm : Multiset Encoding :=
    match encoding_specification.modrm_usage with
    | .FULL_MODRM => Encoding.MODRM_RM_ENCODING ::ₘ Encoding.MODRM_REG_ENCODING ::ₘ 0
    | .OPCODE_EXTENSION_IN_MODRM => Encoding.MODRM_RM_ENCODING ::ₘ 0
    | .NO_MODRM_USAGE => 0
  let with_opcode : Multiset Encoding :=
    if encoding_specification.operand_in_opcode ≠ .NO_OPERAND_IN_OPCODE then
      Encoding.OPCODE_ENCODING ::ₘ modrm
    else modrm
  let num_implicit_operands : Nat :=
    encoding_specification.immediate_value_bytes.length +
      (if encoding_specification.code_offset_bytes > 0 then 1 else 0)
  let implicit : Multiset Encoding :=
    Multiset.replicate num_implicit_operands Encoding.IMMEDIATE_VALUE_ENCODING
  match encoding_specification.vex_prefix with
  | none => .ok (with_opcode + implicit)
  | some vex =>
    let with_v : Multiset Encoding :=
      if vex.vex_operand_usage ≠ .NO_VEX_OPERAND_USAGE then
        Encoding.VEX_V_ENCODING ::ₘ with_opcode
      else with_opcode
    let with_suffix : Multiset Encoding :=
      if vex.has_vex_operand_suffix then Encoding.VEX_SUFFIX_ENCODING ::ₘ with_v else with_v
    if vex.vsib_usage ≠ .VSIB_UNUSED then
      if encoding_specification.modrm_usage = .NO_MODRM_USAGE then
        .error (.fatal "Check failed: modrm_usage != NO_MODRM_USAGE")
      else
        .ok (Multiset.filter (fun e => e ≠ Encoding.MODRM_RM_ENCODING)
          (Encoding.VSIB_ENCODING ::ₘ with_suffix) + implicit)
    else .ok (with_suffix + implicit)

/-! ## Texts and sub-patterns used to state the claims -/

/-- The legacy prefix tokens of the specification language. -/
def legacyPrefixTokens : List String := ["66", "67", "F2", "F3", "REX", "REX.R", "REX.W"]

/-- The text begins with one of the legacy prefix tokens. -/
def beginsWithLegacyPrefixToken (s : List Char) : Bool :=
  legacyPrefixTokens.any fun token => starts_with s token

/-- The text without its leading spaces. -/
def dropSpaces : List Char → List Char
  | [] => []
  | c :: t => if c = ' ' then dropSpaces t else c :: t

/-- The alternatives `(?:(66)|(67)|(F2)|(F3)|(REX(?:\\.(?:R|W))?))` of
`kLegacyPrefixRegex`. -/
def legacyAlts : Regex :=
  .alts [
    .group 1 (.str "66"),
    .group 2 (.str "67"),
    .group 3 (.str "F2"),
    .group 4 (.str "F3"),
    .group 5 (.seqs [.str "REX", .opt (.seqs [.str ".", .alts [.str "R", .str "W"]])]) ]

/-- The tail `(?: *\\+ *)?` of `kLegacyPrefixRegex`. -/
def legacySep : Regex := .opt (.seqs [.star ' ', .str "+", .star ' '])

/-- The text begins with two uppercase hexadecimal digits. -/
def beginsWithOpcodeByte (s : List Char) : Bool :=
  match s with
  | a :: b :: _ => upperHexDigits.contains a && upperHexDigits.contains b
  | _ => false

/-- The group `([0-9A-F]{2})` of `opcode_byte_parser`. -/
def opcodeByteGroup : Regex :=
  .group 1 (.seqs [.cls upperHexDigits, .cls upperHexDigits])

/-- The tail `(?: *\\+ *(i|rb|rw|rd|ro))?` of `opcode_byte_parser`. -/
def opcodeByteMarker : Regex :=
  .opt (.seqs [.star ' ', .str "+", .star ' ',
      .group 2 (.alts [.str "i", .str "rb", .str "rw", .str "rd", .str "ro"])])

/-- The group `(E?VEX)` of `kVexPrefixRegexp`. -/
def vexFamily : Regex := .group 1 (.seqs [.opt (.str "E"), .str "VEX"])

/-- The part of `kVexPrefixRegexp` after the group `(E?VEX)`. -/
def vexFields : Regex :=
  .seqs [
    .opt (.seqs [vexDot, .group 2 (.alts [.str "NDS", .str "NDD", .str "DDS"])]),
    .opt (.seqs [vexDot, .group 3 (.alts [.str "LIG", .str "LZ", .str "L0", .str "L1",
      .str "LIG.128", .str "128", .str "256", .str "512"])]),
    .opt (.seqs [vexDot, .group 4 (.alts [.str "66", .str "F2", .str "F3"])]),
    vexDot,
    .group 5 (.alts [.str "0F", .str "0F3A", .str "0F38"]),
    .opt (.seqs [vexDot, .group 6 (.alts [.str "W0", .str "W1", .str "WIG"])]),
    .str " " ]

/-- The text left after the separator `(?: *\\+ *)?` is matched at the start of a text. -/
def afterSeparator (w : List Char) : List Char :=
  match (legacySep.run w).head? with
  | some m => m.2
  | none => w

/-- The flags after a legacy prefix token has been matched. -/
def addLegacyPrefixToken (flags : LegacyPrefixEncodingSpecification) (token : String) :
    LegacyPrefixEncodingSpecification :=
  { has_mandatory_operand_size_override_prefix :=
      flags.has_mandatory_operand_size_override_prefix || token == "66"
    has_mandatory_address_size_override_prefix :=
      flags.has_mandatory_address_size_override_prefix || token == "67"
    has_mandatory_repe_prefix := flags.has_mandatory_repe_prefix || token == "F3"
    has_mandatory_repne_prefix := flags.has_mandatory_repne_prefix || token == "F2"
    has_mandatory_rex_w_prefix :=
      flags.has_mandatory_rex_w_prefix ||
        (token == "REX" || token == "REX.R" || token == "REX.W") }

/-- The tokens of a list separated by single spaces. -/
def spaceSeparated : List String → List Char
  | [] => []
  | [t] => t.toList
  | t :: u :: rest => t.toList ++ ' ' :: spaceSeparated (u :: rest)

/-- A pattern without capturing groups. -/
def Regex.groupFree : Regex → Bool
  | .eps => true
  | .lit _ => true
  | .cls _ => true
  | .seq a b => a.groupFree && b.groupFree
  | .alt a b => a.groupFree && b.groupFree
  | .opt a => a.groupFree
  | .star _ => true
  | .group _ _ => false

/-- The legacy prefix loop, given enough steps for its text. -/
def legacyPrefixLoop (flags : LegacyPrefixEncodingSpecification) (s : List Char) :
    Except Failure (LegacyPrefixEncodingSpecification × List Char) :=
  whileConsume kLegacyPrefixRegex legacyPrefixArgs legacyPrefixBody (s.length + 1) flags s

/-- The arguments of the successive matches of a pattern from the start of a text:
the matches that a loop `while (RE2::Consume(&text, re, args...))` makes when its
body never leaves it, for at most `steps` iterations. -/
def consumed {α : Type} (re : Regex) (conv : Captures → Option α) : Nat → List Char → List α
  | 0, _ => []
  | n + 1, s =>
    match Consume re conv s with
    | none => []
    | some (a, rest) => a :: consumed re conv n rest

/-- The alternatives of `modrm_and_imm_parser` after its leading `" *"`. -/
def suffixAlts : Regex :=
  .alts [
    .group 1 (.str "/is4"),
    .seqs [.str "i", .group 2 (.cls "bwdo".toList)],
    .seqs [.str "/", .group 3 (.cls "r0123456789".toList)],
    .group 4 (.str "/vsib"),
    .seqs [.str "m", .alts [.str "64", .str "128", .str "256"]],
    .seqs [.str "c", .group 5 (.cls "bwdpot".toList)] ]

/-- The shapes of the arguments that a match of `modrm_and_imm_parser` hands to the
suffix loop: exactly one kind of suffix, or none for a memory size marker. -/
def suffixShape (a : SuffixArgs) : Prop :=
  a = ⟨"/is4".toList, [], [], [], []⟩ ∨
  (∃ c, "bwdo".toList.contains c = true ∧ a = ⟨[], [c], [], [], []⟩) ∨
  (∃ c, "r0123456789".toList.contains c = true ∧ a = ⟨[], [], [c], [], []⟩) ∨
  a = ⟨[], [], [], "/vsib".toList, []⟩ ∨
  a = ⟨[], [], [], [], []⟩ ∨
  (∃ c, "bwdpot".toList.contains c = true ∧ a = ⟨[], [], [], [], [c]⟩)

/-- The VEX prefix of the descriptor uses VSIB. -/
def usesVsib (spec : EncodingSpecification) : Bool :=
  match spec.vex_prefix with
  | some vex => vex.vsib_usage != .VSIB_UNUSED
  | none => false

/-- The numeric value of an opcode map token: `0F`, `0F3A` or `0F38` read in base 16. -/
def mapSelectValue : MapSelect → Nat
  | .MAP_SELECT_0F => 0x0f
  | .MAP_SELECT_0F3A => 0x0f3a
  | .MAP_SELECT_0F38 => 0x0f38

/-- The opcode bytes and their operand-in-opcode markers that the opcode byte loop
matches on a text, in the order of the text. -/
def opcodeByteMatches (s : List Char) : List (Nat × List Char) :=
  consumed opcode_byte_parser_re opcodeByteArgs (s.length + 1) s

/-- The values of the opcode bytes that the opcode byte loop matches on a text, in
the order of the text. -/
def opcodeBytes (s : List Char) : List Nat :=
  (opcodeByteMatches s).map fun a => a.1

/-- The suffix tokens that the pattern of the suffix loop matches on a text, in the
order of the text, each as the arguments it hands to the loop. -/
def suffixTokens (s : List Char) : List SuffixArgs :=
  consumed modrm_and_imm_parser_re suffixArgs (s.length + 1) s

/-- The width that an immediate value suffix token stands for: `ib` 1, `iw` 2, `id`
4 and `io` 8; no width for a token of another kind. -/
def immediateWidth (a : SuffixArgs) : Option Nat :=
  match a.immediate_value_size_str with
  | ['b'] => some 1
  | ['w'] => some 2
  | ['d'] => some 4
  | ['o'] => some 8
  | _ => none

/-- The width that a code offset suffix token stands for: `cb` 1, `cw` 2, `cd` 4,
`cp` 6, `co` 8 and `ct` 10; no width for a token of another kind. -/
def codeOffsetWidth (a : SuffixArgs) : Option Nat :=
  match a.code_offset_size_str with
  | ['b'] => some 1
  | ['w'] => some 2
  | ['d'] => some 4
  | ['p'] => some 6
  | ['o'] => some 8
  | ['t'] => some 10
  | _ => none

/-- The character after the slash of a ModR/M suffix token, `r` or a digit; none for
a token of another kind. -/
def modRmSuffix (a : SuffixArgs) : Option Char := a.modrm_suffix_str.head?

/-- The ModR/M usage that a ModR/M suffix token stands for. -/
def modRmUsageOf (a : SuffixArgs) : Option ModRmUsage :=
  (modRmSuffix a).map fun c => if c = 'r' then .FULL_MODRM else .OPCODE_EXTENSION_IN_MODRM

/-- The opcode extension that a ModR/M suffix token with a digit stands for. -/
def modRmExtensionOf (a : SuffixArgs) : Option Int :=
  (modRmSuffix a).bind fun c =>
    if c = 'r' then none else some ((c.toNat : Int) - ('0'.toNat : Int))

/-- The VSIB fix-up at the end of `ParseOpcodeAndSuffixes`. -/
def vsibFixup (spec : EncodingSpecification) : EncodingSpecification :=
  if vsib_usage spec = .VSIB_USED ∧ spec.modrm_usage = .NO_MODRM_USAGE then
    { spec with modrm_usage := .FULL_MODRM }
  else spec

/-- The failure for the suffix `/is4` without a VEX prefix. -/
def is4WithoutVex : Failure :=
  .invalidArgument
    ("The VEX operand suffix /is4 is specified for an instruction that " ++
      "does not use the VEX prefix.")

/-- The failure for the suffix `/vsib` without a VEX prefix. -/
def vsibWithoutVex : Failure :=
  .invalidArgument
    ("The VEX operand suffix /vsib is specified for an instruction that " ++
      "does not use the VEX prefix.")

/-- A dot between two fields of a VEX prefix, with `a` spaces before it and `b`
spaces after it: a text of the sub-pattern `" *\\. *"`. -/
def vexSeparator (a b : Nat) : List Char :=
  List.replicate a ' ' ++ '.' :: List.replicate b ' '

/-- The group `(NDS|NDD|DDS)` of `kVexPrefixRegexp`. -/
def vexDirectionalityGroup : Regex :=
  .group 2 (.alts [.str "NDS", .str "NDD", .str "DDS"])

/-- The group `(LIG|LZ|L0|L1|LIG\.128|128|256|512)` of `kVexPrefixRegexp`. -/
def vexSizeGroup : Regex :=
  .group 3 (.alts [.str "LIG", .str "LZ", .str "L0", .str "L1",
    .str "LIG.128", .str "128", .str "256", .str "512"])

/-- The group `(66|F2|F3)` of `kVexPrefixRegexp`. -/
def vexMandatoryGroup : Regex := .group 4 (.alts [.str "66", .str "F2", .str "F3"])

/-- The group `(0F|0F3A|0F38)` of `kVexPrefixRegexp`. -/
def vexMapGroup : Regex := .group 5 (.alts [.str "0F", .str "0F3A", .str "0F38"])

/-- The end `(?: *\. *(W0|W1|WIG))? ` of `kVexPrefixRegexp`. -/
def vexEnd : Regex :=
  .seq (.opt (.seq vexDot (.group 6 (.alts [.str "W0", .str "W1", .str "WIG"])))) (.str " ")

/-- The part of `kVexPrefixRegexp` after the vector size field. -/
def vexAfterSize : Regex :=
  .seq (.opt (.seq vexDot vexMandatoryGroup)) (.seq vexDot (.seq vexMapGroup vexEnd))

/-- The vector size tokens `LIG.128`, `128`, `L0` and `LZ`. -/
def sizeTokenPairs : List String := ["LIG.128", "128", "L0", "LZ"]

/-- The text of the optional directionality field of a VEX prefix: nothing, or a
separator (with its numbers of spaces) and the token. -/
def directionalityText : Option (Nat × Nat × String) → List Char
  | none => []
  | some (c, d, token) => vexSeparator c d ++ token.toList

/-- The groups that the directionality field captures. -/
def directionalityCaptures : Option (Nat × Nat × String) → Captures
  | none => []
  | some (_, _, token) => [(2, token.toList)]

/-- The token of a directionality field, when there is one, is `NDS`, `NDD` or
`DDS`. -/
def directionalityOk : Option (Nat × Nat × String) → Prop
  | none => True
  | some (_, _, token) => token ∈ ["NDS", "NDD", "DDS"]

/-- The text of a VEX specification with a vector size token: the family `VEX` or
`EVEX`, the optional directionality field, a separator with `x` spaces before and
`y` spaces after its dot, the vector size token and the rest of the text. -/
def vexSizeText (family : String) (directionality : Option (Nat × Nat × String))
    (x y : Nat) (size : String) (t : List Char) : List Char :=
  family.toList ++
    (directionalityText directionality ++ (vexSeparator x y ++ (size.toList ++ t)))

/-- The arguments that `ParseVexOrEvexPrefix` gets from a text with a vector size
token and the text left after the prefix, but for the vector size argument: from
the best match of the pattern after the vector size on the text after the
token. -/
def vexSizeBase (family : String) (directionality : Option (Nat × Nat × String))
    (t : List Char) : Option (VexPrefixArgs × List Char) :=
  match (vexAfterSize.run t).head? with
  | none => none
  | some m =>
    match vexPrefixArgs ((1, family.toList) :: (directionalityCaptures directionality ++ m.1)) with
    | none => none
    | some args => some (args, m.2)

/-- The number of spaces between the family and the first dot of a VEX prefix
text. -/
def spacesAfterFamily (directionality : Option (Nat × Nat × String)) (x : Nat) : Nat :=
  match directionality with
  | none => x
  | some (c, _, _) => c

/-- The failure of the `default:` branch of the switch on the immediate value size,
with the text the message ends in. -/
def invalidImmediateSize (text : String) : Failure :=
  .invalidArgument ("Invalid immediate value size: " ++ text)

/-- The failure of the `default:` branch of the switch on the code offset size, with
the text the message ends in. -/
def invalidCodeOffsetSize (text : String) : Failure :=
  .invalidArgument ("Invalid code offset size: " ++ text)

/-- The failure is neither of the two invalid size failures. -/
def notInvalidSize (e : Failure) : Prop :=
  ∀ text : String, e ≠ invalidImmediateSize text ∧ e ≠ invalidCodeOffsetSize text

/-! ## The matcher and the loops: general facts -/

theorem starRun_length (c : Char) (s : List Char) (m : Captures × List Char)
    (h : m ∈ starRun c s) : m.2.length ≤ s.length := by
  induction s with
  | nil => simp [starRun] at h; simp [h]
  | cons d t ih =>
    unfold starRun at h
    split at h
    · rcases List.mem_append.mp h with h1 | h1
      · have := ih h1
        simp only [List.length_cons]
        omega
      · simp at h1
        simp [h1]
    · simp at h
      simp [h]

theorem run_length (r : Regex) : ∀ (s : List Char) (m : Captures × List Char),
    m ∈ r.run s → m.2.length + r.minLen ≤ s.length := by
  induction r with
  | eps => intro s m h; simp [Regex.run] at h; simp [h, Regex.minLen]
  | lit l =>
    intro s m h
    unfold Regex.run at h
    split at h
    · rename_i hp
      simp at h
      have hpre : l <+: s := List.isPrefixOf_iff_prefix.mp hp
      have := hpre.length_le
      simp [h, Regex.minLen]
      omega
    · simp at h
  | cls cs =>
    intro s m h
    unfold Regex.run at h
    split at h
    · simp at h
    · split at h
      · simp at h
        simp [h, Regex.minLen]
      · simp at h
  | seq a b iha ihb =>
    intro s m h
    simp only [Regex.run, List.mem_flatMap, List.mem_map] at h
    obtain ⟨m1, h1, m2, h2, rfl⟩ := h
    have := iha s m1 h1
    have := ihb m1.2 m2 h2
    simp only [Regex.minLen]
    omega
  | alt a b iha ihb =>
    intro s m h
    simp only [Regex.run, List.mem_append] at h
    simp only [Regex.minLen]
    rcases h with h | h
    · have := iha s m h
      omega
    · have := ihb s m h
      omega
  | opt a iha =>
    intro s m h
    simp only [Regex.run, List.mem_append, List.mem_singleton] at h
    simp only [Regex.minLen]
    rcases h with h | h
    · have := iha s m h
      omega
    · simp [h]
  | star c =>
    intro s m h
    simp only [Regex.run] at h
    have := starRun_length c s m h
    simp only [Regex.minLen]
    omega
  | group i a iha =>
    intro s m h
    simp only [Regex.run, List.mem_map] at h
    obtain ⟨m1, h1, rfl⟩ := h
    have := iha s m1 h1
    simp only [Regex.minLen]
    omega

theorem Consume_length {α : Type} (re : Regex) (conv : Captures → Option α) (s : List Char)
    (a : α) (rest : List Char) (h : Consume re conv s = some (a, rest)) :
    rest.length + re.minLen ≤ s.length := by
  unfold Consume at h
  split at h
  · simp at h
  · rename_i m hm
    split at h
    · simp at h
    · simp at h
      have := run_length re s m (List.mem_of_mem_head? hm)
      rw [← h.2]
      exact this

/-- A loop over a pattern that cannot match the empty text gives the same result
for every number of steps above the length of the text. -/
theorem whileConsume_steps {σ α : Type} (re : Regex) (conv : Captures → Option α)
    (body : σ → α → Except Failure σ) (hre : 0 < re.minLen) :
    ∀ (n m : Nat) (st : σ) (s : List Char), s.length < n → s.length < m →
      whileConsume re conv body n st s = whileConsume re conv body m st s := by
  intro n
  induction n with
  | zero => intro m st s h; omega
  | succ n ih =>
    intro m st s hn hm
    cases m with
    | zero => omega
    | succ m =>
      simp only [whileConsume]
      cases hc : Consume re conv s with
      | none => rfl
      | some p =>
        obtain ⟨a, rest⟩ := p
        have := Consume_length re conv s a rest hc
        simp only
        cases body st a with
        | error e => rfl
        | ok st1 => exact ih m st1 rest (by omega) (by omega)

/-- One iteration of a loop that is given enough steps. -/
theorem whileConsume_unfold {σ α : Type} (re : Regex) (conv : Captures → Option α)
    (body : σ → α → Except Failure σ) (hre : 0 < re.minLen) (st : σ) (s : List Char) :
    whileConsume re conv body (s.length + 1) st s =
      match Consume re conv s with
      | none => .ok (st, s)
      | some (a, rest) =>
        match body st a with
        | .error e => .error e
        | .ok st1 => whileConsume re conv body (rest.length + 1) st1 rest := by
  simp only [whileConsume]
  cases hc : Consume re conv s with
  | none => rfl
  | some p =>
    obtain ⟨a, rest⟩ := p
    have := Consume_length re conv s a rest hc
    simp only
    cases body st a with
    | error e => rfl
    | ok st1 =>
      exact whileConsume_steps re conv body hre s.length (rest.length + 1) st1 rest
        (by omega) (by omega)

/-- A property of the state that every iteration keeps holds when the loop ends. -/
theorem whileConsume_invariant {σ α : Type} (re : Regex) (conv : Captures → Option α)
    (body : σ → α → Except Failure σ) (P : σ → Prop)
    (hbody : ∀ st a st1, P st → body st a = .ok st1 → P st1) :
    ∀ (n : Nat) (st : σ) (s : List Char) (st1 : σ) (rest : List Char), P st →
      whileConsume re conv body n st s = .ok (st1, rest) → P st1 := by
  intro n
  induction n with
  | zero => intro st s st1 rest _ h; simp [whileConsume] at h
  | succ n ih =>
    intro st s st1 rest hP h
    simp only [whileConsume] at h
    cases hc : Consume re conv s with
    | none =>
      rw [hc] at h
      simp at h
      rw [← h.1]
      exact hP
    | some p =>
      obtain ⟨a, rest1⟩ := p
      rw [hc] at h
      simp only at h
      cases hb : body st a with
      | error e => rw [hb] at h; simp at h
      | ok st2 =>
        rw [hb] at h
        exact ih st2 rest1 st1 rest (hbody st a st2 hP hb) h

/-- A loop that is given enough steps does not run out of them. -/
theorem whileConsume_total {σ α : Type} (re : Regex) (conv : Captures → Option α)
    (body : σ → α → Except Failure σ) (hre : 0 < re.minLen)
    (hbody : ∀ st a, body st a ≠ .error .outOfSteps) :
    ∀ (n : Nat) (st : σ) (s : List Char), s.length < n →
      whileConsume re conv body n st s ≠ .error .outOfSteps := by
  intro n
  induction n with
  | zero => intro st s h; omega
  | succ n ih =>
    intro st s hn
    simp only [whileConsume]
    cases hc : Consume re conv s with
    | none => simp
    | some p =>
      obtain ⟨a, rest⟩ := p
      have := Consume_length re conv s a rest hc
      simp only
      cases hb : body st a with
      | error e =>
        intro h
        apply hbody st a
        rw [hb]
        simpa using h
      | ok st1 => exact ih st1 rest (by omega)

theorem kLegacyPrefixRegex_minLen : 0 < kLegacyPrefixRegex.minLen := by decide

theorem opcode_byte_minLen : 0 < opcode_byte_parser_re.minLen := by decide

theorem modrm_and_imm_minLen : 0 < modrm_and_imm_parser_re.minLen := by decide

/-! ## What the opcode and suffix parser leaves alone -/

theorem opcodeByteBody_prefixCore (st : OpcodeState) (a : Nat × List Char) (st1 : OpcodeState)
    (h : opcodeByteBody st a = .ok st1) :
    prefixCore st1.specification_ = prefixCore st.specification_ := by
  unfold opcodeByteBody at h
  split at h <;> (simp at h; subst h; rfl)

theorem suffixBody_prefixCore (spec : EncodingSpecification) (a : SuffixArgs)
    (spec1 : EncodingSpecification) (h : suffixBody spec a = .ok spec1) :
    prefixCore spec1 = prefixCore spec := by
  unfold suffixBody at h
  repeat' split at h
  all_goals first
    | (simp at h; done)
    | (simp at h; subst h; rfl)
    | (simp at h; subst h; cases hv : spec.vex_prefix <;>
        simp [prefixCore, updateVexPrefix, hv])

theorem ParseOpcodeBytes_prefixCore (spec0 : EncodingSpecification) (s : List Char)
    (st : OpcodeState) (rest : List Char) (h : ParseOpcodeBytes spec0 s = .ok (st, rest)) :
    prefixCore st.specification_ = prefixCore spec0 :=
  whileConsume_invariant opcode_byte_parser_re opcodeByteArgs opcodeByteBody
    (fun st => prefixCore st.specification_ = prefixCore spec0)
    (fun st a st1 hP hb => (opcodeByteBody_prefixCore st a st1 hb).trans hP)
    _ _ s st rest rfl h

theorem ParseSuffixes_prefixCore (spec0 : EncodingSpecification) (s : List Char)
    (spec : EncodingSpecification) (rest : List Char)
    (h : ParseSuffixes spec0 s = .ok (spec, rest)) : prefixCore spec = prefixCore spec0 :=
  whileConsume_invariant modrm_and_imm_parser_re suffixArgs suffixBody
    (fun spec => prefixCore spec = prefixCore spec0)
    (fun st a st1 hP hb => (suffixBody_prefixCore st a st1 hb).trans hP)
    _ _ s spec rest rfl h

theorem ParseOpcodeAndSuffixes_prefixCore (spec0 : EncodingSpecification) (s : List Char)
    (spec : EncodingSpecification) (h : ParseOpcodeAndSuffixes spec0 s = .ok spec) :
    prefixCore spec = prefixCore spec0 := by
  unfold ParseOpcodeAndSuffixes at h
  split at h
  · simp at h
  · rename_i st rest hop
    have h1 := ParseOpcodeBytes_prefixCore spec0 s st rest hop
    simp only at h
    split at h
    · simp at h
    · split at h
      · simp at h
      · split at h
        · simp at h
          rw [← h, ← h1]
          rfl
        · split at h
          · simp at h
          · rename_i spec2 rest2 hsuf
            have h2 : prefixCore spec2 = prefixCore st.specification_ :=
              (ParseSuffixes_prefixCore _ rest spec2 rest2 hsuf).trans rfl
            split at h
            · simp at h
              rw [← h, ← h1, ← h2]
              split <;> rfl
            · simp at h

/-! ## The prefix parsers -/

theorem ParseLegacyPrefixes_prefixes (spec0 : EncodingSpecification) (s : List Char)
    (spec1 : EncodingSpecification) (rest : List Char)
    (h : ParseLegacyPrefixes spec0 s = .ok (spec1, rest)) :
    Option.isSome spec1.legacy_prefixes = true ∧ spec1.vex_prefix = spec0.vex_prefix := by
  unfold ParseLegacyPrefixes at h
  split at h
  · simp at h
  · simp at h
    rw [← h.1]
    exact ⟨rfl, rfl⟩

/-- What a successful run of `ParseVexOrEvexPrefix` did. -/
theorem ParseVexOrEvexPrefix_ok (spec0 : EncodingSpecification) (s : List Char)
    (spec1 : EncodingSpecification) (rest : List Char)
    (h : ParseVexOrEvexPrefix spec0 s = .ok (spec1, rest)) :
    ∃ (args : VexPrefixArgs) (vector_size : VectorSize) (vex_operand_usage : VexOperandUsage)
      (mandatory : MandatoryPrefix) (vex_w_usage : VexWUsage) (map_select : MapSelect),
      Consume kVexPrefixRegexp vexPrefixArgs s = some (args, rest) ∧
      FindOrDie kVectorSizeTokens args.vex_l_usage_str = .ok vector_size ∧
      FindOrDie kVexOperandUsageTokens args.vex_operand_directionality = .ok vex_operand_usage ∧
      (vector_size = .VECTOR_SIZE_512_BIT → args.prefix_type_str = "EVEX".toList) ∧
      FindOrDie kMandatoryPrefixTokens args.mandatory_prefix_str = .ok mandatory ∧
      FindOrDie kVexWUsageTokens args.vex_w_str = .ok vex_w_usage ∧
      FindOrDie kMapSelectTokens args.opcode_map = .ok map_select ∧
      spec1 = { spec0 with
        vex_prefix := some {
          prefix_type := if args.prefix_type_str = "EVEX".toList then .EVEX_PREFIX else .VEX_PREFIX
          vex_operand_usage := vex_operand_usage
          vector_size := vector_size
          mandatory_prefix := mandatory
          vex_w_usage := vex_w_usage
          map_select := map_select }
        opcode := args.opcode_map } := by
  unfold ParseVexOrEvexPrefix at h
  cases hc : Consume kVexPrefixRegexp vexPrefixArgs s with
  | none => simp [hc] at h
  | some p =>
    obtain ⟨args, rest1⟩ := p
    simp only [hc] at h
    cases h1 : FindOrDie kVectorSizeTokens args.vex_l_usage_str with
    | error e => simp [h1] at h
    | ok vs =>
      simp only [h1] at h
      cases h2 : FindOrDie kVexOperandUsageTokens args.vex_operand_directionality with
      | error e => simp [h2] at h
      | ok vou =>
        simp only [h2] at h
        by_cases h512 : vs = .VECTOR_SIZE_512_BIT ∧
            (if args.prefix_type_str = "EVEX".toList then VexPrefixType.EVEX_PREFIX
              else VexPrefixType.VEX_PREFIX) ≠ .EVEX_PREFIX
        · rw [if_pos h512] at h
          simp at h
        · rw [if_neg h512] at h
          cases h3 : FindOrDie kMandatoryPrefixTokens args.mandatory_prefix_str with
          | error e => simp [h3] at h
          | ok mp =>
            simp only [h3] at h
            cases h4 : FindOrDie kVexWUsageTokens args.vex_w_str with
            | error e => simp [h4] at h
            | ok w =>
              simp only [h4] at h
              cases h5 : FindOrDie kMapSelectTokens args.opcode_map with
              | error e => simp [h5] at h
              | ok ms =>
                simp only [h5, Except.ok.injEq, Prod.mk.injEq] at h
                refine ⟨args, vs, vou, mp, w, ms, ?_, h1, h2, ?_, h3, h4, h5, h.1.symm⟩
                · rw [h.2]
                · intro hv
                  by_contra hne
                  apply h512
                  refine ⟨hv, ?_⟩
                  rw [if_neg hne]
                  decide
theorem ParseVexOrEvexPrefix_prefixes (spec0 : EncodingSpecification) (s : List Char)
    (spec1 : EncodingSpecification) (rest : List Char)
    (h : ParseVexOrEvexPrefix spec0 s = .ok (spec1, rest)) :
    Option.isSome spec1.vex_prefix = true ∧ spec1.legacy_prefixes = spec0.legacy_prefixes := by
  obtain ⟨args, vs, vou, mp, w, ms, -, -, -, -, -, -, -, h1⟩ :=
    ParseVexOrEvexPrefix_ok spec0 s spec1 rest h
  rw [h1]
  exact ⟨rfl, rfl⟩

theorem prefixCore_legacy (a b : EncodingSpecification) (h : prefixCore a = prefixCore b) :
    a.legacy_prefixes = b.legacy_prefixes := by
  simp only [prefixCore, Prod.mk.injEq] at h
  exact h.1

theorem prefixCore_vex_isSome (a b : EncodingSpecification) (h : prefixCore a = prefixCore b) :
    Option.isSome a.vex_prefix = Option.isSome b.vex_prefix := by
  simp only [prefixCore, Prod.mk.injEq] at h
  have := congrArg Option.isSome h.2
  simpa using this

/-! ## The legacy prefix pattern -/

theorem kLegacyPrefixRegex_eq :
    kLegacyPrefixRegex = .seq (.star ' ') (.seq legacyAlts legacySep) := rfl

theorem run_lit_false (l s : List Char) (h : l.isPrefixOf s = false) :
    (Regex.lit l).run s = [] := by
  simp [Regex.run, h]

theorem run_seq_nil (a b : Regex) (s : List Char) (h : a.run s = []) :
    (Regex.seq a b).run s = [] := by
  simp [Regex.run, h]

theorem run_group_nil (i : Nat) (a : Regex) (s : List Char) (h : a.run s = []) :
    (Regex.group i a).run s = [] := by
  simp [Regex.run, h]

theorem run_alt_nil (a b : Regex) (s : List Char) (h : a.run s = []) (h2 : b.run s = []) :
    (Regex.alt a b).run s = [] := by
  simp [Regex.run, h, h2]

theorem run_star_seq_nil (c : Char) (b : Regex) :
    (Regex.seq (.star c) b).run [] = b.run [] := by
  simp [Regex.run, starRun]

theorem run_star_seq_ne (c d : Char) (b : Regex) (t : List Char) (h : d ≠ c) :
    (Regex.seq (.star c) b).run (d :: t) = b.run (d :: t) := by
  simp [Regex.run, starRun, h]

theorem run_star_seq_eq (c : Char) (b : Regex) (t : List Char) :
    (Regex.seq (.star c) b).run (c :: t) = (Regex.seq (.star c) b).run t ++ b.run (c :: t) := by
  simp [Regex.run, starRun]

/-- A pattern `" *b"` has no match when `b` matches neither at a space nor after
the leading spaces of the text. -/
theorem run_spaces_seq_nil (b : Regex) (hsp : ∀ t, b.run (' ' :: t) = []) :
    ∀ s : List Char, b.run (dropSpaces s) = [] → (Regex.seq (.star ' ') b).run s = [] := by
  intro s
  induction s with
  | nil => intro h; rw [run_star_seq_nil]; exact h
  | cons d t ih =>
    intro h
    by_cases hd : d = ' '
    · subst hd
      rw [run_star_seq_eq, ih (by simpa [dropSpaces] using h), hsp]
      rfl
    · rw [run_star_seq_ne _ _ _ _ hd]
      simpa [dropSpaces, hd] using h

theorem legacyAlts_nil (s : List Char) (h : beginsWithLegacyPrefixToken s = false) :
    legacyAlts.run s = [] := by
  simp only [beginsWithLegacyPrefixToken, legacyPrefixTokens, List.any_cons, List.any_nil,
    Bool.or_false, Bool.or_eq_false_iff, starts_with] at h
  obtain ⟨h1, h2, h3, h4, h5, -, -⟩ := h
  refine run_alt_nil _ _ _ (run_group_nil _ _ _ (run_lit_false _ _ h1)) ?_
  refine run_alt_nil _ _ _ (run_group_nil _ _ _ (run_lit_false _ _ h2)) ?_
  refine run_alt_nil _ _ _ (run_group_nil _ _ _ (run_lit_false _ _ h3)) ?_
  refine run_alt_nil _ _ _ (run_group_nil _ _ _ (run_lit_false _ _ h4)) ?_
  exact run_group_nil _ _ _ (run_seq_nil _ _ _ (run_lit_false _ _ h5))

theorem kLegacyPrefixRegex_run_nil (s : List Char)
    (h : beginsWithLegacyPrefixToken (dropSpaces s) = false) : kLegacyPrefixRegex.run s = [] := by
  rw [kLegacyPrefixRegex_eq]
  apply run_spaces_seq_nil
  · intro t
    exact run_seq_nil _ _ _ (legacyAlts_nil _
      (by simp [beginsWithLegacyPrefixToken, legacyPrefixTokens, starts_with, List.isPrefixOf]))
  · exact run_seq_nil _ _ _ (legacyAlts_nil _ h)

theorem Consume_of_run_nil {α : Type} (re : Regex) (conv : Captures → Option α) (s : List Char)
    (h : re.run s = []) : Consume re conv s = none := by
  simp [Consume, h]

theorem ParseLegacyPrefixes_none (spec0 : EncodingSpecification) (s : List Char)
    (h : beginsWithLegacyPrefixToken (dropSpaces s) = false) :
    ParseLegacyPrefixes spec0 s = .ok ({ spec0 with legacy_prefixes := some {} }, s) := by
  unfold ParseLegacyPrefixes
  simp only [whileConsume, Consume_of_run_nil _ _ _ (kLegacyPrefixRegex_run_nil s h)]

/-! ## The opcode byte pattern and the stages of the parser -/

theorem opcode_byte_parser_re_eq :
    opcode_byte_parser_re = .seq (.star ' ') (.seq opcodeByteGroup opcodeByteMarker) := rfl

theorem opcodeByteGroup_nil (s : List Char) (h : beginsWithOpcodeByte s = false) :
    opcodeByteGroup.run s = [] := by
  apply run_group_nil
  match s, h with
  | [], _ => rfl
  | [a], _ =>
    simp only [Regex.seqs, Regex.run]
    split <;> rfl
  | a :: b :: t, h =>
    simp only [beginsWithOpcodeByte, Bool.and_eq_false_iff] at h
    simp only [Regex.seqs, Regex.run]
    by_cases ha : upperHexDigits.contains a = true
    · have hb : upperHexDigits.contains b = false := by
        rcases h with h | h
        · rw [ha] at h; cases h
        · exact h
      rw [if_pos ha]
      simp only [List.flatMap_cons, List.flatMap_nil, List.append_nil]
      rw [if_neg (by rw [hb]; decide)]
      rfl
    · rw [if_neg ha]
      rfl

theorem beginsWithOpcodeByte_space (t : List Char) : beginsWithOpcodeByte (' ' :: t) = false := by
  cases t with
  | nil => rfl
  | cons b t => rfl

theorem opcode_byte_parser_re_run_nil (s : List Char)
    (h : beginsWithOpcodeByte (dropSpaces s) = false) : opcode_byte_parser_re.run s = [] := by
  rw [opcode_byte_parser_re_eq]
  apply run_spaces_seq_nil
  · intro t
    exact run_seq_nil _ _ _ (opcodeByteGroup_nil _ (beginsWithOpcodeByte_space t))
  · exact run_seq_nil _ _ _ (opcodeByteGroup_nil _ h)

theorem ParseOpcodeBytes_none (spec0 : EncodingSpecification) (s : List Char)
    (h : beginsWithOpcodeByte (dropSpaces s) = false) :
    ParseOpcodeBytes spec0 s =
      .ok ({ num_opcode_bytes := 0, opcode := spec0.opcode, specification_ := spec0 }, s) := by
  unfold ParseOpcodeBytes
  simp only [whileConsume, Consume_of_run_nil _ _ _ (opcode_byte_parser_re_run_nil s h)]

theorem ParseOpcodeAndSuffixes_none (spec0 : EncodingSpecification) (s : List Char)
    (h : beginsWithOpcodeByte (dropSpaces s) = false) :
    ParseOpcodeAndSuffixes spec0 s = .error noOpcodeByte := by
  unfold ParseOpcodeAndSuffixes
  simp [ParseOpcodeBytes_none spec0 s h]

/-- What a successful run of `ParseOpcodeAndSuffixes` did. -/
theorem ParseOpcodeAndSuffixes_ok (spec0 : EncodingSpecification) (s : List Char)
    (spec : EncodingSpecification) (h : ParseOpcodeAndSuffixes spec0 s = .ok spec) :
    ∃ (st : OpcodeState) (rest : List Char),
      ParseOpcodeBytes spec0 s = .ok (st, rest) ∧
      st.num_opcode_bytes ≠ 0 ∧
      ( has_vex_prefix { st.specification_ with opcode := st.opcode } = true →
        st.num_opcode_bytes = 1) ∧
      ((rest = [] ∧ spec = { st.specification_ with opcode := st.opcode }) ∨
        (rest ≠ [] ∧ ∃ (spec2 : EncodingSpecification) (rest2 : List Char),
          ParseSuffixes { st.specification_ with opcode := st.opcode } rest = .ok (spec2, rest2) ∧
          ConsumeWhitespace rest2 = [] ∧
          spec = (if vsib_usage spec2 = .VSIB_USED ∧ spec2.modrm_usage = .NO_MODRM_USAGE then
            { spec2 with modrm_usage := .FULL_MODRM } else spec2))) := by
  unfold ParseOpcodeAndSuffixes at h
  cases hop : ParseOpcodeBytes spec0 s with
  | error e => simp [hop] at h
  | ok p =>
    obtain ⟨st, rest⟩ := p
    simp only [hop] at h
    by_cases h0 : st.num_opcode_bytes = 0
    · simp [h0] at h
    · rw [if_neg h0] at h
      by_cases h1 : has_vex_prefix { st.specification_ with opcode := st.opcode } = true ∧
          st.num_opcode_bytes ≠ 1
      · rw [if_pos h1] at h
        simp at h
      · rw [if_neg h1] at h
        refine ⟨st, rest, rfl, h0, ?_, ?_⟩
        · intro hv
          by_contra hne
          exact h1 ⟨hv, hne⟩
        · by_cases he : rest.isEmpty = true
          · rw [if_pos he] at h
            left
            simp only [Except.ok.injEq] at h
            exact ⟨List.isEmpty_iff.mp he, h.symm⟩
          · rw [if_neg he] at h
            right
            refine ⟨fun hr => he (List.isEmpty_iff.mpr hr), ?_⟩
            cases hsuf : ParseSuffixes { st.specification_ with opcode := st.opcode } rest with
            | error e => simp [hsuf] at h
            | ok q =>
              obtain ⟨spec2, rest2⟩ := q
              simp only [hsuf] at h
              cases hw : ConsumeWhitespace rest2 with
              | nil =>
                simp only [hw, Except.ok.injEq] at h
                exact ⟨spec2, rest2, rfl, hw, h.symm⟩
              | cons c t => simp [hw] at h


/-- What a successful run of `ParseFromString` did. -/
theorem ParseFromString_ok (s : List Char) (spec : EncodingSpecification)
    (h : ParseFromString s = .ok spec) :
    ∃ (spec1 : EncodingSpecification) (rest : List Char),
      ParsePrefix {} s = .ok (spec1, rest) ∧ ParseOpcodeAndSuffixes spec1 rest = .ok spec := by
  unfold ParseFromString at h
  cases hp : ParsePrefix {} s with
  | error e => simp [hp] at h
  | ok p =>
    obtain ⟨spec1, rest⟩ := p
    simp only [hp] at h
    exact ⟨spec1, rest, rfl, h⟩

theorem ParseFromString_eq (s : List Char) (spec1 : EncodingSpecification)
    (rest : List Char) (h : ParsePrefix {} s = .ok (spec1, rest)) :
    ParseFromString s = ParseOpcodeAndSuffixes spec1 rest := by
  unfold ParseFromString
  simp only [h]

theorem ParseOpcodeBytes_keeps_vex (spec0 : EncodingSpecification) (s : List Char)
    (st : OpcodeState) (rest : List Char) (h : ParseOpcodeBytes spec0 s = .ok (st, rest)) :
    has_vex_prefix { st.specification_ with opcode := st.opcode } = has_vex_prefix spec0 :=
  prefixCore_vex_isSome st.specification_ spec0 (ParseOpcodeBytes_prefixCore spec0 s st rest h)

theorem ParseSuffixes_nil (spec0 : EncodingSpecification) :
    ParseSuffixes spec0 [] = .ok (spec0, []) := rfl

/-! ## The VEX prefix pattern -/

theorem run_seq (a b : Regex) (s : List Char) :
    (Regex.seq a b).run s =
      (a.run s).flatMap fun m1 => (b.run m1.2).map fun m2 => (m1.1 ++ m2.1, m2.2) := rfl

theorem kVexPrefixRegexp_eq : kVexPrefixRegexp = .seq vexFamily vexFields := rfl

theorem vexFamily_EVEX (u : List Char) :
    vexFamily.run ('E' :: 'V' :: 'E' :: 'X' :: u) = [([(1, "EVEX".toList)], u)] := by
  have h : u.length + 1 + 1 + 1 + 1 - u.length = 4 := by omega
  simp [vexFamily, Regex.seqs, Regex.str, Regex.run, h]

theorem vexFamily_VEX (u : List Char) :
    vexFamily.run ('V' :: 'E' :: 'X' :: u) = [([(1, "VEX".toList)], u)] := by
  have h : u.length + 1 + 1 + 1 - u.length = 3 := by omega
  simp [vexFamily, Regex.seqs, Regex.str, Regex.run, h]

theorem vexPrefixArgs_family (family : List Char) (caps : Captures) :
    vexPrefixArgs ((1, family) :: caps) =
      match parseHex 32 (capture caps 5) with
      | none => none
      | some opcode_map =>
        some {
          prefix_type_str := family
          vex_operand_directionality := capture caps 2
          vex_l_usage_str := capture caps 3
          mandatory_prefix_str := capture caps 4
          opcode_map := opcode_map
          vex_w_str := capture caps 6 } := by
  simp only [vexPrefixArgs, capture, List.lookup]
  rfl

/-- The match of the VEX prefix pattern on `VEX` followed by a text is the match on
`EVEX` followed by the same text, but for the captured family. -/
theorem Consume_kVexPrefixRegexp_family (u : List Char) (args : VexPrefixArgs)
    (rest : List Char)
    (h : Consume kVexPrefixRegexp vexPrefixArgs ('E' :: 'V' :: 'E' :: 'X' :: u) =
      some (args, rest)) :
    Consume kVexPrefixRegexp vexPrefixArgs ('V' :: 'E' :: 'X' :: u) =
      some ({ args with prefix_type_str := "VEX".toList }, rest) := by
  unfold Consume at h ⊢
  rw [kVexPrefixRegexp_eq] at h ⊢
  simp only [run_seq, vexFamily_EVEX, vexFamily_VEX, List.flatMap_cons, List.flatMap_nil,
    List.append_nil, List.head?_map] at h ⊢
  cases hf : (vexFields.run u).head? with
  | none => simp [hf] at h
  | some m =>
    simp only [hf, Option.map_some', List.cons_append, List.nil_append,
      vexPrefixArgs_family] at h ⊢
    cases hx : parseHex 32 (capture m.1 5) with
    | none => simp [hx] at h
    | some om =>
      simp only [hx, Option.some.injEq, Prod.mk.injEq] at h ⊢
      refine ⟨?_, h.2⟩
      rw [← h.1]


theorem prefixCore_vex (a b : EncodingSpecification) (h : prefixCore a = prefixCore b)
    (va : VexPrefixEncodingSpecification) (ha : a.vex_prefix = some va) :
    ∃ vb : VexPrefixEncodingSpecification, b.vex_prefix = some vb ∧
      va.prefix_type = vb.prefix_type ∧ va.vector_size = vb.vector_size := by
  simp only [prefixCore, Prod.mk.injEq, ha, Option.map_some'] at h
  cases hb : b.vex_prefix with
  | none => rw [hb] at h; simp at h
  | some vb =>
    rw [hb] at h
    simp only [Option.map_some', Option.some.injEq, Prod.mk.injEq] at h
    exact ⟨vb, rfl, h.2.1, h.2.2.2.1⟩

theorem ParsePrefix_vex (spec0 : EncodingSpecification) (s : List Char)
    (h : starts_with s "VEX." = true ∨ starts_with s "EVEX" = true) :
    ParsePrefix spec0 s = ParseVexOrEvexPrefix spec0 s := by
  unfold ParsePrefix
  rw [if_pos (by simpa using h)]

theorem ParsePrefix_legacy (spec0 : EncodingSpecification) (s : List Char)
    (h1 : starts_with s "VEX." = false) (h2 : starts_with s "EVEX" = false) :
    ParsePrefix spec0 s = ParseLegacyPrefixes spec0 s := by
  unfold ParsePrefix
  rw [if_neg (by simp [h1, h2])]

/-! ## The legacy prefix loop on tokens -/

theorem starRun_captures (c : Char) (s : List Char) (m : Captures × List Char)
    (h : m ∈ starRun c s) : m.1 = [] := by
  induction s with
  | nil => simp [starRun] at h; simp [h]
  | cons d t ih =>
    unfold starRun at h
    split at h
    · rcases List.mem_append.mp h with h1 | h1
      · exact ih h1
      · simp at h1
        simp [h1]
    · simp at h
      simp [h]

theorem run_groupFree (r : Regex) : r.groupFree = true →
    ∀ (s : List Char) (m : Captures × List Char), m ∈ r.run s → m.1 = [] := by
  induction r with
  | eps => intro _ s m h; simp [Regex.run] at h; simp [h]
  | lit l =>
    intro _ s m h
    unfold Regex.run at h
    split at h
    · simp at h; simp [h]
    · simp at h
  | cls cs =>
    intro _ s m h
    unfold Regex.run at h
    split at h
    · simp at h
    · split at h
      · simp at h; simp [h]
      · simp at h
  | seq a b iha ihb =>
    intro hg s m h
    simp only [Regex.groupFree, Bool.and_eq_true] at hg
    simp only [Regex.run, List.mem_flatMap, List.mem_map] at h
    obtain ⟨m1, h1, m2, h2, rfl⟩ := h
    simp [iha hg.1 s m1 h1, ihb hg.2 m1.2 m2 h2]
  | alt a b iha ihb =>
    intro hg s m h
    simp only [Regex.groupFree, Bool.and_eq_true] at hg
    simp only [Regex.run, List.mem_append] at h
    rcases h with h | h
    · exact iha hg.1 s m h
    · exact ihb hg.2 s m h
  | opt a iha =>
    intro hg s m h
    simp only [Regex.groupFree] at hg
    simp only [Regex.run, List.mem_append, List.mem_singleton] at h
    rcases h with h | h
    · exact iha hg s m h
    · simp [h]
  | star c =>
    intro _ s m h
    simp only [Regex.run] at h
    exact starRun_captures c s m h
  | group i a _ => intro hg; simp [Regex.groupFree] at hg

theorem legacySep_head (w : List Char) :
    (legacySep.run w).head? = some ([], afterSeparator w) := by
  unfold afterSeparator
  cases h : (legacySep.run w).head? with
  | none =>
    have : legacySep.run w ≠ [] := by simp [legacySep, Regex.run]
    exact absurd (List.head?_eq_none_iff.mp h) this
  | some m =>
    have h1 := run_groupFree legacySep (by decide) w m (List.mem_of_mem_head? h)
    simp only [Option.some.injEq]
    exact Prod.ext h1 rfl

theorem head?_flatMap_cons {α β : Type} (f : α → List β) (x : α) (xs : List α) (y : β)
    (h : (f x).head? = some y) : ((x :: xs).flatMap f).head? = some y := by
  rw [List.flatMap_cons, List.head?_append, h]
  rfl

/-- The match of `kLegacyPrefixRegex` at a text that does not start with a space and
at which the alternatives of the pattern match. -/
theorem kLegacyPrefixRegex_head (d : Char) (t w : List Char) (caps : Captures)
    (ms : List (Captures × List Char)) (hd : d ≠ ' ')
    (h : legacyAlts.run (d :: t) = (caps, w) :: ms) :
    (kLegacyPrefixRegex.run (d :: t)).head? = some (caps, afterSeparator w) := by
  rw [kLegacyPrefixRegex_eq, run_star_seq_ne _ _ _ _ hd, run_seq, h]
  apply head?_flatMap_cons
  rw [List.head?_map, legacySep_head]
  simp

/-- A space before a text at which `kLegacyPrefixRegex` matches is skipped. -/
theorem kLegacyPrefixRegex_space (s : List Char) (m : Captures × List Char)
    (h : (kLegacyPrefixRegex.run s).head? = some m) :
    (kLegacyPrefixRegex.run (' ' :: s)).head? = some m := by
  rw [kLegacyPrefixRegex_eq] at h ⊢
  rw [run_star_seq_eq, List.head?_append, h]
  rfl

theorem legacyAlts_66 (v : List Char) :
    legacyAlts.run ('6' :: '6' :: ' ' :: v) = [([(1, "66".toList)], ' ' :: v)] := by
  simp [legacyAlts, Regex.alts, Regex.seqs, Regex.str, Regex.run]

theorem legacyAlts_67 (v : List Char) :
    legacyAlts.run ('6' :: '7' :: ' ' :: v) = [([(2, "67".toList)], ' ' :: v)] := by
  simp [legacyAlts, Regex.alts, Regex.seqs, Regex.str, Regex.run]

theorem legacyAlts_F2 (v : List Char) :
    legacyAlts.run ('F' :: '2' :: ' ' :: v) = [([(3, "F2".toList)], ' ' :: v)] := by
  simp [legacyAlts, Regex.alts, Regex.seqs, Regex.str, Regex.run]

theorem legacyAlts_F3 (v : List Char) :
    legacyAlts.run ('F' :: '3' :: ' ' :: v) = [([(4, "F3".toList)], ' ' :: v)] := by
  simp [legacyAlts, Regex.alts, Regex.seqs, Regex.str, Regex.run]

theorem legacyAlts_REX (v : List Char) :
    legacyAlts.run ('R' :: 'E' :: 'X' :: ' ' :: v) = [([(5, "REX".toList)], ' ' :: v)] := by
  simp [legacyAlts, Regex.alts, Regex.seqs, Regex.str, Regex.run]

theorem legacyAlts_REX_R (v : List Char) :
    legacyAlts.run ('R' :: 'E' :: 'X' :: '.' :: 'R' :: ' ' :: v) =
      [([(5, "REX.R".toList)], ' ' :: v), ([(5, "REX".toList)], '.' :: 'R' :: ' ' :: v)] := by
  simp [legacyAlts, Regex.alts, Regex.seqs, Regex.str, Regex.run]

theorem legacyAlts_REX_W (v : List Char) :
    legacyAlts.run ('R' :: 'E' :: 'X' :: '.' :: 'W' :: ' ' :: v) =
      [([(5, "REX.W".toList)], ' ' :: v), ([(5, "REX".toList)], '.' :: 'W' :: ' ' :: v)] := by
  simp [legacyAlts, Regex.alts, Regex.seqs, Regex.str, Regex.run]

theorem legacyPrefixLoop_step (flags : LegacyPrefixEncodingSpecification) (s w : List Char)
    (caps : Captures) (args : LegacyPrefixArgs)
    (flags1 : LegacyPrefixEncodingSpecification)
    (h : (kLegacyPrefixRegex.run s).head? = some (caps, w))
    (ha : legacyPrefixArgs caps = some args)
    (hb : legacyPrefixBody flags args = .ok flags1) :
    legacyPrefixLoop flags s = legacyPrefixLoop flags1 w := by
  unfold legacyPrefixLoop
  rw [whileConsume_unfold _ _ _ kLegacyPrefixRegex_minLen]
  simp only [Consume, h, ha, hb]

/-- One iteration of the legacy prefix loop at a token that is followed by a space,
with or without a space before the token. -/
theorem legacyPrefixLoop_token (token : String) (ht : token ∈ legacyPrefixTokens)
    (flags : LegacyPrefixEncodingSpecification) (v : List Char) :
    legacyPrefixLoop flags (token.toList ++ ' ' :: v) =
        legacyPrefixLoop (addLegacyPrefixToken flags token) (afterSeparator (' ' :: v)) ∧
    legacyPrefixLoop flags (' ' :: (token.toList ++ ' ' :: v)) =
        legacyPrefixLoop (addLegacyPrefixToken flags token) (afterSeparator (' ' :: v)) := by
  have key : ∃ (caps : Captures) (args : LegacyPrefixArgs),
      (kLegacyPrefixRegex.run (token.toList ++ ' ' :: v)).head? =
        some (caps, afterSeparator (' ' :: v)) ∧
      legacyPrefixArgs caps = some args ∧
      legacyPrefixBody flags args = .ok (addLegacyPrefixToken flags token) := by
    simp only [legacyPrefixTokens, List.mem_cons, List.mem_singleton, List.not_mem_nil,
      or_false] at ht
    rcases ht with rfl | rfl | rfl | rfl | rfl | rfl | rfl
    · exact ⟨_, _, kLegacyPrefixRegex_head _ _ _ _ _ (by decide) (legacyAlts_66 v), rfl,
        by simp [legacyPrefixBody, addLegacyPrefixToken, capture, List.lookup]⟩
    · exact ⟨_, _, kLegacyPrefixRegex_head _ _ _ _ _ (by decide) (legacyAlts_67 v), rfl,
        by simp [legacyPrefixBody, addLegacyPrefixToken, capture, List.lookup]⟩
    · exact ⟨_, _, kLegacyPrefixRegex_head _ _ _ _ _ (by decide) (legacyAlts_F2 v), rfl,
        by simp [legacyPrefixBody, addLegacyPrefixToken, capture, List.lookup]⟩
    · exact ⟨_, _, kLegacyPrefixRegex_head _ _ _ _ _ (by decide) (legacyAlts_F3 v), rfl,
        by simp [legacyPrefixBody, addLegacyPrefixToken, capture, List.lookup]⟩
    · exact ⟨_, _, kLegacyPrefixRegex_head _ _ _ _ _ (by decide) (legacyAlts_REX v), rfl,
        by simp [legacyPrefixBody, addLegacyPrefixToken, capture, List.lookup]⟩
    · exact ⟨_, _, kLegacyPrefixRegex_head _ _ _ _ _ (by decide) (legacyAlts_REX_R v), rfl,
        by simp [legacyPrefixBody, addLegacyPrefixToken, capture, List.lookup]⟩
    · exact ⟨_, _, kLegacyPrefixRegex_head _ _ _ _ _ (by decide) (legacyAlts_REX_W v), rfl,
        by simp [legacyPrefixBody, addLegacyPrefixToken, capture, List.lookup]⟩
  obtain ⟨caps, args, h, ha, hb⟩ := key
  exact ⟨legacyPrefixLoop_step _ _ _ _ _ _ h ha hb,
    legacyPrefixLoop_step _ _ _ _ _ _ (kLegacyPrefixRegex_space _ _ h) ha hb⟩

theorem afterSeparator_eq (w : List Char) (h : (dropSpaces w).head? ≠ some '+') :
    afterSeparator w = w := by
  have h1 : (Regex.seq (.star ' ') (.seq (.lit "+".toList) (.star ' '))).run w = [] := by
    apply run_spaces_seq_nil
    · intro t
      exact run_seq_nil _ _ _ (run_lit_false _ _ (by simp [List.isPrefixOf]))
    · apply run_seq_nil
      apply run_lit_false
      cases hd : dropSpaces w with
      | nil => rfl
      | cons c t =>
        rw [hd] at h
        simp only [List.head?_cons, ne_eq, Option.some.injEq] at h
        simp [List.isPrefixOf, Ne.symm h]
  have h2 : legacySep.run w = [([], w)] := by
    show (Regex.seq (.star ' ') (.seq (.lit "+".toList) (.star ' '))).run w ++ [([], w)] = _
    rw [h1]
    rfl
  unfold afterSeparator
  rw [h2]
  rfl

theorem legacyPrefixToken_head (token : String) (ht : token ∈ legacyPrefixTokens) :
    ∃ (c : Char) (w : List Char), token.toList = c :: w ∧ c ≠ ' ' ∧ c ≠ '+' ∧
      (c = '6' ∨ c = 'F' ∨ c = 'R') := by
  simp only [legacyPrefixTokens, List.mem_cons, List.mem_singleton, List.not_mem_nil,
    or_false] at ht
  rcases ht with rfl | rfl | rfl | rfl | rfl | rfl | rfl <;>
    exact ⟨_, _, rfl, by decide, by decide, by decide⟩

theorem spaceSeparated_head (p : List String) (hne : p ≠ [])
    (hp : ∀ t ∈ p, t ∈ legacyPrefixTokens) (x : List Char) :
    ∃ (c : Char) (w : List Char), spaceSeparated p ++ x = c :: w ∧ c ≠ ' ' ∧ c ≠ '+' ∧
      (c = '6' ∨ c = 'F' ∨ c = 'R') := by
  match p, hne, hp with
  | [t], _, hp =>
    obtain ⟨c, w, h, h1, h2, h3⟩ := legacyPrefixToken_head t (hp t (by simp))
    have h' : t.data = c :: w := h
    exact ⟨c, w ++ x, by simp [spaceSeparated, h'], h1, h2, h3⟩
  | t :: u :: rest, _, hp =>
    obtain ⟨c, w, h, h1, h2, h3⟩ := legacyPrefixToken_head t (hp t (by simp))
    have h' : t.data = c :: w := h
    exact ⟨c, w ++ ' ' :: spaceSeparated (u :: rest) ++ x, by simp [spaceSeparated, h'],
      h1, h2, h3⟩

/-- The legacy prefix loop on a non-empty space-separated sequence of tokens that is
followed by a space: the tokens are consumed one by one. -/
theorem legacyPrefixLoop_tokens (r : List Char) : ∀ (p : List String), p ≠ [] →
    (∀ t ∈ p, t ∈ legacyPrefixTokens) → ∀ flags : LegacyPrefixEncodingSpecification,
    legacyPrefixLoop flags (spaceSeparated p ++ ' ' :: r) =
        legacyPrefixLoop (p.foldl addLegacyPrefixToken flags) (afterSeparator (' ' :: r)) ∧
    legacyPrefixLoop flags (' ' :: (spaceSeparated p ++ ' ' :: r)) =
        legacyPrefixLoop (p.foldl addLegacyPrefixToken flags) (afterSeparator (' ' :: r)) := by
  intro p
  induction p with
  | nil => intro h; exact absurd rfl h
  | cons t rest ih =>
    intro _ hp flags
    have ht := hp t (by simp)
    cases rest with
    | nil => exact legacyPrefixLoop_token t ht flags r
    | cons u rest =>
      have hrest : ∀ t ∈ u :: rest, t ∈ legacyPrefixTokens :=
        fun x hx => hp x (List.mem_cons_of_mem _ hx)
      have hs : spaceSeparated (t :: u :: rest) ++ ' ' :: r =
          t.toList ++ ' ' :: (spaceSeparated (u :: rest) ++ ' ' :: r) := by
        simp [spaceSeparated]
      obtain ⟨c, w, hcw, hc1, hc2, -⟩ :=
        spaceSeparated_head (u :: rest) (by simp) hrest (' ' :: r)
      have hsep : afterSeparator (' ' :: (spaceSeparated (u :: rest) ++ ' ' :: r)) =
          ' ' :: (spaceSeparated (u :: rest) ++ ' ' :: r) := by
        apply afterSeparator_eq
        rw [hcw]
        simp [dropSpaces, hc1, hc2]
      have step := legacyPrefixLoop_token t ht flags (spaceSeparated (u :: rest) ++ ' ' :: r)
      rw [hsep] at step
      have ih2 := (ih (by simp) hrest (addLegacyPrefixToken flags t)).2
      rw [hs, List.foldl_cons]
      exact ⟨step.1.trans ih2, step.2.trans ih2⟩

theorem addLegacyPrefixToken_comm (flags : LegacyPrefixEncodingSpecification) (a b : String) :
    addLegacyPrefixToken (addLegacyPrefixToken flags a) b =
      addLegacyPrefixToken (addLegacyPrefixToken flags b) a := by
  simp only [addLegacyPrefixToken]
  congr 1 <;> simp only [Bool.or_assoc, Bool.or_comm, Bool.or_left_comm]

theorem foldl_addLegacyPrefixToken_perm (p q : List String) (h : p.Perm q)
    (flags : LegacyPrefixEncodingSpecification) :
    p.foldl addLegacyPrefixToken flags = q.foldl addLegacyPrefixToken flags :=
  h.foldl_eq' (fun x _ y _ z => addLegacyPrefixToken_comm z x y) flags

theorem ParseLegacyPrefixes_eq (spec0 : EncodingSpecification) (s : List Char) :
    ParseLegacyPrefixes spec0 s =
      match legacyPrefixLoop {} s with
      | .error e => .error e
      | .ok (flags, rest) => .ok ({ spec0 with legacy_prefixes := some flags }, rest) := rfl

/-- The parse of a text that starts with the first character of a legacy prefix
token, in terms of the legacy prefix loop. -/
theorem ParseFromString_legacy (c : Char) (w : List Char)
    (hc : c = '6' ∨ c = 'F' ∨ c = 'R') :
    ParseFromString (c :: w) =
      match legacyPrefixLoop {} (c :: w) with
      | .error e => .error e
      | .ok (flags, rest) => ParseOpcodeAndSuffixes { legacy_prefixes := some flags } rest := by
  have h1 : starts_with (c :: w) "VEX." = false := by
    rcases hc with rfl | rfl | rfl <;> simp [starts_with, List.isPrefixOf]
  have h2 : starts_with (c :: w) "EVEX" = false := by
    rcases hc with rfl | rfl | rfl <;> simp [starts_with, List.isPrefixOf]
  unfold ParseFromString
  rw [ParsePrefix_legacy _ _ h1 h2, ParseLegacyPrefixes_eq]
  cases legacyPrefixLoop {} (c :: w) with
  | error e => rfl
  | ok p => rfl

theorem beginsWithOpcodeByte_head (s : List Char) (h : beginsWithOpcodeByte s = true) :
    s.head? ≠ some '+' := by
  match s, h with
  | a :: b :: t, h =>
    simp only [beginsWithOpcodeByte, Bool.and_eq_true] at h
    simp only [List.head?_cons, ne_eq, Option.some.injEq]
    rintro rfl
    exact absurd h.1 (by decide)

theorem legacyPrefixLoop_none (flags : LegacyPrefixEncodingSpecification) (s : List Char)
    (h : beginsWithLegacyPrefixToken (dropSpaces s) = false) :
    legacyPrefixLoop flags s = .ok (flags, s) := by
  unfold legacyPrefixLoop
  simp only [whileConsume, Consume_of_run_nil _ _ _ (kLegacyPrefixRegex_run_nil s h)]

/-! ## The loops are given enough steps -/

theorem suffixBody_steps (spec : EncodingSpecification) (a : SuffixArgs) :
    suffixBody spec a ≠ .error .outOfSteps := by
  unfold suffixBody
  repeat' split
  all_goals simp

theorem opcodeByteBody_steps (st : OpcodeState) (a : Nat × List Char) :
    opcodeByteBody st a ≠ .error .outOfSteps := by
  unfold opcodeByteBody
  split <;> simp

theorem ParseLegacyPrefixes_steps (spec0 : EncodingSpecification) (s : List Char) :
    ParseLegacyPrefixes spec0 s ≠ .error .outOfSteps := by
  unfold ParseLegacyPrefixes
  have h := whileConsume_total kLegacyPrefixRegex legacyPrefixArgs legacyPrefixBody
    kLegacyPrefixRegex_minLen (fun st a => by simp [legacyPrefixBody]) (s.length + 1) {} s
    (by omega)
  split
  · rename_i e he
    intro hc
    simp only [Except.error.injEq] at hc
    rw [hc] at he
    exact h he
  · simp

theorem FindOrDie_steps {κ β : Type} [BEq κ] (table : List (κ × β)) (key : κ) (e : Failure)
    (h : FindOrDie table key = .error e) : e ≠ .outOfSteps := by
  unfold FindOrDie at h
  split at h
  · simp at h
  · simp only [Except.error.injEq] at h
    rw [← h]
    simp

theorem ParseVexOrEvexPrefix_steps (spec0 : EncodingSpecification) (s : List Char) :
    ParseVexOrEvexPrefix spec0 s ≠ .error .outOfSteps := by
  intro h
  unfold ParseVexOrEvexPrefix at h
  cases hc : Consume kVexPrefixRegexp vexPrefixArgs s with
  | none => simp [hc] at h
  | some p =>
    obtain ⟨args, rest⟩ := p
    simp only [hc] at h
    cases h1 : FindOrDie kVectorSizeTokens args.vex_l_usage_str with
    | error e => simp [h1] at h; exact FindOrDie_steps _ _ e h1 h
    | ok vs =>
      simp only [h1] at h
      cases h2 : FindOrDie kVexOperandUsageTokens args.vex_operand_directionality with
      | error e => simp [h2] at h; exact FindOrDie_steps _ _ e h2 h
      | ok vou =>
        simp only [h2] at h
        by_cases h512 : vs = .VECTOR_SIZE_512_BIT ∧
            (if args.prefix_type_str = "EVEX".toList then VexPrefixType.EVEX_PREFIX
              else VexPrefixType.VEX_PREFIX) ≠ .EVEX_PREFIX
        · rw [if_pos h512] at h
          simp [vectorSize512] at h
        · rw [if_neg h512] at h
          cases h3 : FindOrDie kMandatoryPrefixTokens args.mandatory_prefix_str with
          | error e => simp [h3] at h; exact FindOrDie_steps _ _ e h3 h
          | ok mp =>
            simp only [h3] at h
            cases h4 : FindOrDie kVexWUsageTokens args.vex_w_str with
            | error e => simp [h4] at h; exact FindOrDie_steps _ _ e h4 h
            | ok w =>
              simp only [h4] at h
              cases h5 : FindOrDie kMapSelectTokens args.opcode_map with
              | error e => simp [h5] at h; exact FindOrDie_steps _ _ e h5 h
              | ok ms => simp [h5] at h

theorem ParseOpcodeAndSuffixes_steps (spec0 : EncodingSpecification) (s : List Char) :
    ParseOpcodeAndSuffixes spec0 s ≠ .error .outOfSteps := by
  unfold ParseOpcodeAndSuffixes
  have h1 := whileConsume_total opcode_byte_parser_re opcodeByteArgs opcodeByteBody
    opcode_byte_minLen opcodeByteBody_steps (s.length + 1)
    { num_opcode_bytes := 0, opcode := spec0.opcode, specification_ := spec0 } s (by omega)
  cases hop : ParseOpcodeBytes spec0 s with
  | error e =>
    intro hc
    simp only [Except.error.injEq] at hc
    rw [hc] at hop
    exact h1 hop
  | ok p =>
    obtain ⟨st, rest⟩ := p
    simp only
    split
    · simp [noOpcodeByte]
    · split
      · simp [unexpectedOpcodeBytes]
      · split
        · simp
        · have h2 := whileConsume_total modrm_and_imm_parser_re suffixArgs suffixBody
            modrm_and_imm_minLen suffixBody_steps (rest.length + 1)
            { st.specification_ with opcode := st.opcode } rest (by omega)
          cases hsuf : ParseSuffixes { st.specification_ with opcode := st.opcode } rest with
          | error e =>
            intro hc
            simp only [Except.error.injEq] at hc
            rw [hc] at hsuf
            exact h2 hsuf
          | ok q =>
            simp only
            split
            · simp
            · simp [notFullyParsed]

/-- The loops of the parser are given enough steps: `ParseEncodingSpecification`
never ends for want of steps. -/
theorem ParseEncodingSpecification_steps (specification : String) :
    ParseEncodingSpecification specification ≠ .error .outOfSteps := by
  unfold ParseEncodingSpecification ParseFromString ParsePrefix
  split
  · rename_i e he
    intro hc
    simp only [Except.error.injEq] at hc
    rw [hc] at he
    split at he
    · exact ParseVexOrEvexPrefix_steps _ _ he
    · exact ParseLegacyPrefixes_steps _ _ he
  · exact ParseOpcodeAndSuffixes_steps _ _

/-! ## The successive matches of a loop -/

theorem consumed_steps {α : Type} (re : Regex) (conv : Captures → Option α)
    (hre : 0 < re.minLen) :
    ∀ (n m : Nat) (s : List Char), s.length < n → s.length < m →
      consumed re conv n s = consumed re conv m s := by
  intro n
  induction n with
  | zero => intro m s h; omega
  | succ n ih =>
    intro m s hn hm
    cases m with
    | zero => omega
    | succ m =>
      simp only [consumed]
      cases hc : Consume re conv s with
      | none => rfl
      | some p =>
        obtain ⟨a, rest⟩ := p
        have := Consume_length re conv s a rest hc
        simp only
        rw [ih m rest (by omega) (by omega)]

/-- A loop that ends normally has folded its body over the successive matches: a
quantity that every iteration updates by `f`, for matches that satisfy `P` as all
matches of the pattern do, is the fold of `f` over them. -/
theorem whileConsume_fold {σ α β : Type} (re : Regex) (conv : Captures → Option α)
    (body : σ → α → Except Failure σ) (proj : σ → β) (f : β → α → β) (P : α → Prop)
    (hP : ∀ s a rest, Consume re conv s = some (a, rest) → P a)
    (hbody : ∀ st a st1, P a → body st a = .ok st1 → proj st1 = f (proj st) a) :
    ∀ (n : Nat) (st : σ) (s : List Char) (st1 : σ) (rest : List Char),
      whileConsume re conv body n st s = .ok (st1, rest) →
      proj st1 = (consumed re conv n s).foldl f (proj st) := by
  intro n
  induction n with
  | zero => intro st s st1 rest h; simp [whileConsume] at h
  | succ n ih =>
    intro st s st1 rest h
    simp only [whileConsume] at h
    simp only [consumed]
    cases hc : Consume re conv s with
    | none =>
      rw [hc] at h
      simp only [Except.ok.injEq, Prod.mk.injEq] at h
      rw [← h.1]
      rfl
    | some p =>
      obtain ⟨a, rest1⟩ := p
      rw [hc] at h
      simp only at h
      cases hb : body st a with
      | error e => rw [hb] at h; simp at h
      | ok st2 =>
        rw [hb] at h
        simp only [List.foldl_cons]
        rw [← hbody st a st2 (hP s a rest1 hc) hb]
        exact ih st2 rest1 st1 rest h

/-- Every one of the successive matches is a match of the pattern. -/
theorem consumed_all {α : Type} (re : Regex) (conv : Captures → Option α) (P : α → Prop)
    (hP : ∀ s a rest, Consume re conv s = some (a, rest) → P a) :
    ∀ (n : Nat) (s : List Char), ∀ a ∈ consumed re conv n s, P a := by
  intro n
  induction n with
  | zero => intro s a h; simp [consumed] at h
  | succ n ih =>
    intro s a h
    simp only [consumed] at h
    cases hc : Consume re conv s with
    | none => rw [hc] at h; simp at h
    | some p =>
      obtain ⟨b, rest⟩ := p
      rw [hc] at h
      simp only [List.mem_cons] at h
      rcases h with rfl | h
      · exact hP s a rest hc
      · exact ih rest a h

theorem foldl_congr_mem {α β : Type} (f g : β → α → β) (l : List α)
    (h : ∀ a ∈ l, ∀ b, f b a = g b a) (b : β) : l.foldl f b = l.foldl g b := by
  induction l generalizing b with
  | nil => rfl
  | cons a t ih =>
    simp only [List.foldl_cons]
    rw [h a (by simp) b]
    exact ih (fun x hx => h x (List.mem_cons_of_mem _ hx)) _

/-! ## The suffix pattern -/

theorem modrm_and_imm_parser_re_eq :
    modrm_and_imm_parser_re = .seq (.star ' ') suffixAlts := rfl

theorem run_lit_mem (l s : List Char) (m : Captures × List Char)
    (h : m ∈ (Regex.lit l).run s) : m.1 = [] ∧ s = l ++ m.2 := by
  unfold Regex.run at h
  split at h
  · rename_i hp
    simp only [List.mem_singleton] at h
    subst h
    obtain ⟨t, ht⟩ := List.isPrefixOf_iff_prefix.mp hp
    refine ⟨rfl, ?_⟩
    subst ht
    simp
  · simp at h

theorem run_cls_mem (cs s : List Char) (m : Captures × List Char)
    (h : m ∈ (Regex.cls cs).run s) :
    m.1 = [] ∧ ∃ c, cs.contains c = true ∧ s = c :: m.2 := by
  unfold Regex.run at h
  split at h
  · simp at h
  · rename_i d t
    split at h
    · rename_i hc
      simp only [List.mem_singleton] at h
      subst h
      exact ⟨rfl, d, hc, rfl⟩
    · simp at h

theorem run_group_mem (i : Nat) (a : Regex) (s : List Char) (m : Captures × List Char)
    (h : m ∈ (Regex.group i a).run s) :
    ∃ m0 ∈ a.run s, m = ((i, s.take (s.length - m0.2.length)) :: m0.1, m0.2) := by
  simp only [Regex.run, List.mem_map] at h
  obtain ⟨m0, h0, rfl⟩ := h
  exact ⟨m0, h0, rfl⟩

theorem run_seq_mem (a b : Regex) (s : List Char) (m : Captures × List Char)
    (h : m ∈ (Regex.seq a b).run s) :
    ∃ m1 ∈ a.run s, ∃ m2 ∈ b.run m1.2, m = (m1.1 ++ m2.1, m2.2) := by
  simp only [Regex.run, List.mem_flatMap, List.mem_map] at h
  obtain ⟨m1, h1, m2, h2, rfl⟩ := h
  exact ⟨m1, h1, m2, h2, rfl⟩

theorem run_alt_mem (a b : Regex) (s : List Char) (m : Captures × List Char)
    (h : m ∈ (Regex.alt a b).run s) : m ∈ a.run s ∨ m ∈ b.run s := by
  simpa [Regex.run] using h

theorem take_append_length_sub (l t : List Char) :
    (l ++ t).take ((l ++ t).length - t.length) = l := by
  simp

/-- The group of a literal captures the literal. -/
theorem run_group_lit_mem (i : Nat) (l s : List Char) (m : Captures × List Char)
    (h : m ∈ (Regex.group i (.lit l)).run s) : m.1 = [(i, l)] := by
  obtain ⟨m0, h0, rfl⟩ := run_group_mem _ _ _ _ h
  obtain ⟨hc, hs⟩ := run_lit_mem _ _ _ h0
  simp only [hc]
  rw [hs, take_append_length_sub]

/-- The group of a character class captures one character of the class. -/
theorem run_group_cls_mem (i : Nat) (cs s : List Char) (m : Captures × List Char)
    (h : m ∈ (Regex.group i (.cls cs)).run s) :
    ∃ c, cs.contains c = true ∧ m.1 = [(i, [c])] := by
  obtain ⟨m0, h0, rfl⟩ := run_group_mem _ _ _ _ h
  obtain ⟨hc, c, hcs, hs⟩ := run_cls_mem _ _ _ h0
  refine ⟨c, hcs, ?_⟩
  simp only [hc]
  rw [hs]
  simp

/-- A literal followed by the group of a character class captures one character of
the class. -/
theorem run_lit_group_cls_mem (l : List Char) (i : Nat) (cs s : List Char)
    (m : Captures × List Char)
    (h : m ∈ (Regex.seq (.lit l) (.group i (.cls cs))).run s) :
    ∃ c, cs.contains c = true ∧ m.1 = [(i, [c])] := by
  obtain ⟨m1, h1, m2, h2, rfl⟩ := run_seq_mem _ _ _ _ h
  obtain ⟨hc1, -⟩ := run_lit_mem _ _ _ h1
  obtain ⟨c, hcs, hc2⟩ := run_group_cls_mem _ _ _ _ h2
  exact ⟨c, hcs, by simp [hc1, hc2]⟩

theorem suffixAlts_captures (s : List Char) (m : Captures × List Char)
    (h : m ∈ suffixAlts.run s) : suffixShape (⟨capture m.1 1, capture m.1 2, capture m.1 3,
      capture m.1 4, capture m.1 5⟩ : SuffixArgs) := by
  unfold suffixAlts at h
  simp only [Regex.alts, Regex.seqs, Regex.str] at h
  rcases run_alt_mem _ _ _ _ h with h | h
  · have hc := run_group_lit_mem _ _ _ _ h
    left
    simp [hc, capture, List.lookup]
  rcases run_alt_mem _ _ _ _ h with h | h
  · obtain ⟨c, hcs, hc⟩ := run_lit_group_cls_mem _ _ _ _ _ h
    right; left
    exact ⟨c, hcs, by simp [hc, capture, List.lookup]⟩
  rcases run_alt_mem _ _ _ _ h with h | h
  · obtain ⟨c, hcs, hc⟩ := run_lit_group_cls_mem _ _ _ _ _ h
    right; right; left
    exact ⟨c, hcs, by simp [hc, capture, List.lookup]⟩
  rcases run_alt_mem _ _ _ _ h with h | h
  · have hc := run_group_lit_mem _ _ _ _ h
    right; right; right; left
    simp [hc, capture, List.lookup]
  rcases run_alt_mem _ _ _ _ h with h | h
  · have hc := run_groupFree (.seq (.lit "m".toList)
      (.alt (.lit "64".toList) (.alt (.lit "128".toList) (.lit "256".toList)))) (by decide) s m h
    right; right; right; right; left
    simp [hc, capture, List.lookup]
  · obtain ⟨c, hcs, hc⟩ := run_lit_group_cls_mem _ _ _ _ _ h
    right; right; right; right; right
    exact ⟨c, hcs, by simp [hc, capture, List.lookup]⟩

/-- Every match of `modrm_and_imm_parser` hands the suffix loop arguments of one of
the six shapes. -/
theorem Consume_suffix_shape (s : List Char) (a : SuffixArgs) (rest : List Char)
    (h : Consume modrm_and_imm_parser_re suffixArgs s = some (a, rest)) : suffixShape a := by
  unfold Consume at h
  split at h
  · simp at h
  · rename_i m hm
    simp only [suffixArgs, Option.some.injEq, Prod.mk.injEq] at h
    have hmem := List.mem_of_mem_head? hm
    rw [modrm_and_imm_parser_re_eq] at hmem
    obtain ⟨m1, h1, m2, h2, rfl⟩ := run_seq_mem _ _ _ _ hmem
    have hc1 : m1.1 = [] := starRun_captures ' ' s m1 h1
    have := suffixAlts_captures _ _ h2
    rw [← h.1]
    simpa [hc1] using this

/-! ## The operand encodings -/

set_option maxHeartbeats 1000000 in
/-- When `GetAvailableEncodings` returns, the ModR/M usage is not none or VSIB is not
used, and the number of occurrences of each location in the result is as follows. -/
theorem GetAvailableEncodings_count (spec : EncodingSpecification) (m : Multiset Encoding)
    (h : GetAvailableEncodings spec = .ok m) :
    (usesVsib spec = true → spec.modrm_usage ≠ .NO_MODRM_USAGE) ∧
    m.count Encoding.MODRM_REG_ENCODING = (if spec.modrm_usage = .FULL_MODRM then 1 else 0) ∧
    m.count Encoding.MODRM_RM_ENCODING =
      (if usesVsib spec = true then 0
        else if spec.modrm_usage = .NO_MODRM_USAGE then 0 else 1) ∧
    m.count Encoding.OPCODE_ENCODING =
      (if spec.operand_in_opcode = .NO_OPERAND_IN_OPCODE then 0 else 1) ∧
    m.count Encoding.VEX_V_ENCODING =
      (match spec.vex_prefix with
        | some vex => if vex.vex_operand_usage = .NO_VEX_OPERAND_USAGE then 0 else 1
        | none => 0) ∧
    m.count Encoding.VEX_SUFFIX_ENCODING =
      (match spec.vex_prefix with
        | some vex => if vex.has_vex_operand_suffix = true then 1 else 0
        | none => 0) ∧
    m.count Encoding.VSIB_ENCODING = (if usesVsib spec = true then 1 else 0) ∧
    m.count Encoding.IMMEDIATE_VALUE_ENCODING =
      spec.immediate_value_bytes.length + (if spec.code_offset_bytes = 0 then 0 else 1) := by
  unfold GetAvailableEncodings at h
  obtain ⟨legacy, vexp, opcode, oio, modrm, ext, imm, co⟩ := spec
  simp only at h ⊢
  have hco : (if co > 0 then 1 else 0) = (if co = 0 then 0 else 1) := by
    by_cases h0 : co = 0 <;> simp [h0, Nat.pos_of_ne_zero]
  by_cases ho : oio = .NO_OPERAND_IN_OPCODE
  · cases vexp with
    | none =>
      simp only [Except.ok.injEq] at h
      subst h
      cases modrm <;>
        simp [usesVsib, Multiset.count_replicate, Multiset.count_cons, hco, ho]
    | some vex =>
      obtain ⟨pt, vou, vs, mp, w, ms, hsfx, vsib⟩ := vex
      simp only at h
      by_cases hv : vou = .NO_VEX_OPERAND_USAGE <;>
      cases vsib <;> cases modrm <;> cases hsfx <;>
        simp [ho, hv] at h <;> subst h <;>
        simp [usesVsib, Multiset.count_replicate, Multiset.count_cons, Multiset.count_filter,
          hco, ho, hv]
  · cases vexp with
    | none =>
      simp only [Except.ok.injEq] at h
      subst h
      cases modrm <;>
        simp [usesVsib, Multiset.count_replicate, Multiset.count_cons, hco, ho]
    | some vex =>
      obtain ⟨pt, vou, vs, mp, w, ms, hsfx, vsib⟩ := vex
      simp only at h
      by_cases hv : vou = .NO_VEX_OPERAND_USAGE <;>
      cases vsib <;> cases modrm <;> cases hsfx <;>
        simp [ho, hv] at h <;> subst h <;>
        simp [usesVsib, Multiset.count_replicate, Multiset.count_cons, Multiset.count_filter,
          hco, ho, hv]

/-! ## The opcode byte loop and the suffix loop -/

theorem FindOrDie_kMapSelectTokens (v : Nat) (ms : MapSelect)
    (h : FindOrDie kMapSelectTokens v = .ok ms) : v = mapSelectValue ms := by
  unfold FindOrDie kMapSelectTokens at h
  simp only [List.lookup] at h
  by_cases h1 : v = 0x0f
  · subst h1; simp at h; subst h; rfl
  by_cases h2 : v = 0x0f3a
  · subst h2; simp at h; subst h; rfl
  by_cases h3 : v = 0x0f38
  · subst h3; simp at h; subst h; rfl
  · have e1 : (v == 15) = false := by simpa using h1
    have e2 : (v == 3898) = false := by simpa using h2
    have e3 : (v == 3896) = false := by simpa using h3
    simp [e1, e2, e3] at h

/-- The parser state after the prefix parser: populated legacy prefixes on a cleared
state, or a populated VEX prefix without operand suffix and VSIB and the opcode
seeded with the value of the opcode map. -/
theorem ParsePrefix_init (s : List Char) (spec1 : EncodingSpecification) (rest : List Char)
    (h : ParsePrefix {} s = .ok (spec1, rest)) :
    (∃ flags : LegacyPrefixEncodingSpecification, spec1 = { legacy_prefixes := some flags }) ∨
    (∃ vex : VexPrefixEncodingSpecification,
      spec1 = { vex_prefix := some vex, opcode := mapSelectValue vex.map_select } ∧
      vex.has_vex_operand_suffix = false ∧ vex.vsib_usage = .VSIB_UNUSED) := by
  unfold ParsePrefix at h
  split at h
  · right
    obtain ⟨args, vs, vou, mp, w, ms, -, -, -, -, -, -, hms, hspec⟩ :=
      ParseVexOrEvexPrefix_ok _ _ _ _ h
    have hv := FindOrDie_kMapSelectTokens _ _ hms
    refine ⟨{ prefix_type :=
                if args.prefix_type_str = "EVEX".toList then .EVEX_PREFIX else .VEX_PREFIX
              vex_operand_usage := vou
              vector_size := vs
              mandatory_prefix := mp
              vex_w_usage := w
              map_select := ms }, ?_, rfl, rfl⟩
    rw [hspec, hv]
  · left
    rw [ParseLegacyPrefixes_eq] at h
    split at h
    · simp at h
    · rename_i flags rest1 _
      simp only [Except.ok.injEq, Prod.mk.injEq] at h
      exact ⟨flags, h.1.symm⟩

theorem hexDigit_lt (c : Char) (d : Nat) (h : hexDigit c = some d) : d < 16 := by
  unfold hexDigit at h
  simp only at h
  split at h
  · simp only [Option.some.injEq] at h; omega
  · split at h
    · simp only [Option.some.injEq] at h; omega
    · simp at h

theorem parseHex_pair_lt (bits : Nat) (x y : Char) (v : Nat)
    (h : parseHex bits [x, y] = some v) : v < 256 := by
  unfold parseHex at h
  simp only [hexValue] at h
  cases hx : hexDigit x with
  | none => simp [hx] at h
  | some dx =>
    cases hy : hexDigit y with
    | none => simp [hx, hy] at h
    | some dy =>
      have := hexDigit_lt x dx hx
      have := hexDigit_lt y dy hy
      simp only [hx, hy] at h
      split at h
      · simp only [Option.some.injEq] at h; omega
      · simp at h

theorem opcodeByteGroup_mem (s : List Char) (m : Captures × List Char)
    (h : m ∈ opcodeByteGroup.run s) : ∃ x y : Char, m.1 = [(1, [x, y])] := by
  unfold opcodeByteGroup at h
  simp only [Regex.seqs] at h
  obtain ⟨m0, h0, rfl⟩ := run_group_mem _ _ _ _ h
  obtain ⟨m1, h1, m2, h2, rfl⟩ := run_seq_mem _ _ _ _ h0
  obtain ⟨hc1, x, -, hs1⟩ := run_cls_mem _ _ _ h1
  obtain ⟨hc2, y, -, hs2⟩ := run_cls_mem _ _ _ h2
  refine ⟨x, y, ?_⟩
  simp only [hc1, hc2, List.append_nil]
  rw [hs1, hs2]
  have hlen : m2.2.length + 1 + 1 - m2.2.length = 2 := by omega
  simp [hlen]

/-- Every opcode byte that the opcode byte loop matches is below 256. -/
theorem Consume_opcode_byte_lt (s : List Char) (a : Nat × List Char) (rest : List Char)
    (h : Consume opcode_byte_parser_re opcodeByteArgs s = some (a, rest)) : a.1 < 256 := by
  unfold Consume at h
  split at h
  · simp at h
  · rename_i m hm
    have hmem := List.mem_of_mem_head? hm
    rw [opcode_byte_parser_re_eq] at hmem
    obtain ⟨m1, h1, m2, h2, rfl⟩ := run_seq_mem _ _ _ _ hmem
    obtain ⟨g, hg, k, hk, rfl⟩ := run_seq_mem _ _ _ _ h2
    have hc1 : m1.1 = [] := starRun_captures ' ' s m1 h1
    obtain ⟨x, y, hxy⟩ := opcodeByteGroup_mem _ _ hg
    have hcap : capture (m1.1 ++ (g.1 ++ k.1)) 1 = [x, y] := by
      simp [hc1, hxy, capture, List.lookup]
    unfold opcodeByteArgs at h
    simp only [hcap] at h
    cases hp : parseHex 31 [x, y] with
    | none => simp [hp] at h
    | some v =>
      simp only [hp, Option.some.injEq, Prod.mk.injEq] at h
      rw [← h.1]
      exact parseHex_pair_lt _ _ _ _ hp

theorem opcodeBytes_lt (s : List Char) : ∀ b ∈ opcodeBytes s, b < 256 := by
  intro b hb
  unfold opcodeBytes opcodeByteMatches at hb
  obtain ⟨a, ha, rfl⟩ := List.mem_map.mp hb
  exact consumed_all opcode_byte_parser_re opcodeByteArgs (fun a => a.1 < 256)
    Consume_opcode_byte_lt _ _ a ha

/-- One step of the opcode accumulation, for a byte below 256. -/
theorem opcode_step (acc b : Nat) (hb : b < 256) :
    uint32 (uint32 (acc <<< 8) ||| b) = ((acc <<< 8) ||| b) % 2 ^ 32 ∧
    uint32 (uint32 (acc <<< 8) ||| b) = (acc * 256 + b) % 2 ^ 32 := by
  have h1 : acc <<< 8 = 2 ^ 8 * acc := by rw [Nat.shiftLeft_eq]; omega
  have h2 : uint32 (acc <<< 8) = 2 ^ 8 * (acc % 2 ^ 24) := by
    unfold uint32; rw [h1]; omega
  have h3 := Nat.mul_add_lt_is_or (i := 8) (b := b) (by omega) acc
  have h4 := Nat.mul_add_lt_is_or (i := 8) (b := b) (by omega) (acc % 2 ^ 24)
  rw [h2, ← h4, h1, ← h3]
  unfold uint32
  constructor <;> omega

theorem opcodeByteBody_fields (st : OpcodeState) (a : Nat × List Char) (st1 : OpcodeState)
    (h : opcodeByteBody st a = .ok st1) :
    st1.opcode = uint32 (uint32 (st.opcode <<< 8) ||| a.1) ∧
    st1.num_opcode_bytes = st.num_opcode_bytes + 1 ∧
    { st1.specification_ with operand_in_opcode := .NO_OPERAND_IN_OPCODE } =
      { st.specification_ with operand_in_opcode := .NO_OPERAND_IN_OPCODE } := by
  unfold opcodeByteBody at h
  split at h <;> (simp only [Except.ok.injEq] at h; subst h; exact ⟨rfl, rfl, rfl⟩)

/-- What the opcode byte loop computes: the opcode is the fold of
`acc := (acc << 8) | byte` modulo `2^32` over the matched bytes, from the opcode of
the parser state; the counter is the number of matched bytes; and of the parser
state only the operand-in-opcode field may change. -/
theorem ParseOpcodeBytes_ok (spec0 : EncodingSpecification) (s : List Char)
    (st : OpcodeState) (rest : List Char) (h : ParseOpcodeBytes spec0 s = .ok (st, rest)) :
    st.opcode =
      (opcodeBytes s).foldl (fun acc byte => ((acc <<< 8) ||| byte) % 2 ^ 32) spec0.opcode ∧
    st.num_opcode_bytes = (opcodeBytes s).length ∧
    { st.specification_ with operand_in_opcode := .NO_OPERAND_IN_OPCODE } =
      { spec0 with operand_in_opcode := .NO_OPERAND_IN_OPCODE } := by
  unfold ParseOpcodeBytes at h
  refine ⟨?_, ?_, ?_⟩
  · have h1 := whileConsume_fold opcode_byte_parser_re opcodeByteArgs opcodeByteBody
      (fun st => st.opcode) (fun acc a => uint32 (uint32 (acc <<< 8) ||| a.1))
      (fun _ => True) (fun _ _ _ _ => trivial)
      (fun st a st1 _ hb => (opcodeByteBody_fields st a st1 hb).1) _ _ _ _ _ h
    simp only at h1
    rw [h1]
    unfold opcodeBytes
    rw [List.foldl_map]
    apply foldl_congr_mem
    intro a ha b
    exact (opcode_step b a.1 (consumed_all opcode_byte_parser_re opcodeByteArgs
      (fun a => a.1 < 256) Consume_opcode_byte_lt _ _ a ha)).1
  · have h1 := whileConsume_fold opcode_byte_parser_re opcodeByteArgs opcodeByteBody
      (fun st => st.num_opcode_bytes) (fun n _ => n + 1)
      (fun _ => True) (fun _ _ _ _ => trivial)
      (fun st a st1 _ hb => (opcodeByteBody_fields st a st1 hb).2.1) _ _ _ _ _ h
    simp only at h1
    rw [h1]
    unfold opcodeBytes opcodeByteMatches
    rw [List.length_map]
    generalize consumed opcode_byte_parser_re opcodeByteArgs (s.length + 1) s = l
    have : ∀ n, List.foldl (fun n (_ : Nat × List Char) => n + 1) n l = n + l.length := by
      induction l with
      | nil => intro n; rfl
      | cons a t ih => intro n; simp only [List.foldl_cons, List.length_cons, ih]; omega
    simpa using this 0
  · exact whileConsume_invariant opcode_byte_parser_re opcodeByteArgs opcodeByteBody
      (fun st => { st.specification_ with operand_in_opcode := .NO_OPERAND_IN_OPCODE } =
        ({ spec0 with operand_in_opcode := .NO_OPERAND_IN_OPCODE } : EncodingSpecification))
      (fun st a st1 hP hb => (opcodeByteBody_fields st a st1 hb).2.2.trans hP)
      _ _ _ _ _ rfl h

theorem suffixBody_frame (spec : EncodingSpecification) (a : SuffixArgs)
    (spec1 : EncodingSpecification) (h : suffixBody spec a = .ok spec1) :
    spec1.opcode = spec.opcode ∧ spec1.operand_in_opcode = spec.operand_in_opcode := by
  unfold suffixBody at h
  repeat' split at h
  all_goals first
    | (simp at h; done)
    | (simp at h; subst h; exact ⟨rfl, rfl⟩)

/-- What one iteration of the suffix loop does for a token of one of the shapes the
pattern hands over. -/
theorem suffixBody_fields (spec : EncodingSpecification) (a : SuffixArgs)
    (spec1 : EncodingSpecification) (ha : suffixShape a) (h : suffixBody spec a = .ok spec1) :
    spec1.immediate_value_bytes = spec.immediate_value_bytes ++ (immediateWidth a).toList ∧
    spec1.code_offset_bytes = (codeOffsetWidth a).getD spec.code_offset_bytes ∧
    spec1.modrm_usage = (modRmUsageOf a).getD spec.modrm_usage ∧
    spec1.modrm_opcode_extension = (modRmExtensionOf a).getD spec.modrm_opcode_extension := by
  rcases ha with rfl | ⟨c, hc, rfl⟩ | ⟨c, hc, rfl⟩ | rfl | rfl | ⟨c, hc, rfl⟩
  · have hx : suffixBody spec ⟨"/is4".toList, [], [], [], []⟩ =
        if has_vex_prefix spec = false then .error is4WithoutVex
        else .ok (updateVexPrefix spec fun vex => { vex with has_vex_operand_suffix := true }) :=
      rfl
    rw [hx] at h
    split at h
    · simp at h
    · simp only [Except.ok.injEq] at h
      subst h
      exact ⟨by simp [immediateWidth, updateVexPrefix], rfl, rfl, rfl⟩
  · simp at hc
    rcases hc with rfl | rfl | rfl | rfl <;>
      (simp [suffixBody] at h; subst h;
       simp [immediateWidth, codeOffsetWidth, modRmUsageOf, modRmExtensionOf, modRmSuffix])
  · by_cases hr : c = 'r'
    · subst hr
      simp [suffixBody] at h
      subst h
      simp [immediateWidth, codeOffsetWidth, modRmUsageOf, modRmExtensionOf, modRmSuffix]
    · simp [suffixBody, hr] at h
      subst h
      simp [immediateWidth, codeOffsetWidth, modRmUsageOf, modRmExtensionOf, modRmSuffix, hr]
  · have hx : suffixBody spec ⟨[], [], [], "/vsib".toList, []⟩ =
        if has_vex_prefix spec = false then .error vsibWithoutVex
        else .ok (updateVexPrefix spec fun vex => { vex with vsib_usage := .VSIB_USED }) :=
      rfl
    rw [hx] at h
    split at h
    · simp at h
    · simp only [Except.ok.injEq] at h
      subst h
      exact ⟨by simp [immediateWidth, updateVexPrefix], rfl, rfl, rfl⟩
  · simp [suffixBody] at h
    subst h
    simp [immediateWidth, codeOffsetWidth, modRmUsageOf, modRmExtensionOf, modRmSuffix]
  · simp at hc
    rcases hc with rfl | rfl | rfl | rfl | rfl | rfl <;>
      (simp [suffixBody] at h; subst h;
       simp [immediateWidth, codeOffsetWidth, modRmUsageOf, modRmExtensionOf, modRmSuffix])

theorem foldl_append_toList {α β : Type} (g : α → Option β) (l : List α) (acc : List β) :
    l.foldl (fun acc a => acc ++ (g a).toList) acc = acc ++ l.filterMap g := by
  induction l generalizing acc with
  | nil => simp
  | cons a t ih =>
    simp only [List.foldl_cons, ih]
    cases hg : g a <;> simp [List.filterMap_cons, hg]

theorem foldl_getD {α β : Type} (g : α → Option β) (l : List α) (b : β) :
    l.foldl (fun b a => (g a).getD b) b = ((l.filterMap g).getLast?).getD b := by
  induction l generalizing b with
  | nil => simp
  | cons a t ih =>
    simp only [List.foldl_cons, ih]
    cases hg : g a with
    | none => simp [List.filterMap_cons, hg]
    | some v =>
      simp only [List.filterMap_cons, hg, Option.getD_some, List.getLast?_cons]

/-- What the suffix loop computes, in terms of the suffix tokens it matches: the
immediate value sizes are appended in order, the code offset size, the ModR/M usage
and the opcode extension are those of the last token that sets them, and the
opcode, the operand in the opcode and the prefixes are left as they were. -/
theorem ParseSuffixes_ok (spec0 : EncodingSpecification) (s : List Char)
    (spec2 : EncodingSpecification) (rest2 : List Char)
    (h : ParseSuffixes spec0 s = .ok (spec2, rest2)) :
    spec2.opcode = spec0.opcode ∧
    spec2.operand_in_opcode = spec0.operand_in_opcode ∧
    spec2.immediate_value_bytes =
      spec0.immediate_value_bytes ++ (suffixTokens s).filterMap immediateWidth ∧
    spec2.code_offset_bytes =
      (((suffixTokens s).filterMap codeOffsetWidth).getLast?).getD spec0.code_offset_bytes ∧
    spec2.modrm_usage =
      (((suffixTokens s).filterMap modRmUsageOf).getLast?).getD spec0.modrm_usage ∧
    spec2.modrm_opcode_extension =
      (((suffixTokens s).filterMap modRmExtensionOf).getLast?).getD
        spec0.modrm_opcode_extension := by
  unfold ParseSuffixes at h
  unfold suffixTokens
  refine ⟨?_, ?_, ?_, ?_, ?_, ?_⟩
  · exact whileConsume_invariant modrm_and_imm_parser_re suffixArgs suffixBody
      (fun spec => spec.opcode = spec0.opcode)
      (fun st a st1 hP hb => (suffixBody_frame st a st1 hb).1.trans hP) _ _ _ _ _ rfl h
  · exact whileConsume_invariant modrm_and_imm_parser_re suffixArgs suffixBody
      (fun spec => spec.operand_in_opcode = spec0.operand_in_opcode)
      (fun st a st1 hP hb => (suffixBody_frame st a st1 hb).2.trans hP) _ _ _ _ _ rfl h
  · rw [← foldl_append_toList]
    exact whileConsume_fold modrm_and_imm_parser_re suffixArgs suffixBody
      (fun spec => spec.immediate_value_bytes) (fun acc a => acc ++ (immediateWidth a).toList)
      suffixShape Consume_suffix_shape
      (fun st a st1 ha hb => (suffixBody_fields st a st1 ha hb).1) _ _ _ _ _ h
  · rw [← foldl_getD]
    exact whileConsume_fold modrm_and_imm_parser_re suffixArgs suffixBody
      (fun spec => spec.code_offset_bytes) (fun b a => (codeOffsetWidth a).getD b)
      suffixShape Consume_suffix_shape
      (fun st a st1 ha hb => (suffixBody_fields st a st1 ha hb).2.1) _ _ _ _ _ h
  · rw [← foldl_getD]
    exact whileConsume_fold modrm_and_imm_parser_re suffixArgs suffixBody
      (fun spec => spec.modrm_usage) (fun b a => (modRmUsageOf a).getD b)
      suffixShape Consume_suffix_shape
      (fun st a st1 ha hb => (suffixBody_fields st a st1 ha hb).2.2.1) _ _ _ _ _ h
  · rw [← foldl_getD]
    exact whileConsume_fold modrm_and_imm_parser_re suffixArgs suffixBody
      (fun spec => spec.modrm_opcode_extension) (fun b a => (modRmExtensionOf a).getD b)
      suffixShape Consume_suffix_shape
      (fun st a st1 ha hb => (suffixBody_fields st a st1 ha hb).2.2.2) _ _ _ _ _ h

theorem vsib_usage_of_prefixCore (a b : EncodingSpecification)
    (h : a.vex_prefix = b.vex_prefix) : vsib_usage a = vsib_usage b := by
  unfold vsib_usage
  rw [h]

/-- The stages of a successful parse: the prefix parser, the opcode byte loop, the
suffix loop on the text after the opcode bytes, and the VSIB fix-up. -/
theorem ParseFromString_stages (s : List Char) (spec : EncodingSpecification)
    (h : ParseFromString s = .ok spec) :
    ∃ (spec1 : EncodingSpecification) (rest : List Char) (st : OpcodeState)
      (rest1 : List Char) (spec2 : EncodingSpecification) (rest2 : List Char),
      ParsePrefix {} s = .ok (spec1, rest) ∧
      ParseOpcodeBytes spec1 rest = .ok (st, rest1) ∧
      st.num_opcode_bytes ≠ 0 ∧
      ( has_vex_prefix spec1 = true → st.num_opcode_bytes = 1) ∧
      ParseSuffixes { st.specification_ with opcode := st.opcode } rest1 = .ok (spec2, rest2) ∧
      spec = vsibFixup spec2 := by
  obtain ⟨spec1, rest, hp, hos⟩ := ParseFromString_ok _ _ h
  obtain ⟨st, rest1, hop, h0, h1, hrest⟩ := ParseOpcodeAndSuffixes_ok _ _ _ hos
  have hv : ( has_vex_prefix spec1 = true → st.num_opcode_bytes = 1) := by
    intro hv
    apply h1
    rw [ParseOpcodeBytes_keeps_vex _ _ _ _ hop]
    exact hv
  rcases hrest with ⟨hr, hs⟩ | ⟨-, spec2, rest2, hsuf, -, hs⟩
  · refine ⟨spec1, rest, st, rest1, { st.specification_ with opcode := st.opcode }, [],
      hp, hop, h0, hv, ?_, ?_⟩
    · rw [hr]
      exact ParseSuffixes_nil _
    · rw [hs]
      have hframe := (ParseOpcodeBytes_ok _ _ _ _ hop).2.2
      have hvex : st.specification_.vex_prefix = spec1.vex_prefix :=
        congrArg (fun x => x.vex_prefix) hframe
      have hunused : vsib_usage spec1 = .VSIB_UNUSED := by
        rcases ParsePrefix_init _ _ _ hp with ⟨flags, rfl⟩ | ⟨vex, rfl, -, hvs⟩
        · rfl
        · exact hvs
      have : vsib_usage { st.specification_ with opcode := st.opcode } = .VSIB_UNUSED := by
        rw [← hunused]
        exact vsib_usage_of_prefixCore _ _ hvex
      unfold vsibFixup
      rw [if_neg]
      rw [this]
      simp
  · exact ⟨spec1, rest, st, rest1, spec2, rest2, hp, hop, h0, hv, hsuf, hs⟩

/-! ## The descriptor of a successful parse -/

theorem prefixCore_map_select (a b : EncodingSpecification) (h : prefixCore a = prefixCore b)
    (va : VexPrefixEncodingSpecification) (ha : a.vex_prefix = some va) :
    ∃ vb : VexPrefixEncodingSpecification, b.vex_prefix = some vb ∧
      va.map_select = vb.map_select := by
  simp only [prefixCore, Prod.mk.injEq, ha, Option.map_some'] at h
  cases hb : b.vex_prefix with
  | none => rw [hb] at h; simp at h
  | some vb =>
    rw [hb] at h
    simp only [Option.map_some', Option.some.injEq, Prod.mk.injEq] at h
    exact ⟨vb, rfl, h.2.2.2.2.2.2⟩

theorem vsibFixup_fields (spec : EncodingSpecification) :
    (vsibFixup spec).legacy_prefixes = spec.legacy_prefixes ∧
    EncodingSpecification.vex_prefix (vsibFixup spec) = spec.vex_prefix ∧
    (vsibFixup spec).opcode = spec.opcode ∧
    (vsibFixup spec).operand_in_opcode = spec.operand_in_opcode ∧
    (vsibFixup spec).modrm_opcode_extension = spec.modrm_opcode_extension ∧
    (vsibFixup spec).immediate_value_bytes = spec.immediate_value_bytes ∧
    (vsibFixup spec).code_offset_bytes = spec.code_offset_bytes ∧
    (vsibFixup spec).modrm_usage =
      (if vsib_usage spec = .VSIB_USED ∧ spec.modrm_usage = .NO_MODRM_USAGE then .FULL_MODRM
        else spec.modrm_usage) := by
  unfold vsibFixup
  split <;> exact ⟨rfl, rfl, rfl, rfl, rfl, rfl, rfl, rfl⟩

/-- The descriptor of a successful parse, field by field, in terms of the opcode
bytes matched after the prefixes and the suffix tokens matched after the opcode
bytes. -/
theorem ParseFromString_fields (s : List Char) (spec : EncodingSpecification)
    (h : ParseFromString s = .ok spec) :
    ∃ (spec1 : EncodingSpecification) (rest : List Char) (st : OpcodeState)
      (rest1 : List Char),
      ParsePrefix {} s = .ok (spec1, rest) ∧
      ParseOpcodeBytes spec1 rest = .ok (st, rest1) ∧
      st.num_opcode_bytes ≠ 0 ∧
      ( has_vex_prefix spec1 = true → st.num_opcode_bytes = 1) ∧
      prefixCore spec = prefixCore spec1 ∧
      spec.opcode = st.opcode ∧
      spec.immediate_value_bytes = (suffixTokens rest1).filterMap immediateWidth ∧
      spec.code_offset_bytes =
        (((suffixTokens rest1).filterMap codeOffsetWidth).getLast?).getD 0 ∧
      spec.modrm_usage =
        (if vsib_usage spec = .VSIB_USED ∧
            (((suffixTokens rest1).filterMap modRmUsageOf).getLast?).getD .NO_MODRM_USAGE =
              .NO_MODRM_USAGE then .FULL_MODRM
          else (((suffixTokens rest1).filterMap modRmUsageOf).getLast?).getD .NO_MODRM_USAGE) ∧
      spec.modrm_opcode_extension =
        (((suffixTokens rest1).filterMap modRmExtensionOf).getLast?).getD 0 := by
  obtain ⟨spec1, rest, st, rest1, spec2, rest2, hp, hop, h0, hv, hsuf, hs⟩ :=
    ParseFromString_stages s spec h
  obtain ⟨ho, -, himm, hco, hmu, hext⟩ := ParseSuffixes_ok _ _ _ _ hsuf
  obtain ⟨-, f2, f3, -, f5, f6, f7, f8⟩ := vsibFixup_fields spec2
  have hframe := (ParseOpcodeBytes_ok _ _ _ _ hop).2.2
  have i1 : spec1.immediate_value_bytes = [] ∧ spec1.code_offset_bytes = 0 ∧
      spec1.modrm_usage = .NO_MODRM_USAGE ∧ spec1.modrm_opcode_extension = 0 := by
    rcases ParsePrefix_init _ _ _ hp with ⟨flags, rfl⟩ | ⟨vex, rfl, -, -⟩ <;>
      exact ⟨rfl, rfl, rfl, rfl⟩
  have e1 : st.specification_.immediate_value_bytes = spec1.immediate_value_bytes :=
    congrArg (fun x => x.immediate_value_bytes) hframe
  have e2 : st.specification_.code_offset_bytes = spec1.code_offset_bytes :=
    congrArg (fun x => x.code_offset_bytes) hframe
  have e3 : st.specification_.modrm_usage = spec1.modrm_usage :=
    congrArg (fun x => x.modrm_usage) hframe
  have e4 : st.specification_.modrm_opcode_extension = spec1.modrm_opcode_extension :=
    congrArg (fun x => x.modrm_opcode_extension) hframe
  have hcore : prefixCore spec = prefixCore spec1 :=
    ParseOpcodeAndSuffixes_prefixCore _ _ _ (by
      have := ParseFromString_ok _ _ h
      obtain ⟨spec1', rest', hp', hos'⟩ := this
      rw [hp] at hp'
      simp only [Except.ok.injEq, Prod.mk.injEq] at hp'
      obtain ⟨rfl, rfl⟩ := hp'
      exact hos')
  dsimp only at himm hco hmu hext ho
  rw [e1, i1.1, List.nil_append] at himm
  rw [e2, i1.2.1] at hco
  rw [e3, i1.2.2.1] at hmu
  rw [e4, i1.2.2.2] at hext
  have hvs : vsib_usage spec = vsib_usage spec2 := by
    rw [hs]
    exact vsib_usage_of_prefixCore _ _ f2
  refine ⟨spec1, rest, st, rest1, hp, hop, h0, hv, hcore, ?_, ?_, ?_, ?_, ?_⟩
  · rw [hs, f3, ho]
  · rw [hs, f6, himm]
  · rw [hs, f7, hco]
  · rw [hvs, ← hmu, hs, f8]
  · rw [hs, f5, hext]

theorem foldl_base256_mod (l : List Nat) (x y : Nat) (h : x % 2 ^ 32 = y % 2 ^ 32) :
    l.foldl (fun acc byte => acc * 256 + byte) x % 2 ^ 32 =
      l.foldl (fun acc byte => acc * 256 + byte) y % 2 ^ 32 := by
  induction l generalizing x y with
  | nil => exact h
  | cons b t ih =>
    simp only [List.foldl_cons]
    apply ih
    omega

theorem opcodeFold_mod (l : List Nat) (acc : Nat) (hl : ∀ b ∈ l, b < 256) :
    l.foldl (fun acc byte => ((acc <<< 8) ||| byte) % 2 ^ 32) acc % 2 ^ 32 =
      l.foldl (fun acc byte => acc * 256 + byte) acc % 2 ^ 32 := by
  induction l generalizing acc with
  | nil => rfl
  | cons b t ih =>
    simp only [List.foldl_cons]
    rw [ih _ (fun c hc => hl c (List.mem_cons_of_mem _ hc))]
    apply foldl_base256_mod
    have hb := opcode_step acc b (hl b (List.mem_cons_self _ _))
    rw [← hb.1, hb.2]
    omega

theorem opcodeFold_lt (l : List Nat) (acc : Nat) (h : acc < 2 ^ 32) :
    l.foldl (fun acc byte => ((acc <<< 8) ||| byte) % 2 ^ 32) acc < 2 ^ 32 := by
  induction l generalizing acc with
  | nil => exact h
  | cons b t ih =>
    simp only [List.foldl_cons]
    apply ih
    exact Nat.mod_lt _ (by norm_num)

theorem foldl_base256_lt (l : List Nat) (acc : Nat) (hl : ∀ b ∈ l, b < 256) :
    l.foldl (fun acc byte => acc * 256 + byte) acc < (acc + 1) * 256 ^ l.length := by
  induction l generalizing acc with
  | nil => simp
  | cons b t ih =>
    simp only [List.foldl_cons, List.length_cons]
    have h1 := ih (acc * 256 + b) (fun c hc => hl c (List.mem_cons_of_mem _ hc))
    have hb := hl b (List.mem_cons_self _ _)
    have h2 : (acc * 256 + b + 1) * 256 ^ t.length ≤ ((acc + 1) * 256) * 256 ^ t.length :=
      Nat.mul_le_mul_right _ (by omega)
    calc List.foldl (fun acc byte => acc * 256 + byte) (acc * 256 + b) t
        < (acc * 256 + b + 1) * 256 ^ t.length := h1
      _ ≤ ((acc + 1) * 256) * 256 ^ t.length := h2
      _ = (acc + 1) * 256 ^ (t.length + 1) := by rw [pow_succ]; ring

/-- For at most four bytes below 256 the accumulation from zero is the big-endian
number of the bytes. -/
theorem opcodeFold_big_endian (l : List Nat) (hl : ∀ b ∈ l, b < 256) (h4 : l.length ≤ 4) :
    l.foldl (fun acc byte => ((acc <<< 8) ||| byte) % 2 ^ 32) 0 =
      l.foldl (fun acc byte => acc * 256 + byte) 0 := by
  have h1 := opcodeFold_mod l 0 hl
  have h2 := opcodeFold_lt l 0 (by norm_num)
  have h3 := foldl_base256_lt l 0 hl
  have h5 : 256 ^ l.length ≤ 256 ^ 4 := Nat.pow_le_pow_right (by norm_num) h4
  have h6 : l.foldl (fun acc byte => acc * 256 + byte) 0 < 2 ^ 32 := by
    have : (256 : Nat) ^ 4 = 2 ^ 32 := by norm_num
    omega
  rw [Nat.mod_eq_of_lt h2, Nat.mod_eq_of_lt h6] at h1
  exact h1

theorem mapSelectValue_lt (ms : MapSelect) : mapSelectValue ms < 2 ^ 16 := by
  cases ms <;> decide

/-! ## The suffix loop without a VEX prefix -/

/-- When some match of the pattern is bad, the body fails on every bad match and
succeeds with the invariant kept on every other match, the loop fails with a
failure of the body on a bad match. -/
theorem whileConsume_fails {σ α : Type} (re : Regex) (conv : Captures → Option α)
    (body : σ → α → Except Failure σ) (Inv : σ → Prop) (P bad : α → Prop)
    (E : Failure → Prop)
    (hP : ∀ s a rest, Consume re conv s = some (a, rest) → P a)
    (hgood : ∀ st a, Inv st → P a → ¬ bad a → ∃ st1, body st a = .ok st1 ∧ Inv st1)
    (hbad : ∀ st a, Inv st → P a → bad a → ∃ e, body st a = .error e ∧ E e) :
    ∀ (n : Nat) (st : σ) (s : List Char), Inv st →
      (∃ a ∈ consumed re conv n s, bad a) →
      ∃ e, whileConsume re conv body n st s = .error e ∧ E e := by
  intro n
  induction n with
  | zero =>
    intro st s _ h
    obtain ⟨a, ha, -⟩ := h
    simp [consumed] at ha
  | succ n ih =>
    intro st s hInv h
    obtain ⟨a, ha, hbada⟩ := h
    simp only [consumed] at ha
    simp only [whileConsume]
    cases hc : Consume re conv s with
    | none => simp [hc] at ha
    | some p =>
      obtain ⟨a0, rest⟩ := p
      simp only [hc, List.mem_cons] at ha
      have hPa := hP s a0 rest hc
      by_cases hb0 : bad a0
      · obtain ⟨e, he, hE⟩ := hbad st a0 hInv hPa hb0
        exact ⟨e, by simp only [he], hE⟩
      · obtain ⟨st1, hst1, hInv1⟩ := hgood st a0 hInv hPa hb0
        simp only [hst1]
        apply ih st1 rest hInv1
        rcases ha with rfl | ha
        · exact absurd hbada hb0
        · exact ⟨a, ha, hbada⟩

theorem suffixBody_without_vex (spec : EncodingSpecification) (a : SuffixArgs)
    (hv : has_vex_prefix spec = false) (ha : suffixShape a) :
    (¬ (a.is4_suffix_str ≠ [] ∨ a.vsib_suffix_str ≠ []) →
      ∃ spec1, suffixBody spec a = .ok spec1 ∧ has_vex_prefix spec1 = false) ∧
    ((a.is4_suffix_str ≠ [] ∨ a.vsib_suffix_str ≠ []) →
      ∃ e, suffixBody spec a = .error e ∧ (e = is4WithoutVex ∨ e = vsibWithoutVex)) := by
  rcases ha with rfl | ⟨c, hc, rfl⟩ | ⟨c, hc, rfl⟩ | rfl | rfl | ⟨c, hc, rfl⟩
  · refine ⟨fun h => absurd (Or.inl (by decide)) h, fun _ => ⟨is4WithoutVex, ?_, Or.inl rfl⟩⟩
    have hx : suffixBody spec ⟨"/is4".toList, [], [], [], []⟩ =
        if has_vex_prefix spec = false then .error is4WithoutVex
        else .ok (updateVexPrefix spec fun vex => { vex with has_vex_operand_suffix := true }) :=
      rfl
    rw [hx, if_pos hv]
  · refine ⟨fun _ => ?_, fun h => ?_⟩
    · have hc' : c = 'b' ∨ c = 'w' ∨ c = 'd' ∨ c = 'o' := by
        simpa using hc
      rcases hc' with rfl | rfl | rfl | rfl <;> exact ⟨_, rfl, hv⟩
    · simp at h
  · refine ⟨fun _ => ?_, fun h => ?_⟩
    · simp only [suffixBody]
      split <;> exact ⟨_, rfl, hv⟩
    · simp at h
  · refine ⟨fun h => absurd (Or.inr (by decide)) h, fun _ => ⟨vsibWithoutVex, ?_, Or.inr rfl⟩⟩
    have hx : suffixBody spec ⟨[], [], [], "/vsib".toList, []⟩ =
        if has_vex_prefix spec = false then .error vsibWithoutVex
        else .ok (updateVexPrefix spec fun vex => { vex with vsib_usage := .VSIB_USED }) :=
      rfl
    rw [hx, if_pos hv]
  · exact ⟨fun _ => ⟨spec, rfl, hv⟩, fun h => by simp at h⟩
  · refine ⟨fun _ => ?_, fun h => ?_⟩
    · have hc' : c = 'b' ∨ c = 'w' ∨ c = 'd' ∨ c = 'p' ∨ c = 'o' ∨ c = 't' := by
        simpa using hc
      rcases hc' with rfl | rfl | rfl | rfl | rfl | rfl <;> exact ⟨_, rfl, hv⟩
    · simp at h

/-- Without a VEX prefix the suffix loop fails when one of the suffix tokens of the
text is `/is4` or `/vsib`. -/
theorem ParseSuffixes_without_vex (spec0 : EncodingSpecification) (s : List Char)
    (hv : has_vex_prefix spec0 = false)
    (h : ∃ a ∈ suffixTokens s, a.is4_suffix_str ≠ [] ∨ a.vsib_suffix_str ≠ []) :
    ParseSuffixes spec0 s = .error is4WithoutVex ∨
      ParseSuffixes spec0 s = .error vsibWithoutVex := by
  obtain ⟨e, he, hE⟩ := whileConsume_fails modrm_and_imm_parser_re suffixArgs suffixBody
    (fun spec => has_vex_prefix spec = false) suffixShape
    (fun a => a.is4_suffix_str ≠ [] ∨ a.vsib_suffix_str ≠ [])
    (fun e => e = is4WithoutVex ∨ e = vsibWithoutVex)
    Consume_suffix_shape
    (fun st a hInv hP hb => (suffixBody_without_vex st a hInv hP).1 hb)
    (fun st a hInv hP hb => (suffixBody_without_vex st a hInv hP).2 hb)
    (s.length + 1) spec0 s hv h
  unfold ParseSuffixes
  rcases hE with rfl | rfl
  · exact Or.inl he
  · exact Or.inr he

theorem ParseLegacyPrefixes_no_vex (s : List Char) (spec1 : EncodingSpecification)
    (rest : List Char) (h : ParseLegacyPrefixes {} s = .ok (spec1, rest)) :
    has_vex_prefix spec1 = false := by
  unfold ParseLegacyPrefixes at h
  split at h
  · simp at h
  · simp only [Except.ok.injEq, Prod.mk.injEq] at h
    rw [← h.1]
    rfl

theorem suffixTokens_nil : suffixTokens [] = [] := rfl

/-! ## Descriptors on which the operand encodings are defined -/

theorem usesVsib_eq (spec : EncodingSpecification) :
    usesVsib spec = decide (vsib_usage spec = .VSIB_USED) := by
  unfold usesVsib vsib_usage
  cases spec.vex_prefix with
  | none => rfl
  | some vex =>
    obtain ⟨pt, vou, vs, mp, w, ms, hsfx, vsib⟩ := vex
    cases vsib <;> rfl

/-- The function `GetAvailableEncodings` returns on every descriptor whose ModR/M
usage is not none when it uses VSIB. -/
theorem GetAvailableEncodings_ok (spec : EncodingSpecification)
    (h : vsib_usage spec = .VSIB_USED → spec.modrm_usage ≠ .NO_MODRM_USAGE) :
    ∃ m, GetAvailableEncodings spec = .ok m := by
  unfold GetAvailableEncodings
  unfold vsib_usage at h
  cases hv : spec.vex_prefix with
  | none => exact ⟨_, rfl⟩
  | some vex =>
    rw [hv] at h
    simp only at h ⊢
    by_cases hu : vex.vsib_usage = .VSIB_UNUSED
    · rw [if_neg (by simp [hu])]
      exact ⟨_, rfl⟩
    · have hused : vex.vsib_usage = .VSIB_USED := by
        cases hvu : vex.vsib_usage with
        | VSIB_UNUSED => exact absurd hvu hu
        | VSIB_USED => rfl
      rw [if_pos hu, if_neg (h hused)]
      exact ⟨_, rfl⟩

theorem modRmUsageOf_ne (a : SuffixArgs) (u : ModRmUsage) (h : modRmUsageOf a = some u) :
    u ≠ .NO_MODRM_USAGE := by
  unfold modRmUsageOf at h
  cases hs : modRmSuffix a with
  | none => rw [hs] at h; simp at h
  | some c =>
    rw [hs] at h
    simp only [Option.map_some', Option.some.injEq] at h
    rw [← h]
    split <;> simp

theorem getLast?_modRmUsageOf_ne (l : List SuffixArgs) (u : ModRmUsage)
    (h : (l.filterMap modRmUsageOf).getLast? = some u) : u ≠ .NO_MODRM_USAGE := by
  have hmem := List.mem_of_getLast?_eq_some h
  obtain ⟨a, -, ha⟩ := List.mem_filterMap.mp hmem
  exact modRmUsageOf_ne a u ha

/-! ## The widths of the suffix tokens -/

theorem codeOffsetWidth_mem (a : SuffixArgs) (w : Nat) (h : codeOffsetWidth a = some w) :
    w ∈ [1, 2, 4, 6, 8, 10] := by
  unfold codeOffsetWidth at h
  split at h <;> simp at h <;> subst h <;> decide

/-! ## The groups of the VEX prefix pattern and the ModR/M suffix tokens -/

theorem run_opt_mem (a : Regex) (s : List Char) (m : Captures × List Char)
    (h : m ∈ (Regex.opt a).run s) : m ∈ a.run s ∨ m = ([], s) := by
  simpa [Regex.run] using h

/-- A match of ordered alternatives of literal texts takes one of the texts. -/
theorem run_alts_str_mem (T : List String) (s : List Char) (m : Captures × List Char)
    (h : m ∈ (Regex.alts (T.map Regex.str)).run s) :
    m.1 = [] ∧ ∃ t ∈ T, s = t.toList ++ m.2 := by
  induction T with
  | nil => simp [Regex.alts, Regex.run] at h; split at h <;> simp at h
  | cons a T ih =>
    cases T with
    | nil =>
      simp only [List.map, Regex.alts, Regex.str] at h
      obtain ⟨hc, hs⟩ := run_lit_mem _ _ _ h
      exact ⟨hc, a, by simp, hs⟩
    | cons b T =>
      simp only [List.map, Regex.alts] at h
      rcases run_alt_mem _ _ _ _ h with h | h
      · obtain ⟨hc, hs⟩ := run_lit_mem _ _ _ h
        exact ⟨hc, a, by simp, hs⟩
      · obtain ⟨hc, t, ht, hs⟩ := ih h
        exact ⟨hc, t, List.mem_cons_of_mem _ ht, hs⟩

/-- The group of ordered alternatives of literal texts captures one of the texts. -/
theorem run_group_alts_str_mem (i : Nat) (T : List String) (s : List Char)
    (m : Captures × List Char)
    (h : m ∈ (Regex.group i (Regex.alts (T.map Regex.str))).run s) :
    ∃ t ∈ T, m.1 = [(i, t.toList)] := by
  obtain ⟨m0, h0, rfl⟩ := run_group_mem _ _ _ _ h
  obtain ⟨hc, t, ht, hs⟩ := run_alts_str_mem _ _ _ h0
  refine ⟨t, ht, ?_⟩
  simp only [hc]
  rw [hs, take_append_length_sub]

theorem vexDot_captures (s : List Char) (m : Captures × List Char) (h : m ∈ vexDot.run s) :
    m.1 = [] :=
  run_groupFree vexDot rfl s m h

/-- An optional field of the VEX prefix pattern captures nothing or one of its
tokens. -/
theorem run_vexField_mem (i : Nat) (T : List String) (s : List Char)
    (m : Captures × List Char)
    (h : m ∈ (Regex.opt (.seq vexDot (.group i (Regex.alts (T.map Regex.str))))).run s) :
    m.1 = [] ∨ ∃ t ∈ T, m.1 = [(i, t.toList)] := by
  rcases run_opt_mem _ _ _ h with h | h
  · obtain ⟨m1, h1, m2, h2, rfl⟩ := run_seq_mem _ _ _ _ h
    obtain ⟨t, ht, hc⟩ := run_group_alts_str_mem _ _ _ _ h2
    right
    exact ⟨t, ht, by simp [vexDot_captures _ _ h1, hc]⟩
  · left
    rw [h]

theorem vexFields_eq :
    vexFields =
      .seq (.opt (.seq vexDot (.group 2 (Regex.alts (["NDS", "NDD", "DDS"].map Regex.str)))))
      (.seq (.opt (.seq vexDot (.group 3 (Regex.alts
        (["LIG", "LZ", "L0", "L1", "LIG.128", "128", "256", "512"].map Regex.str)))))
      (.seq (.opt (.seq vexDot (.group 4 (Regex.alts (["66", "F2", "F3"].map Regex.str)))))
      (.seq vexDot
      (.seq (.group 5 (Regex.alts (["0F", "0F3A", "0F38"].map Regex.str)))
      (.seq (.opt (.seq vexDot (.group 6 (Regex.alts (["W0", "W1", "WIG"].map Regex.str)))))
        (.lit " ".toList)))))) := rfl

/-- The groups of a match of the VEX prefix pattern after the group `(E?VEX)`. -/
theorem vexFields_captures (s : List Char) (m : Captures × List Char)
    (h : m ∈ vexFields.run s) :
    ∃ c2 c3 c4 c5 c6 : Captures, m.1 = c2 ++ (c3 ++ (c4 ++ (c5 ++ c6))) ∧
      (c2 = [] ∨ ∃ t ∈ ["NDS", "NDD", "DDS"], c2 = [(2, t.toList)]) ∧
      (c3 = [] ∨ ∃ t ∈ ["LIG", "LZ", "L0", "L1", "LIG.128", "128", "256", "512"],
        c3 = [(3, t.toList)]) ∧
      (c4 = [] ∨ ∃ t ∈ ["66", "F2", "F3"], c4 = [(4, t.toList)]) ∧
      (∃ t ∈ ["0F", "0F3A", "0F38"], c5 = [(5, t.toList)]) ∧
      (c6 = [] ∨ ∃ t ∈ ["W0", "W1", "WIG"], c6 = [(6, t.toList)]) := by
  rw [vexFields_eq] at h
  obtain ⟨m2, h2, r2, hr2, rfl⟩ := run_seq_mem _ _ _ _ h
  obtain ⟨m3, h3, r3, hr3, rfl⟩ := run_seq_mem _ _ _ _ hr2
  obtain ⟨m4, h4, r4, hr4, rfl⟩ := run_seq_mem _ _ _ _ hr3
  obtain ⟨md, hd, r5, hr5, rfl⟩ := run_seq_mem _ _ _ _ hr4
  obtain ⟨m5, h5, r6, hr6, rfl⟩ := run_seq_mem _ _ _ _ hr5
  obtain ⟨m6, h6, ml, hl, rfl⟩ := run_seq_mem _ _ _ _ hr6
  refine ⟨m2.1, m3.1, m4.1, m5.1, m6.1, ?_, run_vexField_mem _ _ _ _ h2,
    run_vexField_mem _ _ _ _ h3, run_vexField_mem _ _ _ _ h4,
    run_group_alts_str_mem _ _ _ _ h5, run_vexField_mem _ _ _ _ h6⟩
  simp [vexDot_captures _ _ hd, (run_lit_mem _ _ _ hl).1]

theorem vexFamily_captures (s : List Char) (m : Captures × List Char)
    (h : m ∈ vexFamily.run s) : ∃ family : List Char, m.1 = [(1, family)] := by
  unfold vexFamily at h
  obtain ⟨m0, h0, rfl⟩ := run_group_mem _ _ _ _ h
  exact ⟨_, by rw [run_groupFree (Regex.seqs [.opt (.str "E"), .str "VEX"]) rfl _ _ h0]⟩

theorem capture_skip (j i : Nat) (hne : (i == j) = false) (T : List String) (c rest : Captures)
    (h : c = [] ∨ ∃ t ∈ T, c = [(j, t.toList)]) : capture (c ++ rest) i = capture rest i := by
  rcases h with rfl | ⟨t, -, rfl⟩
  · rfl
  · simp [capture, List.lookup, hne]

theorem capture_field (i : Nat) (T : List String) (c rest : Captures)
    (hrest : capture rest i = [])
    (h : c = [] ∨ ∃ t ∈ T, c = [(i, t.toList)]) :
    capture (c ++ rest) i ∈ ("" :: T).map String.toList := by
  rcases h with rfl | ⟨t, ht, rfl⟩
  · rw [List.nil_append, hrest]
    simp
  · have : capture ([(i, t.toList)] ++ rest) i = t.toList := by simp [capture, List.lookup]
    rw [this]
    exact List.mem_map_of_mem _ (List.mem_cons_of_mem _ ht)

theorem capture_nil (i : Nat) : capture [] i = [] := rfl

/-- The arguments that a match of the VEX prefix pattern hands over: each optional
token is empty or one of the tokens of its group, and the opcode map is one of 0x0F,
0x0F3A and 0x0F38. -/
theorem Consume_kVexPrefixRegexp_args (s : List Char) (args : VexPrefixArgs)
    (rest : List Char) (h : Consume kVexPrefixRegexp vexPrefixArgs s = some (args, rest)) :
    args.vex_operand_directionality ∈ ["", "NDS", "NDD", "DDS"].map String.toList ∧
    args.vex_l_usage_str ∈
      ["", "LIG", "LZ", "L0", "L1", "LIG.128", "128", "256", "512"].map String.toList ∧
    args.mandatory_prefix_str ∈ ["", "66", "F2", "F3"].map String.toList ∧
    args.opcode_map ∈ [0x0f, 0x0f3a, 0x0f38] ∧
    args.vex_w_str ∈ ["", "W0", "W1", "WIG"].map String.toList := by
  unfold Consume at h
  split at h
  · simp at h
  · rename_i m hm
    have hmem := List.mem_of_mem_head? hm
    rw [kVexPrefixRegexp_eq] at hmem
    obtain ⟨m1, h1, m2, h2, rfl⟩ := run_seq_mem _ _ _ _ hmem
    obtain ⟨family, hf⟩ := vexFamily_captures _ _ h1
    obtain ⟨c2, c3, c4, c5, c6, hc, k2, k3, k4, k5, k6⟩ := vexFields_captures _ _ h2
    simp only [hf, hc, List.singleton_append, vexPrefixArgs_family] at h
    have k5' : c5 = [] ∨ ∃ t ∈ ["0F", "0F3A", "0F38"], c5 = [(5, t.toList)] := Or.inr k5
    have e2 : capture (c2 ++ (c3 ++ (c4 ++ (c5 ++ c6)))) 2 ∈
        ["", "NDS", "NDD", "DDS"].map String.toList := by
      apply capture_field 2 _ _ _ _ k2
      rw [capture_skip 3 2 rfl _ _ _ k3, capture_skip 4 2 rfl _ _ _ k4,
        capture_skip 5 2 rfl _ _ _ k5', ← List.append_nil c6,
        capture_skip 6 2 rfl _ _ _ k6]
      rfl
    have e3 : capture (c2 ++ (c3 ++ (c4 ++ (c5 ++ c6)))) 3 ∈
        ["", "LIG", "LZ", "L0", "L1", "LIG.128", "128", "256", "512"].map String.toList := by
      rw [capture_skip 2 3 rfl _ _ _ k2]
      apply capture_field 3 _ _ _ _ k3
      rw [capture_skip 4 3 rfl _ _ _ k4,
        capture_skip 5 3 rfl _ _ _ k5', ← List.append_nil c6,
        capture_skip 6 3 rfl _ _ _ k6]
      rfl
    have e4 : capture (c2 ++ (c3 ++ (c4 ++ (c5 ++ c6)))) 4 ∈
        ["", "66", "F2", "F3"].map String.toList := by
      rw [capture_skip 2 4 rfl _ _ _ k2, capture_skip 3 4 rfl _ _ _ k3]
      apply capture_field 4 _ _ _ _ k4
      rw [capture_skip 5 4 rfl _ _ _ k5', ← List.append_nil c6,
        capture_skip 6 4 rfl _ _ _ k6]
      rfl
    have e6 : capture (c2 ++ (c3 ++ (c4 ++ (c5 ++ c6)))) 6 ∈
        ["", "W0", "W1", "WIG"].map String.toList := by
      rw [capture_skip 2 6 rfl _ _ _ k2, capture_skip 3 6 rfl _ _ _ k3,
        capture_skip 4 6 rfl _ _ _ k4, capture_skip 5 6 rfl _ _ _ k5', ← List.append_nil c6]
      exact capture_field 6 _ _ _ rfl k6
    have e5 : ∃ t ∈ ["0F", "0F3A", "0F38"],
        capture (c2 ++ (c3 ++ (c4 ++ (c5 ++ c6)))) 5 = t.toList := by
      rw [capture_skip 2 5 rfl _ _ _ k2, capture_skip 3 5 rfl _ _ _ k3,
        capture_skip 4 5 rfl _ _ _ k4]
      obtain ⟨t, ht, rfl⟩ := k5
      exact ⟨t, ht, by simp [capture, List.lookup]⟩
    obtain ⟨t5, ht5, e5⟩ := e5
    rw [e5] at h
    have hmap : parseHex 32 t5.toList = some 0x0f ∨ parseHex 32 t5.toList = some 0x0f3a ∨
        parseHex 32 t5.toList = some 0x0f38 := by
      simp only [List.mem_cons, List.mem_singleton, List.not_mem_nil, or_false] at ht5
      rcases ht5 with rfl | rfl | rfl
      · exact Or.inl (by decide)
      · exact Or.inr (Or.inl (by decide))
      · exact Or.inr (Or.inr (by decide))
    rcases hmap with hm5 | hm5 | hm5 <;>
    · rw [hm5] at h
      simp only [Option.some.injEq, Prod.mk.injEq] at h
      obtain ⟨rfl, -⟩ := h
      exact ⟨e2, e3, e4, by simp, e6⟩

theorem suffixTokens_shape (s : List Char) : ∀ a ∈ suffixTokens s, suffixShape a :=
  consumed_all modrm_and_imm_parser_re suffixArgs suffixShape Consume_suffix_shape _ s

theorem modRmSuffix_mem (a : SuffixArgs) (c : Char) (ha : suffixShape a)
    (h : modRmSuffix a = some c) : "r0123456789".toList.contains c = true := by
  unfold modRmSuffix at h
  rcases ha with rfl | ⟨d, -, rfl⟩ | ⟨d, hd, rfl⟩ | rfl | rfl | ⟨d, -, rfl⟩ <;>
    simp only [List.head?_nil, List.head?_cons, Option.some.injEq] at h
  all_goals first
    | exact absurd h (by simp)
    | (subst h; exact hd)

theorem digit_range (c : Char) (h : "r0123456789".toList.contains c = true) (hr : c ≠ 'r') :
    "0123456789".toList.contains c = true ∧
    0 ≤ (c.toNat : Int) - ('0'.toNat : Int) ∧ (c.toNat : Int) - ('0'.toNat : Int) ≤ 9 := by
  have hc : c = 'r' ∨ c = '0' ∨ c = '1' ∨ c = '2' ∨ c = '3' ∨ c = '4' ∨ c = '5' ∨ c = '6' ∨
      c = '7' ∨ c = '8' ∨ c = '9' := by
    simpa using h
  rcases hc with rfl | rfl | rfl | rfl | rfl | rfl | rfl | rfl | rfl | rfl | rfl
  · exact absurd rfl hr
  all_goals decide

theorem filterMap_modRmUsageOf (l : List SuffixArgs) :
    l.filterMap modRmUsageOf =
      (l.filterMap modRmSuffix).map fun c =>
        if c = 'r' then ModRmUsage.FULL_MODRM else .OPCODE_EXTENSION_IN_MODRM := by
  rw [List.map_filterMap]
  rfl

theorem filterMap_modRmExtensionOf (l : List SuffixArgs) :
    l.filterMap modRmExtensionOf =
      (l.filterMap modRmSuffix).filterMap fun c =>
        if c = 'r' then none else some ((c.toNat : Int) - ('0'.toNat : Int)) := by
  rw [List.filterMap_filterMap]
  rfl

/-! ## Leading spaces before a VEX prefix -/

theorem dropSpaces_replicate (n : Nat) (t : List Char) :
    dropSpaces (List.replicate n ' ' ++ t) = dropSpaces t := by
  induction n with
  | zero => rfl
  | succ n ih => simp [List.replicate_succ, dropSpaces, ih]

theorem starts_with_split (s : List Char) (text : String) (h : starts_with s text = true) :
    ∃ u, s = text.toList ++ u := by
  unfold starts_with at h
  obtain ⟨u, hu⟩ := List.isPrefixOf_iff_prefix.mp h
  exact ⟨u, hu.symm⟩

/-- A text with leading spaces before `VEX.` or `EVEX` is not a VEX specification
for `ParseFromString`: it goes to the legacy prefix parser, which finds no prefix,
and no opcode byte follows. -/
theorem ParseFromString_spaces_vex (n : Nat) (t : List Char) (hn : 0 < n)
    (ht : starts_with t "VEX." = true ∨ starts_with t "EVEX" = true) :
    ParsePrefix {} (List.replicate n ' ' ++ t) =
      .ok ({ legacy_prefixes := some {} }, List.replicate n ' ' ++ t) ∧
    ParseFromString (List.replicate n ' ' ++ t) = .error noOpcodeByte := by
  obtain ⟨k, rfl⟩ : ∃ k, n = k + 1 := ⟨n - 1, by omega⟩
  have h1 : starts_with (List.replicate (k + 1) ' ' ++ t) "VEX." = false := by
    simp [List.replicate_succ, starts_with, List.isPrefixOf]
  have h2 : starts_with (List.replicate (k + 1) ' ' ++ t) "EVEX" = false := by
    simp [List.replicate_succ, starts_with, List.isPrefixOf]
  have hd : dropSpaces (List.replicate (k + 1) ' ' ++ t) = t := by
    rw [dropSpaces_replicate]
    rcases ht with ht | ht <;> obtain ⟨u, rfl⟩ := starts_with_split _ _ ht <;> rfl
  have hl : beginsWithLegacyPrefixToken t = false := by
    rcases ht with ht | ht <;> obtain ⟨u, rfl⟩ := starts_with_split _ _ ht <;>
      simp [beginsWithLegacyPrefixToken, legacyPrefixTokens, starts_with, List.isPrefixOf]
  have ho : beginsWithOpcodeByte t = false := by
    rcases ht with ht | ht <;> obtain ⟨u, rfl⟩ := starts_with_split _ _ ht <;> rfl
  have hp : ParsePrefix {} (List.replicate (k + 1) ' ' ++ t) =
      .ok ({ legacy_prefixes := some {} }, List.replicate (k + 1) ' ' ++ t) := by
    rw [ParsePrefix_legacy _ _ h1 h2, ParseLegacyPrefixes_none _ _ (by rw [hd]; exact hl)]
  refine ⟨hp, ?_⟩
  rw [ParseFromString_eq _ _ _ hp]
  exact ParseOpcodeAndSuffixes_none _ _ (by rw [hd]; exact ho)

/-! ## The vector size tokens of the VEX prefix pattern -/

theorem run_seq_assoc (a b c : Regex) (s : List Char) :
    (Regex.seq (.seq a b) c).run s = (Regex.seq a (.seq b c)).run s := by
  simp only [run_seq, List.flatMap_assoc, List.flatMap_map, List.map_flatMap, List.map_map]
  congr 1
  funext m1
  congr 1
  funext m2
  simp [Function.comp, List.append_assoc]

theorem run_opt_seq (a b : Regex) (s : List Char) :
    (Regex.seq (.opt a) b).run s = (Regex.seq a b).run s ++ b.run s := by
  simp [Regex.run, List.flatMap_append]

theorem run_lit_seq (l : List Char) (b : Regex) (t : List Char) :
    (Regex.seq (.lit l) b).run (l ++ t) = b.run t := by
  simp [Regex.run]

/-- Leading spaces before a text that does not begin with a space are taken whole by
`" *"` when the rest of the pattern has no match at a space. -/
theorem run_spaces_seq (b : Regex) (hsp : ∀ t, b.run (' ' :: t) = []) (a : Nat)
    (u : List Char) (hu : u.head? ≠ some ' ') :
    (Regex.seq (.star ' ') b).run (List.replicate a ' ' ++ u) = b.run u := by
  induction a with
  | zero =>
    cases u with
    | nil => exact run_star_seq_nil _ _
    | cons d t =>
      exact run_star_seq_ne _ _ _ _ (by
        intro hd
        apply hu
        rw [hd]
        rfl)
  | succ a ih =>
    rw [List.replicate_succ, List.cons_append, run_star_seq_eq, ih, hsp, List.append_nil]

/-- The pattern `" *\\. *"` before a pattern that has no match at a space takes a
separator whole. -/
theorem run_vexDot_seq (b : Regex) (hsp : ∀ t, b.run (' ' :: t) = []) (x y : Nat)
    (w : List Char) (hw : w.head? ≠ some ' ') :
    (Regex.seq vexDot b).run (vexSeparator x y ++ w) = b.run w := by
  have h0 : vexDot = .seq (.star ' ') (.seq (.lit ['.']) (.star ' ')) := rfl
  rw [h0, run_seq_assoc]
  unfold vexSeparator
  rw [List.append_assoc, run_spaces_seq _ _ x _ (by simp)]
  · rw [List.cons_append, run_seq_assoc]
    have h1 := run_lit_seq ['.'] (.seq (.star ' ') b) (List.replicate y ' ' ++ w)
    simp only [List.singleton_append] at h1
    rw [h1, run_spaces_seq _ hsp y w hw]
  · intro t
    rw [run_seq_assoc]
    exact run_seq_nil _ _ _ (run_lit_false _ _ rfl)

theorem vexFields_split :
    vexFields =
      .seq (.opt (.seq vexDot vexDirectionalityGroup))
        (.seq (.opt (.seq vexDot vexSizeGroup)) vexAfterSize) := rfl

theorem vexGroups_space (t : List Char) :
    vexDirectionalityGroup.run (' ' :: t) = [] ∧ vexSizeGroup.run (' ' :: t) = [] ∧
    vexMandatoryGroup.run (' ' :: t) = [] ∧ vexMapGroup.run (' ' :: t) = [] := by
  simp [vexDirectionalityGroup, vexSizeGroup, vexMandatoryGroup, vexMapGroup, Regex.run,
    Regex.alts, Regex.str, List.isPrefixOf]

/-- The groups of the directionality, the mandatory prefix and the opcode map have
no match at a text that begins with `L` or `1`, and those of the vector size, the
mandatory prefix and the opcode map none at one that begins with `N` or `D`. -/
theorem vexGroups_other (c : Char) (t : List Char) :
    ((c = 'L' ∨ c = '1') →
      vexDirectionalityGroup.run (c :: t) = [] ∧ vexMandatoryGroup.run (c :: t) = [] ∧
      vexMapGroup.run (c :: t) = []) ∧
    ((c = 'N' ∨ c = 'D') →
      vexSizeGroup.run (c :: t) = [] ∧ vexMandatoryGroup.run (c :: t) = [] ∧
      vexMapGroup.run (c :: t) = []) := by
  constructor
  · rintro (rfl | rfl) <;>
      simp [vexDirectionalityGroup, vexMandatoryGroup, vexMapGroup, Regex.run,
        Regex.alts, Regex.str, List.isPrefixOf]
  · rintro (rfl | rfl) <;>
      simp [vexSizeGroup, vexMandatoryGroup, vexMapGroup, Regex.run,
        Regex.alts, Regex.str, List.isPrefixOf]

/-- The part of the pattern after the vector size has no match at a separator
followed by a text at which neither the mandatory prefix nor the opcode map
matches. -/
theorem vexAfterSize_nil (x y : Nat) (w : List Char) (hw : w.head? ≠ some ' ')
    (h4 : vexMandatoryGroup.run w = []) (h5 : vexMapGroup.run w = []) :
    vexAfterSize.run (vexSeparator x y ++ w) = [] := by
  unfold vexAfterSize
  rw [run_opt_seq, run_seq_assoc,
    run_vexDot_seq _ (fun t => run_seq_nil _ _ _ (vexGroups_space t).2.2.1) x y w hw,
    run_vexDot_seq _ (fun t => run_seq_nil _ _ _ (vexGroups_space t).2.2.2) x y w hw,
    run_seq_nil _ _ _ h4, run_seq_nil _ _ _ h5]
  rfl

theorem vexSizeGroup_LIG_128 (t : List Char) :
    vexSizeGroup.run ("LIG.128".toList ++ t) =
      [([(3, "LIG".toList)], ".128".toList ++ t), ([(3, "LIG.128".toList)], t)] := by
  have h1 : t.length + 1 + 1 + 1 + 1 + 1 + 1 + 1 - (t.length + 1 + 1 + 1 + 1) = 3 := by omega
  have h2 : t.length + 1 + 1 + 1 + 1 + 1 + 1 + 1 - t.length = 7 := by omega
  simp [vexSizeGroup, Regex.run, Regex.alts, Regex.str, List.isPrefixOf, h1, h2]

theorem vexSizeGroup_128 (t : List Char) :
    vexSizeGroup.run ("128".toList ++ t) = [([(3, "128".toList)], t)] := by
  have h1 : t.length + 1 + 1 + 1 - t.length = 3 := by omega
  simp [vexSizeGroup, Regex.run, Regex.alts, Regex.str, List.isPrefixOf, h1]

theorem vexSizeGroup_L0 (t : List Char) :
    vexSizeGroup.run ("L0".toList ++ t) = [([(3, "L0".toList)], t)] := by
  have h1 : t.length + 1 + 1 - t.length = 2 := by omega
  simp [vexSizeGroup, Regex.run, Regex.alts, Regex.str, List.isPrefixOf, h1]

theorem vexSizeGroup_LZ (t : List Char) :
    vexSizeGroup.run ("LZ".toList ++ t) = [([(3, "LZ".toList)], t)] := by
  have h1 : t.length + 1 + 1 - t.length = 2 := by omega
  simp [vexSizeGroup, Regex.run, Regex.alts, Regex.str, List.isPrefixOf, h1]

/-- The vector size group followed by the rest of the pattern, at one of the tokens
`LIG.128`, `128`, `L0` and `LZ`: the group takes the whole token. For `LIG.128` the
first alternative `LIG` matches too, and the rest of the pattern has no match at
the `.128` it leaves. -/
theorem vexSize_then (X : String) (hX : X ∈ sizeTokenPairs) (t : List Char) :
    (Regex.seq vexSizeGroup vexAfterSize).run (X.toList ++ t) =
      (vexAfterSize.run t).map fun m => ((3, X.toList) :: m.1, m.2) := by
  simp only [sizeTokenPairs, List.mem_cons, List.mem_singleton, List.not_mem_nil,
    or_false] at hX
  rcases hX with rfl | rfl | rfl | rfl
  · have hdead : vexAfterSize.run ('.' :: '1' :: '2' :: '8' :: t) = [] :=
      vexAfterSize_nil 0 0 ("128".toList ++ t) (by simp)
        ((vexGroups_other '1' _).1 (Or.inr rfl)).2.1 ((vexGroups_other '1' _).1 (Or.inr rfl)).2.2
    rw [run_seq, vexSizeGroup_LIG_128]
    simp [hdead]
  · rw [run_seq, vexSizeGroup_128]
    simp
  · rw [run_seq, vexSizeGroup_L0]
    simp
  · rw [run_seq, vexSizeGroup_LZ]
    simp

theorem sizeToken_head (X : String) (hX : X ∈ sizeTokenPairs) (t : List Char) :
    ∃ c u, X.toList ++ t = c :: u ∧ (c = 'L' ∨ c = '1') := by
  simp only [sizeTokenPairs, List.mem_cons, List.mem_singleton, List.not_mem_nil,
    or_false] at hX
  rcases hX with rfl | rfl | rfl | rfl
  · exact ⟨'L', _, rfl, Or.inl rfl⟩
  · exact ⟨'1', _, rfl, Or.inr rfl⟩
  · exact ⟨'L', _, rfl, Or.inl rfl⟩
  · exact ⟨'L', _, rfl, Or.inl rfl⟩

/-- The pattern from the vector size field on, at a separator and one of the tokens
`LIG.128`, `128`, `L0` and `LZ`: the token is the vector size, and the rest of the
pattern runs on the text after it. -/
theorem vexFromSize_run (X : String) (hX : X ∈ sizeTokenPairs) (x y : Nat) (t : List Char) :
    (Regex.seq (.opt (.seq vexDot vexSizeGroup)) vexAfterSize).run
        (vexSeparator x y ++ (X.toList ++ t)) =
      (vexAfterSize.run t).map fun m => ((3, X.toList) :: m.1, m.2) := by
  obtain ⟨c, u, hcu, hc⟩ := sizeToken_head X hX t
  have hw : (X.toList ++ t).head? ≠ some ' ' := by
    rw [hcu]
    rcases hc with rfl | rfl <;> simp
  have hg := (vexGroups_other c u).1 hc
  rw [← hcu] at hg
  rw [run_opt_seq, run_seq_assoc,
    run_vexDot_seq _ (fun s => run_seq_nil _ _ _ (vexGroups_space s).2.1) x y _ hw,
    vexSize_then X hX t, vexAfterSize_nil x y _ hw hg.2.1 hg.2.2, List.append_nil]

theorem vexDirectionalityGroup_token (token : String) (h : token ∈ ["NDS", "NDD", "DDS"])
    (t : List Char) :
    vexDirectionalityGroup.run (token.toList ++ t) = [([(2, token.toList)], t)] ∧
    ∃ c u, token.toList ++ t = c :: u ∧ (c = 'N' ∨ c = 'D') := by
  have h1 : t.length + 1 + 1 + 1 - t.length = 3 := by omega
  simp only [List.mem_cons, List.mem_singleton, List.not_mem_nil, or_false] at h
  rcases h with rfl | rfl | rfl
  · exact ⟨by simp [vexDirectionalityGroup, Regex.run, Regex.alts, Regex.str,
      List.isPrefixOf, h1], 'N', _, rfl, Or.inl rfl⟩
  · exact ⟨by simp [vexDirectionalityGroup, Regex.run, Regex.alts, Regex.str,
      List.isPrefixOf, h1], 'N', _, rfl, Or.inl rfl⟩
  · exact ⟨by simp [vexDirectionalityGroup, Regex.run, Regex.alts, Regex.str,
      List.isPrefixOf, h1], 'D', _, rfl, Or.inr rfl⟩

/-- The matches of the fields of the VEX prefix pattern on a text with one of the
vector size tokens `LIG.128`, `128`, `L0` and `LZ`: the matches of the pattern
after the vector size on the text after the token, with the directionality and the
token as groups 2 and 3. -/
theorem vexFields_run (dir : Option (Nat × Nat × String)) (hdir : directionalityOk dir)
    (X : String) (hX : X ∈ sizeTokenPairs) (x y : Nat) (t : List Char) :
    vexFields.run (directionalityText dir ++ (vexSeparator x y ++ (X.toList ++ t))) =
      (vexAfterSize.run t).map fun m =>
        (directionalityCaptures dir ++ (3, X.toList) :: m.1, m.2) := by
  rw [vexFields_split, run_opt_seq, run_seq_assoc]
  match dir, hdir with
  | none, _ =>
    obtain ⟨c, u, hcu, hc⟩ := sizeToken_head X hX t
    have hw : (X.toList ++ t).head? ≠ some ' ' := by
      rw [hcu]
      rcases hc with rfl | rfl <;> simp
    have hg := (vexGroups_other c u).1 hc
    rw [← hcu] at hg
    simp only [directionalityText, directionalityCaptures, List.nil_append]
    rw [run_vexDot_seq _ (fun s => run_seq_nil _ _ _ (vexGroups_space s).1) x y _ hw,
      run_seq_nil _ _ _ hg.1, List.nil_append, vexFromSize_run X hX x y t]
  | some (c, d, token), htoken =>
    obtain ⟨hrun, k, u, hku, hk⟩ :=
      vexDirectionalityGroup_token token htoken (vexSeparator x y ++ (X.toList ++ t))
    have hw : (token.toList ++ (vexSeparator x y ++ (X.toList ++ t))).head? ≠ some ' ' := by
      rw [hku]
      rcases hk with rfl | rfl <;> simp
    have hg := (vexGroups_other k u).2 hk
    rw [← hku] at hg
    simp only [directionalityText, directionalityCaptures, List.append_assoc]
    rw [run_vexDot_seq _ (fun s => run_seq_nil _ _ _ (vexGroups_space s).1) c d _ hw,
      run_seq, hrun]
    rw [run_opt_seq, run_seq_assoc,
      run_vexDot_seq _ (fun s => run_seq_nil _ _ _ (vexGroups_space s).2.1) c d _ hw,
      run_seq_nil _ _ _ hg.1, vexAfterSize_nil c d _ hw hg.2.1 hg.2.2]
    simp only [List.flatMap_cons, List.flatMap_nil, List.append_nil]
    rw [vexFromSize_run X hX x y t]
    simp [List.map_map, Function.comp]

theorem capture_size (dir : Option (Nat × Nat × String)) (X : List Char) (c : Captures) :
    capture (directionalityCaptures dir ++ (3, X) :: c) 2 =
      capture (directionalityCaptures dir ++ c) 2 ∧
    capture (directionalityCaptures dir ++ (3, X) :: c) 3 = X ∧
    capture (directionalityCaptures dir ++ (3, X) :: c) 4 =
      capture (directionalityCaptures dir ++ c) 4 ∧
    capture (directionalityCaptures dir ++ (3, X) :: c) 5 =
      capture (directionalityCaptures dir ++ c) 5 ∧
    capture (directionalityCaptures dir ++ (3, X) :: c) 6 =
      capture (directionalityCaptures dir ++ c) 6 := by
  match dir with
  | none => simp [directionalityCaptures, capture, List.lookup]
  | some (_, _, token) => simp [directionalityCaptures, capture, List.lookup]

theorem vexPrefixArgs_size (family : List Char) (dir : Option (Nat × Nat × String))
    (X : List Char) (c : Captures) :
    vexPrefixArgs ((1, family) :: (directionalityCaptures dir ++ (3, X) :: c)) =
      (vexPrefixArgs ((1, family) :: (directionalityCaptures dir ++ c))).map fun args =>
        { args with vex_l_usage_str := X } := by
  obtain ⟨h2, h3, h4, h5, h6⟩ := capture_size dir X c
  rw [vexPrefixArgs_family, vexPrefixArgs_family, h2, h3, h4, h5, h6]
  cases parseHex 32 (capture (directionalityCaptures dir ++ c) 5) <;> rfl

theorem vexFamily_run (family : String) (h : family ∈ ["VEX", "EVEX"]) (u : List Char) :
    vexFamily.run (family.toList ++ u) = [([(1, family.toList)], u)] := by
  simp only [List.mem_cons, List.mem_singleton, List.not_mem_nil, or_false] at h
  rcases h with rfl | rfl
  · exact vexFamily_VEX u
  · exact vexFamily_EVEX u

/-- The match of the VEX prefix pattern on a text with one of the vector size tokens
`LIG.128`, `128`, `L0` and `LZ`: the arguments are those of `vexSizeBase` with the
token as the vector size argument. -/
theorem Consume_vexSizeText (family : String) (hf : family ∈ ["VEX", "EVEX"])
    (dir : Option (Nat × Nat × String)) (hdir : directionalityOk dir)
    (X : String) (hX : X ∈ sizeTokenPairs) (x y : Nat) (t : List Char) :
    Consume kVexPrefixRegexp vexPrefixArgs (vexSizeText family dir x y X t) =
      (vexSizeBase family dir t).map fun p =>
        ({ p.1 with vex_l_usage_str := X.toList }, p.2) := by
  unfold Consume vexSizeText vexSizeBase
  rw [kVexPrefixRegexp_eq, run_seq, vexFamily_run family hf]
  simp only [List.flatMap_cons, List.flatMap_nil, List.append_nil]
  rw [vexFields_run dir hdir X hX]
  simp only [List.map_map, List.head?_map]
  cases (vexAfterSize.run t).head? with
  | none => rfl
  | some m =>
    simp only [Option.map_some', Function.comp, List.singleton_append]
    rw [vexPrefixArgs_size]
    cases vexPrefixArgs ((1, family.toList) :: (directionalityCaptures dir ++ m.1)) <;> rfl

/-- Two of the vector size tokens with the same entry in `kVectorSizeTokens` give
the same result of `ParseVexOrEvexPrefix`, when it succeeds. -/
theorem ParseVexOrEvexPrefix_sizeText (family : String) (hf : family ∈ ["VEX", "EVEX"])
    (dir : Option (Nat × Nat × String)) (hdir : directionalityOk dir)
    (X Y : String) (hX : X ∈ sizeTokenPairs) (hY : Y ∈ sizeTokenPairs)
    (hXY : FindOrDie kVectorSizeTokens X.toList = FindOrDie kVectorSizeTokens Y.toList)
    (x y : Nat) (t : List Char) (spec0 spec1 : EncodingSpecification) (rest : List Char)
    (h : ParseVexOrEvexPrefix spec0 (vexSizeText family dir x y X t) = .ok (spec1, rest)) :
    ParseVexOrEvexPrefix spec0 (vexSizeText family dir x y Y t) = .ok (spec1, rest) := by
  unfold ParseVexOrEvexPrefix at h ⊢
  rw [Consume_vexSizeText family hf dir hdir X hX] at h
  rw [Consume_vexSizeText family hf dir hdir Y hY]
  cases hb : vexSizeBase family dir t with
  | none => simp [hb] at h
  | some p =>
    obtain ⟨args, rest0⟩ := p
    simp only [hb, Option.map_some'] at h ⊢
    rw [← hXY]
    exact h

theorem ParseFromString_VEX_space (u : List Char) :
    ParseFromString ('V' :: 'E' :: 'X' :: ' ' :: u) = .error noOpcodeByte := by
  have hp : ParsePrefix {} ('V' :: 'E' :: 'X' :: ' ' :: u) =
      .ok ({ legacy_prefixes := some {} }, 'V' :: 'E' :: 'X' :: ' ' :: u) := by
    rw [ParsePrefix_legacy _ _ (by simp [starts_with, List.isPrefixOf])
      (by simp [starts_with, List.isPrefixOf]),
      ParseLegacyPrefixes_none _ _ (by
        simp [dropSpaces, beginsWithLegacyPrefixToken, legacyPrefixTokens, starts_with,
          List.isPrefixOf])]
  rw [ParseFromString_eq _ _ _ hp]
  exact ParseOpcodeAndSuffixes_none _ _ (by simp [dropSpaces, beginsWithOpcodeByte]; decide)

theorem vexSeparator_head (x y : Nat) (w : List Char) :
    (x = 0 ∧ ∃ u, vexSeparator x y ++ w = '.' :: u) ∨
    (x ≠ 0 ∧ ∃ u, vexSeparator x y ++ w = ' ' :: u) := by
  cases x with
  | zero => exact Or.inl ⟨rfl, List.replicate y ' ' ++ w, by simp [vexSeparator]⟩
  | succ x =>
    exact Or.inr ⟨by omega, List.replicate x ' ' ++ '.' :: (List.replicate y ' ' ++ w),
      by simp [vexSeparator, List.replicate_succ]⟩

theorem afterFamily_head (dir : Option (Nat × Nat × String)) (x y : Nat) (w : List Char) :
    (spacesAfterFamily dir x = 0 ∧
      ∃ u, directionalityText dir ++ (vexSeparator x y ++ w) = '.' :: u) ∨
    (spacesAfterFamily dir x ≠ 0 ∧
      ∃ u, directionalityText dir ++ (vexSeparator x y ++ w) = ' ' :: u) := by
  match dir with
  | none => exact vexSeparator_head x y w
  | some (c, d, token) =>
    simp only [directionalityText, spacesAfterFamily, List.append_assoc]
    exact vexSeparator_head c d _

/-- Whatever the vector size token, a text of `vexSizeText` goes to the VEX prefix
parser, or it has a space after `VEX` and the parse fails without an opcode
byte. -/
theorem vexSizeText_dispatch (family : String) (hf : family ∈ ["VEX", "EVEX"])
    (dir : Option (Nat × Nat × String)) (x y : Nat) (t : List Char) :
    (∀ X : String, starts_with (vexSizeText family dir x y X t) "VEX." = true ∨
      starts_with (vexSizeText family dir x y X t) "EVEX" = true) ∨
    (∀ X : String, ParseFromString (vexSizeText family dir x y X t) = .error noOpcodeByte) := by
  simp only [List.mem_cons, List.mem_singleton, List.not_mem_nil, or_false] at hf
  rcases hf with rfl | rfl
  · by_cases h0 : spacesAfterFamily dir x = 0
    · left
      intro X
      left
      rcases afterFamily_head dir x y (X.toList ++ t) with ⟨-, u, hu⟩ | ⟨h1, -⟩
      · unfold vexSizeText
        rw [hu]
        simp [starts_with, List.isPrefixOf]
      · exact absurd h0 h1
    · right
      intro X
      rcases afterFamily_head dir x y (X.toList ++ t) with ⟨h1, -⟩ | ⟨-, u, hu⟩
      · exact absurd h1 h0
      · unfold vexSizeText
        rw [hu]
        exact ParseFromString_VEX_space u
  · left
    intro X
    right
    simp [vexSizeText, starts_with, List.isPrefixOf]

/-- Two of the vector size tokens with the same entry in `kVectorSizeTokens` give
the same descriptor, when the parse succeeds. -/
theorem ParseFromString_sizeText (family : String) (hf : family ∈ ["VEX", "EVEX"])
    (dir : Option (Nat × Nat × String)) (hdir : directionalityOk dir)
    (X Y : String) (hX : X ∈ sizeTokenPairs) (hY : Y ∈ sizeTokenPairs)
    (hXY : FindOrDie kVectorSizeTokens X.toList = FindOrDie kVectorSizeTokens Y.toList)
    (x y : Nat) (t : List Char) (spec : EncodingSpecification)
    (h : ParseFromString (vexSizeText family dir x y X t) = .ok spec) :
    ParseFromString (vexSizeText family dir x y Y t) = .ok spec := by
  rcases vexSizeText_dispatch family hf dir x y t with hd | hd
  · obtain ⟨spec1, rest, hp, hos⟩ := ParseFromString_ok _ _ h
    rw [ParsePrefix_vex _ _ (hd X)] at hp
    have hpY := ParseVexOrEvexPrefix_sizeText family hf dir hdir X Y hX hY hXY x y t _ _ _ hp
    rw [← ParsePrefix_vex _ _ (hd Y)] at hpY
    rw [ParseFromString_eq _ _ _ hpY]
    exact hos
  · rw [hd X] at h
    cases h

/-- A successful parse of a text with the vector size token `LIG.128` or `128` has
the vector size of 128 bits, and one with `L0` or `LZ` the vector size bit zero. -/
theorem ParseFromString_sizeText_size (family : String) (hf : family ∈ ["VEX", "EVEX"])
    (dir : Option (Nat × Nat × String)) (hdir : directionalityOk dir)
    (X : String) (hX : X ∈ sizeTokenPairs) (x y : Nat) (t : List Char)
    (spec : EncodingSpecification)
    (h : ParseFromString (vexSizeText family dir x y X t) = .ok spec) :
    ∃ vex : VexPrefixEncodingSpecification, spec.vex_prefix = some vex ∧
      FindOrDie kVectorSizeTokens X.toList = .ok vex.vector_size := by
  rcases vexSizeText_dispatch family hf dir x y t with hd | hd
  · obtain ⟨spec1, rest, hp, hos⟩ := ParseFromString_ok _ _ h
    rw [ParsePrefix_vex _ _ (hd X)] at hp
    obtain ⟨args, vs, vou, mp, w, ms, hc, hvs, -, -, -, -, -, hspec⟩ :=
      ParseVexOrEvexPrefix_ok _ _ _ _ hp
    rw [Consume_vexSizeText family hf dir hdir X hX] at hc
    have hargs : args.vex_l_usage_str = X.toList := by
      cases hb : vexSizeBase family dir t with
      | none => simp [hb] at hc
      | some p =>
        simp only [hb, Option.map_some', Option.some.injEq, Prod.mk.injEq] at hc
        rw [← hc.1]
    rw [hargs] at hvs
    have hcore := ParseOpcodeAndSuffixes_prefixCore _ _ _ hos
    have hv1 : spec1.vex_prefix = some
        { prefix_type :=
            if args.prefix_type_str = "EVEX".toList then .EVEX_PREFIX else .VEX_PREFIX
          vex_operand_usage := vou
          vector_size := vs
          mandatory_prefix := mp
          vex_w_usage := w
          map_select := ms } := by
      rw [hspec]
    cases hsv : spec.vex_prefix with
    | none =>
      have := prefixCore_vex_isSome _ _ hcore
      rw [hsv, hv1] at this
      simp at this
    | some vex =>
      obtain ⟨vb, hvb, -, hsize⟩ := prefixCore_vex _ _ hcore vex hsv
      rw [hv1] at hvb
      simp only [Option.some.injEq] at hvb
      refine ⟨vex, rfl, ?_⟩
      rw [hvs, hsize, ← hvb]
  · rw [hd X] at h
    cases h

/-! ## The failures of the parser -/

theorem notInvalidSize_of_head (msg : String) (h : msg.data.head? ≠ some 'I') :
    notInvalidSize (.invalidArgument msg) := by
  intro text
  constructor <;>
  · intro he
    simp only [invalidImmediateSize, invalidCodeOffsetSize, Failure.invalidArgument.injEq] at he
    apply h
    rw [he]
    rfl

theorem notInvalidSize_fatal (msg : String) : notInvalidSize (.fatal msg) := by
  intro text
  constructor <;> (intro he; cases he)

theorem notInvalidSize_outOfSteps : notInvalidSize .outOfSteps := by
  intro text
  constructor <;> (intro he; cases he)

/-- A failure of a loop is out of steps or a failure of its body on a match of the
pattern. -/
theorem whileConsume_error {σ α : Type} (re : Regex) (conv : Captures → Option α)
    (body : σ → α → Except Failure σ) (P : α → Prop)
    (hP : ∀ s a rest, Consume re conv s = some (a, rest) → P a) :
    ∀ (n : Nat) (st : σ) (s : List Char) (e : Failure),
      whileConsume re conv body n st s = .error e →
      e = .outOfSteps ∨ ∃ st1 a, P a ∧ body st1 a = .error e := by
  intro n
  induction n with
  | zero =>
    intro st s e h
    simp only [whileConsume, Except.error.injEq] at h
    exact Or.inl h.symm
  | succ n ih =>
    intro st s e h
    simp only [whileConsume] at h
    cases hc : Consume re conv s with
    | none => simp [hc] at h
    | some p =>
      obtain ⟨a, rest⟩ := p
      simp only [hc] at h
      cases hb : body st a with
      | error e1 =>
        simp only [hb, Except.error.injEq] at h
        subst h
        exact Or.inr ⟨st, a, hP s a rest hc, hb⟩
      | ok st1 =>
        simp only [hb] at h
        exact ih st1 rest e h

/-- On the arguments of a match of the suffix pattern the body of the suffix loop
fails only for `/is4` or `/vsib` without a VEX prefix. -/
theorem suffixBody_error (spec : EncodingSpecification) (a : SuffixArgs) (e : Failure)
    (ha : suffixShape a) (h : suffixBody spec a = .error e) :
    e = is4WithoutVex ∨ e = vsibWithoutVex := by
  rcases ha with rfl | ⟨c, hc, rfl⟩ | ⟨c, hc, rfl⟩ | rfl | rfl | ⟨c, hc, rfl⟩
  · have hx : suffixBody spec ⟨"/is4".toList, [], [], [], []⟩ =
        if has_vex_prefix spec = false then .error is4WithoutVex
        else .ok (updateVexPrefix spec fun vex => { vex with has_vex_operand_suffix := true }) :=
      rfl
    rw [hx] at h
    split at h
    · simp only [Except.error.injEq] at h
      exact Or.inl h.symm
    · cases h
  · have hc' : c = 'b' ∨ c = 'w' ∨ c = 'd' ∨ c = 'o' := by
      simpa using hc
    rcases hc' with rfl | rfl | rfl | rfl <;> cases h
  · simp only [suffixBody] at h
    split at h <;> cases h
  · have hx : suffixBody spec ⟨[], [], [], "/vsib".toList, []⟩ =
        if has_vex_prefix spec = false then .error vsibWithoutVex
        else .ok (updateVexPrefix spec fun vex => { vex with vsib_usage := .VSIB_USED }) :=
      rfl
    rw [hx] at h
    split at h
    · simp only [Except.error.injEq] at h
      exact Or.inr h.symm
    · cases h
  · cases h
  · have hc' : c = 'b' ∨ c = 'w' ∨ c = 'd' ∨ c = 'p' ∨ c = 'o' ∨ c = 't' := by
      simpa using hc
    rcases hc' with rfl | rfl | rfl | rfl | rfl | rfl <;> cases h

theorem ParseSuffixes_error (spec0 : EncodingSpecification) (s : List Char) (e : Failure)
    (h : ParseSuffixes spec0 s = .error e) :
    e = .outOfSteps ∨ e = is4WithoutVex ∨ e = vsibWithoutVex := by
  unfold ParseSuffixes at h
  rcases whileConsume_error modrm_and_imm_parser_re suffixArgs suffixBody suffixShape
    Consume_suffix_shape _ _ _ _ h with h1 | ⟨st1, a, ha, hb⟩
  · exact Or.inl h1
  · exact Or.inr (suffixBody_error st1 a e ha hb)

theorem ParseOpcodeBytes_error (spec0 : EncodingSpecification) (s : List Char) (e : Failure)
    (h : ParseOpcodeBytes spec0 s = .error e) : e = .outOfSteps := by
  unfold ParseOpcodeBytes at h
  rcases whileConsume_error opcode_byte_parser_re opcodeByteArgs opcodeByteBody (fun _ => True)
    (fun _ _ _ _ => trivial) _ _ _ _ h with h1 | ⟨st1, a, -, hb⟩
  · exact h1
  · unfold opcodeByteBody at hb
    split at hb <;> cases hb

theorem ParseLegacyPrefixes_error (spec0 : EncodingSpecification) (s : List Char) (e : Failure)
    (h : ParseLegacyPrefixes spec0 s = .error e) : e = .outOfSteps := by
  unfold ParseLegacyPrefixes at h
  split at h
  · rename_i e1 he
    simp only [Except.error.injEq] at h
    subst h
    rcases whileConsume_error kLegacyPrefixRegex legacyPrefixArgs legacyPrefixBody
      (fun _ => True) (fun _ _ _ _ => trivial) _ _ _ _ he with h1 | ⟨st1, a, -, hb⟩
    · exact h1
    · simp [legacyPrefixBody] at hb
  · cases h

theorem FindOrDie_error {κ β : Type} [BEq κ] (table : List (κ × β)) (key : κ) (e : Failure)
    (h : FindOrDie table key = .error e) : e = .fatal "Map key not found" := by
  unfold FindOrDie at h
  split at h
  · cases h
  · simp only [Except.error.injEq] at h
    exact h.symm

theorem ParseVexOrEvexPrefix_error (spec0 : EncodingSpecification) (s : List Char)
    (e : Failure) (h : ParseVexOrEvexPrefix spec0 s = .error e) : notInvalidSize e := by
  unfold ParseVexOrEvexPrefix at h
  cases hc : Consume kVexPrefixRegexp vexPrefixArgs s with
  | none =>
    simp only [hc, Except.error.injEq] at h
    rw [← h]
    apply notInvalidSize_of_head
    simp [String.data_append]
  | some p =>
    obtain ⟨args, rest⟩ := p
    simp only [hc] at h
    cases h1 : FindOrDie kVectorSizeTokens args.vex_l_usage_str with
    | error e1 =>
      simp only [h1, Except.error.injEq] at h
      rw [← h, FindOrDie_error _ _ _ h1]
      exact notInvalidSize_fatal _
    | ok vs =>
      simp only [h1] at h
      cases h2 : FindOrDie kVexOperandUsageTokens args.vex_operand_directionality with
      | error e1 =>
        simp only [h2, Except.error.injEq] at h
        rw [← h, FindOrDie_error _ _ _ h2]
        exact notInvalidSize_fatal _
      | ok vou =>
        simp only [h2] at h
        by_cases h512 : vs = .VECTOR_SIZE_512_BIT ∧
            (if args.prefix_type_str = "EVEX".toList then VexPrefixType.EVEX_PREFIX
              else VexPrefixType.VEX_PREFIX) ≠ .EVEX_PREFIX
        · rw [if_pos h512] at h
          simp only [Except.error.injEq] at h
          rw [← h]
          exact notInvalidSize_of_head _ (by decide)
        · rw [if_neg h512] at h
          cases h3 : FindOrDie kMandatoryPrefixTokens args.mandatory_prefix_str with
          | error e1 =>
            simp only [h3, Except.error.injEq] at h
            rw [← h, FindOrDie_error _ _ _ h3]
            exact notInvalidSize_fatal _
          | ok mp =>
            simp only [h3] at h
            cases h4 : FindOrDie kVexWUsageTokens args.vex_w_str with
            | error e1 =>
              simp only [h4, Except.error.injEq] at h
              rw [← h, FindOrDie_error _ _ _ h4]
              exact notInvalidSize_fatal _
            | ok w =>
              simp only [h4] at h
              cases h5 : FindOrDie kMapSelectTokens args.opcode_map with
              | error e1 =>
                simp only [h5, Except.error.injEq] at h
                rw [← h, FindOrDie_error _ _ _ h5]
                exact notInvalidSize_fatal _
              | ok ms => simp [h5] at h

theorem ParseOpcodeAndSuffixes_error (spec0 : EncodingSpecification) (s : List Char)
    (e : Failure) (h : ParseOpcodeAndSuffixes spec0 s = .error e) : notInvalidSize e := by
  unfold ParseOpcodeAndSuffixes at h
  cases hop : ParseOpcodeBytes spec0 s with
  | error e1 =>
    simp only [hop, Except.error.injEq] at h
    rw [← h, ParseOpcodeBytes_error _ _ _ hop]
    exact notInvalidSize_outOfSteps
  | ok p =>
    obtain ⟨st, rest⟩ := p
    simp only [hop] at h
    split at h
    · simp only [Except.error.injEq] at h
      rw [← h]
      exact notInvalidSize_of_head _ (by decide)
    · split at h
      · simp only [Except.error.injEq] at h
        rw [← h]
        exact notInvalidSize_of_head _ (by decide)
      · split at h
        · cases h
        · cases hsuf : ParseSuffixes { st.specification_ with opcode := st.opcode } rest with
          | error e1 =>
            simp only [hsuf, Except.error.injEq] at h
            rw [← h]
            rcases ParseSuffixes_error _ _ _ hsuf with rfl | rfl | rfl
            · exact notInvalidSize_outOfSteps
            · exact notInvalidSize_of_head _ (by decide)
            · exact notInvalidSize_of_head _ (by decide)
          | ok q =>
            obtain ⟨spec2, rest2⟩ := q
            simp only [hsuf] at h
            split at h
            · cases h
            · simp only [Except.error.injEq] at h
              rw [← h]
              apply notInvalidSize_of_head
              simp [notFullyParsed, String.data_append]

/-- No failure of `ParseFromString` is one of the two invalid size failures. -/
theorem ParseFromString_error (s : List Char) (e : Failure)
    (h : ParseFromString s = .error e) : notInvalidSize e := by
  unfold ParseFromString at h
  cases hp : ParsePrefix {} s with
  | error e1 =>
    simp only [hp, Except.error.injEq] at h
    subst h
    unfold ParsePrefix at hp
    split at hp
    · exact ParseVexOrEvexPrefix_error _ _ _ hp
    · rw [ParseLegacyPrefixes_error _ _ _ hp]
      exact notInvalidSize_outOfSteps
  | ok p =>
    obtain ⟨spec1, rest⟩ := p
    simp only [hp] at h
    exact ParseOpcodeAndSuffixes_error _ _ _ h

/-! ## Claims -/

/-- Claim C1: on every input on which `ParseEncodingSpecification` succeeds, exactly
one of the two prefix descriptions of the result is populated; the VEX prefix is
populated and the legacy prefixes are absent when the input starts with `VEX.` or
`EVEX`, and otherwise the legacy prefixes are populated and the VEX prefix is
absent, so that the VEX prefix is populated if and only if the input starts with
`VEX.` or `EVEX`. -/
theorem C1_one_prefix_populated (specification : String) (spec : EncodingSpecification)
    (h : ParseEncodingSpecification specification = .ok spec) :
    (Option.isSome spec.vex_prefix != Option.isSome spec.legacy_prefixes) = true ∧
    ((starts_with specification.toList "VEX." = true ∨
        starts_with specification.toList "EVEX" = true) →
      Option.isSome spec.vex_prefix = true ∧ spec.legacy_prefixes = none) ∧
    (¬ (starts_with specification.toList "VEX." = true ∨
        starts_with specification.toList "EVEX" = true) →
      Option.isSome spec.legacy_prefixes = true ∧ spec.vex_prefix = none) ∧
    (Option.isSome spec.vex_prefix = true ↔
      (starts_with specification.toList "VEX." = true ∨
        starts_with specification.toList "EVEX" = true)) := by
  unfold ParseEncodingSpecification ParseFromString at h
  split at h
  · simp at h
  rename_i spec1 rest hp
  unfold ParsePrefix at hp
  simp only [Bool.or_eq_true] at hp
  have h2 := ParseOpcodeAndSuffixes_prefixCore _ _ _ h
  have h3 := prefixCore_legacy _ _ h2
  have h4 := prefixCore_vex_isSome _ _ h2
  split at hp
  · rename_i hs
    have h1 := ParseVexOrEvexPrefix_prefixes _ _ _ _ hp
    rw [h1.1] at h4
    rw [h1.2] at h3
    have h5 : spec.legacy_prefixes = none := h3
    have hx : (Option.isSome spec.vex_prefix != Option.isSome spec.legacy_prefixes) = true := by
      rw [h4, h5]; rfl
    exact ⟨hx, fun _ => ⟨h4, h5⟩, fun hn => absurd hs hn, ⟨fun _ => hs, fun _ => h4⟩⟩
  · rename_i hs
    have h1 := ParseLegacyPrefixes_prefixes _ _ _ _ hp
    rw [h1.2] at h4
    have h5 : Option.isSome spec.vex_prefix = false := h4
    have h6 : Option.isSome spec.legacy_prefixes = true := by rw [h3]; exact h1.1
    have h7 : spec.vex_prefix = none := by
      cases hv : spec.vex_prefix with
      | none => rfl
      | some v => rw [hv] at h5; simp at h5
    have hx : (Option.isSome spec.vex_prefix != Option.isSome spec.legacy_prefixes) = true := by
      rw [h6, h7]; rfl
    exact ⟨hx, fun hp => absurd hp hs, fun _ => ⟨h6, h7⟩,
      ⟨fun hv => by rw [h7] at hv; simp at hv, fun hp => absurd hp hs⟩⟩

/-- Witness of C1 on the legacy specification `0F AE /r`. -/
theorem C1_one_prefix_populated_witness :
    (Option.isSome (none : Option VexPrefixEncodingSpecification) !=
        Option.isSome (some ({} : LegacyPrefixEncodingSpecification))) = true ∧
    ¬ (starts_with "0F AE /r".toList "VEX." = true ∨
        starts_with "0F AE /r".toList "EVEX" = true) :=
  ⟨(C1_one_prefix_populated "0F AE /r"
      { legacy_prefixes := some {}, opcode := 0x0FAE, modrm_usage := .FULL_MODRM } rfl).1,
    by decide⟩

/-- Claim C2: `VEX.NDS.128.66.0F38.W0 58` parses to a VEX prefix with operand usage
first source register, vector size 128, mandatory prefix operand size override,
map select 0F38 and W zero, opcode 0x0F3858, no ModR/M usage, no operand in the
opcode, no immediate value and no code offset; its available encodings are one
VEX.vvvv location and nothing else. -/
theorem C2_vex_nds_sample :
    ∃ spec : EncodingSpecification,
      ParseEncodingSpecification "VEX.NDS.128.66.0F38.W0 58" = .ok spec ∧
      spec.vex_prefix = some {
        prefix_type := .VEX_PREFIX
        vex_operand_usage := .VEX_OPERAND_IS_FIRST_SOURCE_REGISTER
        vector_size := .VECTOR_SIZE_128_BIT
        mandatory_prefix := .MANDATORY_PREFIX_OPERAND_SIZE_OVERRIDE
        vex_w_usage := .VEX_W_IS_ZERO
        map_select := .MAP_SELECT_0F38
        has_vex_operand_suffix := false
        vsib_usage := .VSIB_UNUSED } ∧
      spec.legacy_prefixes = none ∧
      spec.opcode = 0x0F3858 ∧
      spec.modrm_usage = .NO_MODRM_USAGE ∧
      spec.operand_in_opcode = .NO_OPERAND_IN_OPCODE ∧
      spec.immediate_value_bytes = [] ∧
      spec.code_offset_bytes = 0 ∧
      GetAvailableEncodings spec = .ok {Encoding.VEX_V_ENCODING} :=
  ⟨{ vex_prefix := some {
        prefix_type := .VEX_PREFIX
        vex_operand_usage := .VEX_OPERAND_IS_FIRST_SOURCE_REGISTER
        vector_size := .VECTOR_SIZE_128_BIT
        mandatory_prefix := .MANDATORY_PREFIX_OPERAND_SIZE_OVERRIDE
        vex_w_usage := .VEX_W_IS_ZERO
        map_select := .MAP_SELECT_0F38 }
     opcode := 0x0F3858 }, rfl, rfl, rfl, rfl, rfl, rfl, rfl, rfl, rfl⟩

/-- Counterexample to C3 as stated: `VEX.256.0F.WIG /r ib` has no opcode byte, and
the parser rejects it; it returns no descriptor. -/
theorem C3_sample_is_rejected :
    ParseEncodingSpecification "VEX.256.0F.WIG /r ib" = .error noOpcodeByte ∧
    ¬ ∃ spec, ParseEncodingSpecification "VEX.256.0F.WIG /r ib" = .ok spec := by
  have h : ParseEncodingSpecification "VEX.256.0F.WIG /r ib" = .error noOpcodeByte := rfl
  refine ⟨h, ?_⟩
  rintro ⟨spec, hs⟩
  rw [h] at hs
  simp at hs

/-- Claim C3, amended: `VEX.256.0F.WIG /r ib` is rejected for want of an opcode
byte; with an opcode byte, as in `VEX.256.0F.WIG 58 /r ib`, the specification
parses to a descriptor with full ModR/M usage and the single immediate value size
1, whose available encodings are exactly ModRM.reg, ModRM.rm and one immediate
value. -/
theorem C3_vex_modrm_immediate_sample :
    ParseEncodingSpecification "VEX.256.0F.WIG /r ib" = .error noOpcodeByte ∧
    ∃ spec : EncodingSpecification,
      ParseEncodingSpecification "VEX.256.0F.WIG 58 /r ib" = .ok spec ∧
      spec.modrm_usage = .FULL_MODRM ∧
      spec.immediate_value_bytes = [1] ∧
      GetAvailableEncodings spec = .ok {Encoding.MODRM_REG_ENCODING,
        Encoding.MODRM_RM_ENCODING, Encoding.IMMEDIATE_VALUE_ENCODING} := by
  refine ⟨rfl,
    { vex_prefix := some {
        prefix_type := .VEX_PREFIX
        vex_operand_usage := .NO_VEX_OPERAND_USAGE
        vector_size := .VECTOR_SIZE_256_BIT
        mandatory_prefix := .NO_MANDATORY_PREFIX
        vex_w_usage := .VEX_W_IS_IGNORED
        map_select := .MAP_SELECT_0F }
      opcode := 0x0F58
      modrm_usage := .FULL_MODRM
      immediate_value_bytes := [1] }, rfl, rfl, rfl, ?_⟩
  have h : GetAvailableEncodings
      { vex_prefix := some {
          prefix_type := .VEX_PREFIX
          vex_operand_usage := .NO_VEX_OPERAND_USAGE
          vector_size := .VECTOR_SIZE_256_BIT
          mandatory_prefix := .NO_MANDATORY_PREFIX
          vex_w_usage := .VEX_W_IS_IGNORED
          map_select := .MAP_SELECT_0F }
        opcode := 0x0F58
        modrm_usage := .FULL_MODRM
        immediate_value_bytes := [1] } =
      .ok (Encoding.MODRM_RM_ENCODING ::ₘ Encoding.MODRM_REG_ENCODING ::ₘ
        {Encoding.IMMEDIATE_VALUE_ENCODING}) := rfl
  exact h.trans (congrArg Except.ok (Multiset.cons_swap _ _ _))

/-- Counterexample to C4 as stated: ` 66 0F 58` starts with neither `VEX.` nor
`EVEX` and begins with a space, not with a legacy prefix token, yet the legacy
prefix parser consumes ` 66` and the descriptor has the operand size override flag
set. -/
theorem C4_prefix_after_space_is_consumed :
    starts_with " 66 0F 58".toList "VEX." = false ∧
    starts_with " 66 0F 58".toList "EVEX" = false ∧
    beginsWithLegacyPrefixToken " 66 0F 58".toList = false ∧
    ParseLegacyPrefixes {} " 66 0F 58".toList =
      .ok ({ legacy_prefixes := some { has_mandatory_operand_size_override_prefix := true } },
        " 0F 58".toList) ∧
    ParseEncodingSpecification " 66 0F 58" =
      .ok { legacy_prefixes := some { has_mandatory_operand_size_override_prefix := true }
            opcode := 0x0F58 } :=
  ⟨rfl, rfl, rfl, rfl, rfl⟩

/-- Claim C4, amended: on every input that starts with neither `VEX.` nor `EVEX`
and, after its leading spaces, begins with no legacy prefix token, the legacy
prefix parser succeeds and consumes nothing, the rest of the parse runs on the
whole input with populated, all-false legacy prefixes, and a successful parse
returns a descriptor with populated legacy prefixes whose five flags are false; in
particular `0F AE /r` parses to all-false legacy prefixes, opcode 0x0FAE and full
ModR/M usage. -/
theorem C4_no_prefix_token (specification : String)
    (hvex : starts_with specification.toList "VEX." = false)
    (hevex : starts_with specification.toList "EVEX" = false)
    (htoken : beginsWithLegacyPrefixToken (dropSpaces specification.toList) = false) :
    ParseLegacyPrefixes {} specification.toList =
      .ok ({ legacy_prefixes := some {} }, specification.toList) ∧
    ParseEncodingSpecification specification =
      ParseOpcodeAndSuffixes { legacy_prefixes := some {} } specification.toList ∧
    (∀ spec, ParseEncodingSpecification specification = .ok spec →
      spec.legacy_prefixes = some {
        has_mandatory_operand_size_override_prefix := false
        has_mandatory_address_size_override_prefix := false
        has_mandatory_repe_prefix := false
        has_mandatory_repne_prefix := false
        has_mandatory_rex_w_prefix := false }) ∧
    ParseEncodingSpecification "0F AE /r" =
      .ok { legacy_prefixes := some {}, opcode := 0x0FAE, modrm_usage := .FULL_MODRM } := by
  have h1 := ParseLegacyPrefixes_none {} specification.toList htoken
  have h2 : ParseEncodingSpecification specification =
      ParseOpcodeAndSuffixes { legacy_prefixes := some {} } specification.toList := by
    unfold ParseEncodingSpecification ParseFromString ParsePrefix
    simp only [hvex, hevex, h1]
    rfl
  refine ⟨h1, h2, ?_, rfl⟩
  intro spec hs
  rw [h2] at hs
  exact prefixCore_legacy _ _ (ParseOpcodeAndSuffixes_prefixCore _ _ _ hs)

/-- Witness of C4 on `0F AE /r`. -/
theorem C4_no_prefix_token_witness :
    ParseLegacyPrefixes {} "0F AE /r".toList =
      .ok ({ legacy_prefixes := some {} }, "0F AE /r".toList) :=
  (C4_no_prefix_token "0F AE /r" rfl rfl rfl).1

/-- Claim C5: for space-separated sequences `p` and `q` of legacy prefix tokens, `q` a
permutation of `p`, and every remainder that starts with a space,
`ParseEncodingSpecification` returns the same result, the same descriptor or the
same failure, on `p` followed by the remainder and on `q` followed by it. -/
theorem C5_prefix_order (p q : List String) (hp : ∀ t ∈ p, t ∈ legacyPrefixTokens)
    (hperm : p.Perm q) (r : List Char) :
    ParseEncodingSpecification (String.mk (spaceSeparated p ++ ' ' :: r)) =
      ParseEncodingSpecification (String.mk (spaceSeparated q ++ ' ' :: r)) := by
  show ParseFromString (spaceSeparated p ++ ' ' :: r) =
    ParseFromString (spaceSeparated q ++ ' ' :: r)
  by_cases hnil : p = []
  · subst hnil
    rw [List.Perm.nil_eq hperm]
  · have hq : ∀ t ∈ q, t ∈ legacyPrefixTokens := fun t ht => hp t (hperm.mem_iff.mpr ht)
    have hqnil : q ≠ [] := fun h => hnil (by rw [h] at hperm; exact hperm.eq_nil)
    obtain ⟨c, w, hcw, -, -, hc⟩ := spaceSeparated_head p hnil hp (' ' :: r)
    obtain ⟨d, v, hdv, -, -, hd⟩ := spaceSeparated_head q hqnil hq (' ' :: r)
    have h1 := (legacyPrefixLoop_tokens r p hnil hp {}).1
    have h2 := (legacyPrefixLoop_tokens r q hqnil hq {}).1
    rw [foldl_addLegacyPrefixToken_perm p q hperm] at h1
    rw [hcw] at h1 ⊢
    rw [hdv] at h2 ⊢
    rw [ParseFromString_legacy c w hc, ParseFromString_legacy d v hd, h1, h2]

/-- Witness of C5 on `66 F2 0F 58 /r` and `F2 66 0F 58 /r`, which parse to the same
descriptor. -/
theorem C5_prefix_order_witness :
    ParseEncodingSpecification (String.mk (spaceSeparated ["66", "F2"] ++ ' ' :: "0F 58 /r".toList)) =
      ParseEncodingSpecification
        (String.mk (spaceSeparated ["F2", "66"] ++ ' ' :: "0F 58 /r".toList)) ∧
    ParseEncodingSpecification "66 F2 0F 58 /r" =
      .ok { legacy_prefixes := some {
              has_mandatory_operand_size_override_prefix := true
              has_mandatory_repne_prefix := true }
            opcode := 0x0F58
            modrm_usage := .FULL_MODRM } ∧
    ParseEncodingSpecification "F2 66 0F 58 /r" =
      .ok { legacy_prefixes := some {
              has_mandatory_operand_size_override_prefix := true
              has_mandatory_repne_prefix := true }
            opcode := 0x0F58
            modrm_usage := .FULL_MODRM } :=
  ⟨C5_prefix_order ["66", "F2"] ["F2", "66"] (by decide) (List.Perm.swap _ _ _)
    "0F 58 /r".toList, rfl, rfl⟩

/-- Counterexample to C6 as stated: the remainder of two spaces and `66 0F` starts
with a space, the opcode and suffix parser succeeds on it, and after its first
space it begins with a space, not with a legacy prefix token; yet `REX` followed by
it parses to a descriptor with the operand size override flag set beside the REX
flag. -/
theorem C6_prefix_after_spaces_is_consumed :
    ParseOpcodeAndSuffixes { legacy_prefixes := some { has_mandatory_rex_w_prefix := true } }
        "  66 0F".toList =
      .ok { legacy_prefixes := some { has_mandatory_rex_w_prefix := true }, opcode := 0x660F } ∧
    beginsWithLegacyPrefixToken " 66 0F".toList = false ∧
    ParseEncodingSpecification "REX  66 0F" =
      .ok { legacy_prefixes := some {
              has_mandatory_operand_size_override_prefix := true
              has_mandatory_rex_w_prefix := true }
            opcode := 0x0F } :=
  ⟨rfl, rfl, rfl⟩

/-- Claim C6, amended: for every remainder that starts with a space, on which the
opcode and suffix parser succeeds and which after its leading spaces begins with no
legacy prefix token, `REX`, `REX.R` and `REX.W` followed by the remainder all parse
to the same descriptor, in which the mandatory REX.W flag is true and the other
four legacy flags are false. -/
theorem C6_rex_forms (r : List Char) (spec : EncodingSpecification)
    (hsuccess : ParseOpcodeAndSuffixes
      { legacy_prefixes := some { has_mandatory_rex_w_prefix := true } } (' ' :: r) = .ok spec)
    (htoken : beginsWithLegacyPrefixToken (dropSpaces r) = false) :
    ParseEncodingSpecification (String.mk ("REX".toList ++ ' ' :: r)) = .ok spec ∧
    ParseEncodingSpecification (String.mk ("REX.R".toList ++ ' ' :: r)) = .ok spec ∧
    ParseEncodingSpecification (String.mk ("REX.W".toList ++ ' ' :: r)) = .ok spec ∧
    spec.legacy_prefixes = some {
      has_mandatory_operand_size_override_prefix := false
      has_mandatory_address_size_override_prefix := false
      has_mandatory_repe_prefix := false
      has_mandatory_repne_prefix := false
      has_mandatory_rex_w_prefix := true } := by
  have hbyte : beginsWithOpcodeByte (dropSpaces (' ' :: r)) = true := by
    cases hb : beginsWithOpcodeByte (dropSpaces (' ' :: r)) with
    | true => rfl
    | false =>
      rw [ParseOpcodeAndSuffixes_none _ _ hb] at hsuccess
      simp at hsuccess
  have hsep : afterSeparator (' ' :: r) = ' ' :: r :=
    afterSeparator_eq _ (beginsWithOpcodeByte_head _ hbyte)
  have hstop : ∀ flags, legacyPrefixLoop flags (' ' :: r) = .ok (flags, ' ' :: r) :=
    fun flags => legacyPrefixLoop_none flags _ (by simpa [dropSpaces] using htoken)
  have key : ∀ token : String, token ∈ ["REX", "REX.R", "REX.W"] →
      ∀ w : List Char, token.toList = 'R' :: w →
      ParseFromString (token.toList ++ ' ' :: r) = .ok spec := by
    intro token ht w hw
    have hmem : token ∈ legacyPrefixTokens := by
      simp only [List.mem_cons, List.mem_singleton, List.not_mem_nil, or_false] at ht
      rcases ht with rfl | rfl | rfl <;> decide
    have hflags : addLegacyPrefixToken {} token = { has_mandatory_rex_w_prefix := true } := by
      simp only [List.mem_cons, List.mem_singleton, List.not_mem_nil, or_false] at ht
      rcases ht with rfl | rfl | rfl <;> rfl
    have hloop := (legacyPrefixLoop_token token hmem {} r).1
    rw [hsep, hstop, hflags] at hloop
    rw [hw] at hloop ⊢
    rw [List.cons_append, ParseFromString_legacy 'R' _ (Or.inr (Or.inr rfl))]
    rw [List.cons_append] at hloop
    rw [hloop]
    exact hsuccess
  refine ⟨key "REX" (by simp) _ rfl, key "REX.R" (by simp) _ rfl, key "REX.W" (by simp) _ rfl, ?_⟩
  exact prefixCore_legacy _ _ (ParseOpcodeAndSuffixes_prefixCore _ _ _ hsuccess)

/-- Witness of C6 on the remainder ` 0F 58 /r`. -/
theorem C6_rex_forms_witness :
    ParseEncodingSpecification (String.mk ("REX".toList ++ ' ' :: "0F 58 /r".toList)) =
      .ok { legacy_prefixes := some { has_mandatory_rex_w_prefix := true }
            opcode := 0x0F58
            modrm_usage := .FULL_MODRM } ∧
    ParseEncodingSpecification "REX.R 0F 58 /r" = ParseEncodingSpecification "REX 0F 58 /r" ∧
    ParseEncodingSpecification "REX.W 0F 58 /r" = ParseEncodingSpecification "REX 0F 58 /r" :=
  ⟨(C6_rex_forms "0F 58 /r".toList _ rfl rfl).1, rfl, rfl⟩

/-- Counterexample to C7 as stated: `EVEX .512.0F 58`, with a space before the first
dot, parses with vector size 512, and the same text with `VEX` for `EVEX` does not
start with `VEX.`, is handed to the legacy prefix parser and fails for want of an
opcode byte, not with the error of the 512 bit vector size. -/
theorem C7_vex_with_space_is_not_a_vex_prefix :
    ParseEncodingSpecification "EVEX .512.0F 58" =
      .ok { vex_prefix := some {
              prefix_type := .EVEX_PREFIX
              vex_operand_usage := .NO_VEX_OPERAND_USAGE
              vector_size := .VECTOR_SIZE_512_BIT
              mandatory_prefix := .NO_MANDATORY_PREFIX
              vex_w_usage := .VEX_W_IS_IGNORED
              map_select := .MAP_SELECT_0F }
            opcode := 0x0F58 } ∧
    ParseEncodingSpecification "VEX .512.0F 58" = .error noOpcodeByte ∧
    ParseEncodingSpecification "VEX .512.0F 58" ≠ .error vectorSize512 := by
  refine ⟨rfl, rfl, ?_⟩
  have h : ParseEncodingSpecification "VEX .512.0F 58" = .error noOpcodeByte := rfl
  rw [h]
  decide

/-- Claim C7, amended: for every text `t`, when `EVEX.` followed by `t` parses to a
descriptor with vector size 512, `VEX.` followed by `t` fails with the error that
the 512 bit vector size can be used only in an EVEX prefix, as for
`EVEX.512.66.0F.W0 58 /r`; and every successfully parsed descriptor with vector
size 512 has the prefix type EVEX. -/
theorem C7_vector_size_512_needs_evex :
    (∀ (t : String) (spec : EncodingSpecification) (vex : VexPrefixEncodingSpecification),
      ParseEncodingSpecification ("EVEX." ++ t) = .ok spec →
      spec.vex_prefix = some vex →
      vex.vector_size = .VECTOR_SIZE_512_BIT →
      ParseEncodingSpecification ("VEX." ++ t) = .error vectorSize512) ∧
    (∃ spec : EncodingSpecification,
      ParseEncodingSpecification "EVEX.512.66.0F.W0 58 /r" = .ok spec ∧
      Option.map (fun vex => vex.vector_size) spec.vex_prefix = some .VECTOR_SIZE_512_BIT) ∧
    ParseEncodingSpecification "VEX.512.66.0F.W0 58 /r" = .error vectorSize512 ∧
    (∀ (specification : String) (spec : EncodingSpecification)
        (vex : VexPrefixEncodingSpecification),
      ParseEncodingSpecification specification = .ok spec →
      spec.vex_prefix = some vex →
      vex.vector_size = .VECTOR_SIZE_512_BIT →
      vex.prefix_type = .EVEX_PREFIX) := by
  refine ⟨?_, ⟨_, rfl, rfl⟩, rfl, ?_⟩
  · intro t spec vex h hv h512
    unfold ParseEncodingSpecification at h ⊢
    rw [String.toList, String.data_append] at h ⊢
    obtain ⟨spec1, rest, hp, hos⟩ := ParseFromString_ok _ _ h
    rw [ParsePrefix_vex _ ("EVEX.".data ++ t.data) (Or.inr rfl)] at hp
    obtain ⟨args, vs, vou, mp, w, ms, hc, h1, h2, -, -, -, -, hspec1⟩ :=
      ParseVexOrEvexPrefix_ok _ _ _ _ hp
    obtain ⟨v1, hv1, -, hsize⟩ :=
      prefixCore_vex _ _ (ParseOpcodeAndSuffixes_prefixCore _ _ _ hos) vex hv
    rw [hspec1] at hv1
    simp only [Option.some.injEq] at hv1
    rw [← hv1] at hsize
    have hvs : vs = .VECTOR_SIZE_512_BIT := hsize.symm.trans h512
    have hc2 := Consume_kVexPrefixRegexp_family _ args rest hc
    unfold ParseFromString
    rw [ParsePrefix_vex _ ("VEX.".data ++ t.data) (Or.inl (by simp [starts_with]))]
    unfold ParseVexOrEvexPrefix
    have hc3 : Consume kVexPrefixRegexp vexPrefixArgs ("VEX.".data ++ t.data) =
        some ({ args with prefix_type_str := "VEX".toList }, rest) := hc2
    simp only [hc3, h1, h2, hvs]
    rfl
  · intro specification spec vex h hv h512
    obtain ⟨spec1, rest, hp, hos⟩ := ParseFromString_ok _ _ h
    obtain ⟨v1, hv1, htype, hsize⟩ :=
      prefixCore_vex _ _ (ParseOpcodeAndSuffixes_prefixCore _ _ _ hos) vex hv
    unfold ParsePrefix at hp
    split at hp
    · obtain ⟨args, vs, vou, mp, w, ms, -, -, -, h512', -, -, -, hspec1⟩ :=
        ParseVexOrEvexPrefix_ok _ _ _ _ hp
      rw [hspec1] at hv1
      simp only [Option.some.injEq] at hv1
      rw [← hv1] at hsize htype
      simp only at hsize htype
      rw [htype, if_pos (h512' (hsize.symm.trans h512))]
    · have := (ParseLegacyPrefixes_prefixes _ _ _ _ hp).2
      rw [hv1] at this
      cases this

/-- Witness of C7 on `EVEX.512.66.0F.W0 58 /r`. -/
theorem C7_vector_size_512_needs_evex_witness :
    ParseEncodingSpecification ("VEX." ++ "512.66.0F.W0 58 /r") = .error vectorSize512 :=
  C7_vector_size_512_needs_evex.1 "512.66.0F.W0 58 /r"
    { vex_prefix := some {
        prefix_type := .EVEX_PREFIX
        vex_operand_usage := .NO_VEX_OPERAND_USAGE
        vector_size := .VECTOR_SIZE_512_BIT
        mandatory_prefix := .MANDATORY_PREFIX_OPERAND_SIZE_OVERRIDE
        vex_w_usage := .VEX_W_IS_ZERO
        map_select := .MAP_SELECT_0F }
      opcode := 0x0F58
      modrm_usage := .FULL_MODRM }
    { prefix_type := .EVEX_PREFIX
      vex_operand_usage := .NO_VEX_OPERAND_USAGE
      vector_size := .VECTOR_SIZE_512_BIT
      mandatory_prefix := .MANDATORY_PREFIX_OPERAND_SIZE_OVERRIDE
      vex_w_usage := .VEX_W_IS_ZERO
      map_select := .MAP_SELECT_0F }
    rfl rfl rfl

/-- Claim C8: when the prefix and at least one opcode byte parse (exactly one under
a VEX prefix), the suffix loop stops and, after the trailing spaces and `+` signs
are skipped, some text remains, `ParseEncodingSpecification` fails with the error
that the specification was not fully parsed, which carries that text; so
`0F AE /r xyz` fails although `0F AE /r` succeeds, and on every successful parse
nothing is left after the opcode bytes or nothing but spaces and `+` signs is left
after the suffixes. -/
theorem C8_unparsed_remainder :
    (∀ (specification : String) (spec1 : EncodingSpecification) (rest : List Char)
        (st : OpcodeState) (rest1 : List Char) (spec2 : EncodingSpecification)
        (rest2 : List Char),
      ParsePrefix {} specification.toList = .ok (spec1, rest) →
      ParseOpcodeBytes spec1 rest = .ok (st, rest1) →
      1 ≤ st.num_opcode_bytes →
      ( has_vex_prefix spec1 = true → st.num_opcode_bytes = 1) →
      ParseSuffixes { st.specification_ with opcode := st.opcode } rest1 = .ok (spec2, rest2) →
      ConsumeWhitespace rest2 ≠ [] →
      ParseEncodingSpecification specification =
        .error (notFullyParsed (ConsumeWhitespace rest2))) ∧
    ParseEncodingSpecification "0F AE /r xyz" = .error (notFullyParsed "xyz".toList) ∧
    ParseEncodingSpecification "0F AE /r" =
      .ok { legacy_prefixes := some {}, opcode := 0x0FAE, modrm_usage := .FULL_MODRM } ∧
    (∀ (specification : String) (spec : EncodingSpecification),
      ParseEncodingSpecification specification = .ok spec →
      ∃ (spec1 : EncodingSpecification) (rest : List Char) (st : OpcodeState)
        (rest1 : List Char),
        ParsePrefix {} specification.toList = .ok (spec1, rest) ∧
        ParseOpcodeBytes spec1 rest = .ok (st, rest1) ∧
        (rest1 = [] ∨ ∃ (spec2 : EncodingSpecification) (rest2 : List Char),
          ParseSuffixes { st.specification_ with opcode := st.opcode } rest1 =
            .ok (spec2, rest2) ∧
          ConsumeWhitespace rest2 = [])) := by
  refine ⟨?_, rfl, rfl, ?_⟩
  · intro specification spec1 rest st rest1 spec2 rest2 hp hop h1 hv hsuf hrem
    have hne : rest1 ≠ [] := by
      intro hr
      rw [hr, ParseSuffixes_nil] at hsuf
      simp only [Except.ok.injEq, Prod.mk.injEq] at hsuf
      apply hrem
      rw [← hsuf.2]
      rfl
    unfold ParseEncodingSpecification
    rw [ParseFromString_eq _ _ _ hp]
    unfold ParseOpcodeAndSuffixes
    simp only [hop]
    rw [if_neg (by omega)]
    rw [if_neg (by
      rintro ⟨hv1, hv2⟩
      exact hv2 (hv ((ParseOpcodeBytes_keeps_vex _ _ _ _ hop).symm.trans hv1)))]
    rw [if_neg (by simpa [List.isEmpty_iff] using hne)]
    simp only [hsuf]
    cases hw : ConsumeWhitespace rest2 with
    | nil => exact absurd hw hrem
    | cons c t => rfl
  · intro specification spec h
    obtain ⟨spec1, rest, hp, hos⟩ := ParseFromString_ok _ _ h
    obtain ⟨st, rest1, hop, -, -, hrest⟩ := ParseOpcodeAndSuffixes_ok _ _ _ hos
    refine ⟨spec1, rest, st, rest1, hp, hop, ?_⟩
    rcases hrest with ⟨hr, -⟩ | ⟨-, spec2, rest2, hsuf, hw, -⟩
    · exact Or.inl hr
    · exact Or.inr ⟨spec2, rest2, hsuf, hw⟩

/-- Witness of C8 on `0F AE /r xyz`: after the suffix `/r` the text ` xyz` is left,
and `xyz` after the space is skipped. -/
theorem C8_unparsed_remainder_witness :
    ParseEncodingSpecification "0F AE /r xyz" = .error (notFullyParsed "xyz".toList) :=
  C8_unparsed_remainder.1 "0F AE /r xyz"
    { legacy_prefixes := some {} }
    "0F AE /r xyz".toList
    { num_opcode_bytes := 2, opcode := 0x0FAE, specification_ := { legacy_prefixes := some {} } }
    " /r xyz".toList
    { legacy_prefixes := some {}, opcode := 0x0FAE, modrm_usage := .FULL_MODRM }
    " xyz".toList rfl rfl (by decide) (by decide) rfl (by decide)

/-- Claim C9: when the text left by the prefix parser does not begin, after optional
spaces, with two uppercase hexadecimal digits, `ParseEncodingSpecification` fails
with the error that the instruction did not have an opcode byte; the empty text,
`66` and `/r` fail so; and on every successful parse the text left by the prefix
parser begins, after optional spaces, with an opcode byte and the opcode byte loop
consumed at least one byte. -/
theorem C9_no_opcode_byte :
    (∀ (specification : String) (spec1 : EncodingSpecification) (rest : List Char),
      ParsePrefix {} specification.toList = .ok (spec1, rest) →
      beginsWithOpcodeByte (dropSpaces rest) = false →
      ParseEncodingSpecification specification = .error noOpcodeByte) ∧
    ParseEncodingSpecification "" = .error noOpcodeByte ∧
    ParseEncodingSpecification "66" = .error noOpcodeByte ∧
    ParseEncodingSpecification "/r" = .error noOpcodeByte ∧
    (∀ (specification : String) (spec : EncodingSpecification),
      ParseEncodingSpecification specification = .ok spec →
      ∃ (spec1 : EncodingSpecification) (rest : List Char) (st : OpcodeState)
        (rest1 : List Char),
        ParsePrefix {} specification.toList = .ok (spec1, rest) ∧
        beginsWithOpcodeByte (dropSpaces rest) = true ∧
        ParseOpcodeBytes spec1 rest = .ok (st, rest1) ∧
        1 ≤ st.num_opcode_bytes) := by
  refine ⟨?_, rfl, rfl, rfl, ?_⟩
  · intro specification spec1 rest hp hb
    unfold ParseEncodingSpecification
    rw [ParseFromString_eq _ _ _ hp]
    exact ParseOpcodeAndSuffixes_none spec1 rest hb
  · intro specification spec h
    obtain ⟨spec1, rest, hp, hos⟩ := ParseFromString_ok _ _ h
    obtain ⟨st, rest1, hop, h0, -, -⟩ := ParseOpcodeAndSuffixes_ok _ _ _ hos
    refine ⟨spec1, rest, st, rest1, hp, ?_, hop, by omega⟩
    cases hb : beginsWithOpcodeByte (dropSpaces rest) with
    | true => rfl
    | false =>
      rw [ParseOpcodeAndSuffixes_none spec1 rest hb] at hos
      simp at hos

/-- Witness of C9 on `66`: the legacy prefix parser consumes the whole text and no
opcode byte is left. -/
theorem C9_no_opcode_byte_witness :
    ParsePrefix {} "66".toList =
      .ok ({ legacy_prefixes := some { has_mandatory_operand_size_override_prefix := true } },
        []) ∧
    ParseEncodingSpecification "66" = .error noOpcodeByte :=
  ⟨rfl, C9_no_opcode_byte.1 "66" _ [] rfl rfl⟩

/-- Claim C10: when the prefix parser has parsed a VEX or EVEX prefix and the opcode
byte loop matches two or more opcode bytes, `ParseEncodingSpecification` fails with
the error of an unexpected number of opcode bytes in a VEX-encoded instruction, as
on `VEX.128.0F 38 F7 /r`; and on every successful parse whose descriptor has a VEX
prefix the opcode byte loop matched exactly one byte. -/
theorem C10_vex_opcode_byte_count :
    (∀ (specification : String) (spec1 : EncodingSpecification) (rest : List Char)
        (st : OpcodeState) (rest1 : List Char),
      ParsePrefix {} specification.toList = .ok (spec1, rest) →
      has_vex_prefix spec1 = true →
      ParseOpcodeBytes spec1 rest = .ok (st, rest1) →
      2 ≤ st.num_opcode_bytes →
      ParseEncodingSpecification specification = .error unexpectedOpcodeBytes) ∧
    ParseEncodingSpecification "VEX.128.0F 38 F7 /r" = .error unexpectedOpcodeBytes ∧
    (∀ (specification : String) (spec : EncodingSpecification),
      ParseEncodingSpecification specification = .ok spec →
      Option.isSome spec.vex_prefix = true →
      ∃ (spec1 : EncodingSpecification) (rest : List Char) (st : OpcodeState)
        (rest1 : List Char),
        ParsePrefix {} specification.toList = .ok (spec1, rest) ∧
        ParseOpcodeBytes spec1 rest = .ok (st, rest1) ∧
        st.num_opcode_bytes = 1) := by
  refine ⟨?_, rfl, ?_⟩
  · intro specification spec1 rest st rest1 hp hv hop h2
    unfold ParseEncodingSpecification
    rw [ParseFromString_eq _ _ _ hp]
    unfold ParseOpcodeAndSuffixes
    simp only [hop]
    rw [if_neg (by omega)]
    rw [if_pos ⟨(ParseOpcodeBytes_keeps_vex _ _ _ _ hop).trans hv, by omega⟩]
  · intro specification spec h hv
    obtain ⟨spec1, rest, hp, hos⟩ := ParseFromString_ok _ _ h
    obtain ⟨st, rest1, hop, -, h1, -⟩ := ParseOpcodeAndSuffixes_ok _ _ _ hos
    refine ⟨spec1, rest, st, rest1, hp, hop, h1 ?_⟩
    rw [ParseOpcodeBytes_keeps_vex _ _ _ _ hop]
    have h2 := prefixCore_vex_isSome _ _ (ParseOpcodeAndSuffixes_prefixCore _ _ _ hos)
    rw [hv] at h2
    exact h2.symm

/-- Witness of C10 on `VEX.128.0F 38 F7 /r`: the prefix parses, the loop matches the
two bytes `38` and `F7`, and the parse fails. -/
theorem C10_vex_opcode_byte_count_witness :
    ParseEncodingSpecification "VEX.128.0F 38 F7 /r" = .error unexpectedOpcodeBytes :=
  C10_vex_opcode_byte_count.1 "VEX.128.0F 38 F7 /r"
    { vex_prefix := some {
        prefix_type := .VEX_PREFIX
        vex_operand_usage := .NO_VEX_OPERAND_USAGE
        vector_size := .VECTOR_SIZE_128_BIT
        mandatory_prefix := .NO_MANDATORY_PREFIX
        vex_w_usage := .VEX_W_IS_IGNORED
        map_select := .MAP_SELECT_0F }
      opcode := 0x0F }
    "38 F7 /r".toList
    { num_opcode_bytes := 2
      opcode := 0x0F38F7
      specification_ := {
        vex_prefix := some {
          prefix_type := .VEX_PREFIX
          vex_operand_usage := .NO_VEX_OPERAND_USAGE
          vector_size := .VECTOR_SIZE_128_BIT
          mandatory_prefix := .NO_MANDATORY_PREFIX
          vex_w_usage := .VEX_W_IS_IGNORED
          map_select := .MAP_SELECT_0F }
        opcode := 0x0F } }
    " /r".toList rfl rfl rfl (by decide)

/-- Claim C11: on every successful parse the opcode of the descriptor is the left
fold of `acc := (acc << 8) | byte` modulo `2^32` over the opcode bytes matched after
the prefixes, in the order of the input, from 0 when the descriptor has no VEX
prefix and from the value of its opcode map (0x0F, 0x0F3A or 0x0F38) when it has
one; every matched byte is below 256; without a VEX prefix and with at most four
bytes the opcode is the big-endian number of the bytes; and with a VEX prefix there
is exactly one byte `b` and the opcode is the map value times 256 plus `b`. -/
theorem C11_opcode_is_fold_of_bytes (specification : String) (spec : EncodingSpecification)
    (h : ParseEncodingSpecification specification = .ok spec) :
    ∃ (spec1 : EncodingSpecification) (rest : List Char),
      ParsePrefix {} specification.toList = .ok (spec1, rest) ∧
      (∀ byte ∈ opcodeBytes rest, byte < 256) ∧
      spec.opcode =
        (opcodeBytes rest).foldl (fun acc byte => ((acc <<< 8) ||| byte) % 2 ^ 32)
          (match spec.vex_prefix with
            | none => 0
            | some vex => mapSelectValue vex.map_select) ∧
      (spec.vex_prefix = none → (opcodeBytes rest).length ≤ 4 →
        spec.opcode = (opcodeBytes rest).foldl (fun acc byte => acc * 256 + byte) 0) ∧
      (∀ vex : VexPrefixEncodingSpecification, spec.vex_prefix = some vex →
        ∃ byte, opcodeBytes rest = [byte] ∧
          spec.opcode = mapSelectValue vex.map_select * 256 + byte) := by
  obtain ⟨spec1, rest, st, rest1, hp, hop, h0, hv, hcore, ho, -⟩ :=
    ParseFromString_fields _ _ h
  obtain ⟨hfold, hnum, -⟩ := ParseOpcodeBytes_ok _ _ _ _ hop
  have hlt := opcodeBytes_lt rest
  have hseed : spec1.opcode =
      (match spec.vex_prefix with
        | none => 0
        | some vex => mapSelectValue vex.map_select) := by
    rcases ParsePrefix_init _ _ _ hp with ⟨flags, rfl⟩ | ⟨vex1, rfl, -, -⟩
    · have h1 := prefixCore_vex_isSome _ _ hcore
      cases hvx : spec.vex_prefix with
      | none => rfl
      | some vex => rw [hvx] at h1; simp at h1
    · cases hvx : spec.vex_prefix with
      | none =>
        have h1 := prefixCore_vex_isSome _ _ hcore
        rw [hvx] at h1
        simp at h1
      | some vex =>
        obtain ⟨vb, hvb, hms⟩ := prefixCore_map_select _ _ hcore vex hvx
        simp only [Option.some.injEq] at hvb
        subst hvb
        simp only [hms]
  have hopc : spec.opcode =
      (opcodeBytes rest).foldl (fun acc byte => ((acc <<< 8) ||| byte) % 2 ^ 32)
        (match spec.vex_prefix with
          | none => 0
          | some vex => mapSelectValue vex.map_select) := by
    rw [ho, hfold, hseed]
  refine ⟨spec1, rest, hp, hlt, hopc, ?_, ?_⟩
  · intro hnone h4
    rw [hopc, hnone]
    exact opcodeFold_big_endian _ hlt h4
  · intro vex hvx
    have hv1 : has_vex_prefix spec1 = true := by
      have h1 := prefixCore_vex_isSome _ _ hcore
      rw [hvx] at h1
      exact h1.symm
    have hone := hv hv1
    rw [hnum] at hone
    obtain ⟨byte, hb⟩ := List.length_eq_one.mp hone
    refine ⟨byte, hb, ?_⟩
    rw [hopc, hvx, hb]
    simp only [List.foldl_cons, List.foldl_nil]
    have hb256 : byte < 256 := hlt byte (by rw [hb]; exact List.mem_singleton_self _)
    have hstep := opcode_step (mapSelectValue vex.map_select) byte hb256
    rw [← hstep.1, hstep.2]
    have := mapSelectValue_lt vex.map_select
    omega

/-- Witness of C11 on `66 0F 58 /r`: the descriptor has no VEX prefix, the matched
bytes are `0F` and `58`, and the opcode is `0x0F58`. -/
theorem C11_opcode_is_fold_of_bytes_witness :
    ParseEncodingSpecification "66 0F 58 /r" =
      .ok { legacy_prefixes := some { has_mandatory_operand_size_override_prefix := true }
            opcode := 0x0F58
            modrm_usage := .FULL_MODRM } ∧
    ∃ (spec1 : EncodingSpecification) (rest : List Char),
      ParsePrefix {} "66 0F 58 /r".toList = .ok (spec1, rest) ∧
      (∀ byte ∈ opcodeBytes rest, byte < 256) ∧
      0x0F58 = (opcodeBytes rest).foldl (fun acc byte => ((acc <<< 8) ||| byte) % 2 ^ 32) 0 ∧
      ((none : Option VexPrefixEncodingSpecification) = none → (opcodeBytes rest).length ≤ 4 →
        0x0F58 = (opcodeBytes rest).foldl (fun acc byte => acc * 256 + byte) 0) ∧
      (∀ vex : VexPrefixEncodingSpecification, none = some vex →
        ∃ byte, opcodeBytes rest = [byte] ∧
          0x0F58 = mapSelectValue vex.map_select * 256 + byte) :=
  ⟨rfl, C11_opcode_is_fold_of_bytes "66 0F 58 /r"
    { legacy_prefixes := some { has_mandatory_operand_size_override_prefix := true }
      opcode := 0x0F58
      modrm_usage := .FULL_MODRM } rfl⟩

/-- Claim C12: when the input starts with neither `VEX.` nor `EVEX`, the prefix
parser and the opcode byte loop succeed with at least one opcode byte, and one of
the suffix tokens matched after the opcode bytes is `/is4` or `/vsib`,
`ParseEncodingSpecification` fails with the error that the VEX operand suffix
(`/is4` or `/vsib`) is specified for an instruction that does not use the VEX
prefix; `0F 58 /r /is4` and `0F 58 /vsib` fail so. -/
theorem C12_vex_suffix_needs_vex :
    (∀ (specification : String) (spec1 : EncodingSpecification) (rest : List Char)
        (st : OpcodeState) (rest1 : List Char),
      starts_with specification.toList "VEX." = false →
      starts_with specification.toList "EVEX" = false →
      ParsePrefix {} specification.toList = .ok (spec1, rest) →
      ParseOpcodeBytes spec1 rest = .ok (st, rest1) →
      st.num_opcode_bytes ≠ 0 →
      (∃ a ∈ suffixTokens rest1, a.is4_suffix_str ≠ [] ∨ a.vsib_suffix_str ≠ []) →
      ParseEncodingSpecification specification = .error is4WithoutVex ∨
        ParseEncodingSpecification specification = .error vsibWithoutVex) ∧
    ParseEncodingSpecification "0F 58 /r /is4" = .error is4WithoutVex ∧
    ParseEncodingSpecification "0F 58 /vsib" = .error vsibWithoutVex := by
  refine ⟨?_, rfl, rfl⟩
  intro specification spec1 rest st rest1 h1 h2 hp hop h0 htok
  have hv1 : has_vex_prefix spec1 = false := by
    rw [ParsePrefix_legacy _ _ h1 h2] at hp
    exact ParseLegacyPrefixes_no_vex _ _ _ hp
  have hv2 : has_vex_prefix { st.specification_ with opcode := st.opcode } = false :=
    (ParseOpcodeBytes_keeps_vex _ _ _ _ hop).trans hv1
  have hne : rest1 ≠ [] := by
    rintro rfl
    obtain ⟨a, ha, -⟩ := htok
    rw [suffixTokens_nil] at ha
    simp at ha
  have hsuf := ParseSuffixes_without_vex _ rest1 hv2 htok
  unfold ParseEncodingSpecification
  rw [ParseFromString_eq _ _ _ hp]
  unfold ParseOpcodeAndSuffixes
  simp only [hop]
  rw [if_neg h0, if_neg (by rw [hv2]; simp), if_neg (by simpa using hne)]
  rcases hsuf with hs | hs
  · left; rw [hs]
  · right; rw [hs]

/-- Witness of C12 on `0F 58 /r /is4`: no prefix, the opcode bytes `0F` and `58`, and
the suffix tokens `/r` and `/is4`. -/
theorem C12_vex_suffix_needs_vex_witness :
    ParseEncodingSpecification "0F 58 /r /is4" = .error is4WithoutVex ∨
      ParseEncodingSpecification "0F 58 /r /is4" = .error vsibWithoutVex :=
  C12_vex_suffix_needs_vex.1 "0F 58 /r /is4"
    { legacy_prefixes := some {} }
    "0F 58 /r /is4".toList
    { num_opcode_bytes := 2
      opcode := 0x0F58
      specification_ := { legacy_prefixes := some {} } }
    " /r /is4".toList rfl rfl rfl rfl (by decide)
    ⟨⟨"/is4".toList, [], [], [], []⟩, List.Mem.tail _ (List.Mem.head _), Or.inl (by decide)⟩

/-- Claim C13: on every successful parse whose descriptor has VSIB usage used, the
ModR/M usage of the descriptor is not none: it is the usage of the last ModR/M
suffix token matched after the opcode bytes, and full when there is no such token;
and `GetAvailableEncodings` returns on every descriptor that the parser produces,
so its fatal check of the ModR/M usage does not fire. -/
theorem C13_vsib_implies_modrm (specification : String) (spec : EncodingSpecification)
    (h : ParseEncodingSpecification specification = .ok spec) :
    (vsib_usage spec = .VSIB_USED →
      spec.modrm_usage ≠ .NO_MODRM_USAGE ∧
      ∃ (spec1 : EncodingSpecification) (rest : List Char) (st : OpcodeState)
        (rest1 : List Char),
        ParsePrefix {} specification.toList = .ok (spec1, rest) ∧
        ParseOpcodeBytes spec1 rest = .ok (st, rest1) ∧
        spec.modrm_usage =
          (((suffixTokens rest1).filterMap modRmUsageOf).getLast?).getD .FULL_MODRM) ∧
    ∃ m, GetAvailableEncodings spec = .ok m := by
  obtain ⟨spec1, rest, st, rest1, hp, hop, -, -, -, -, -, -, hmu, -⟩ :=
    ParseFromString_fields _ _ h
  have key : vsib_usage spec = .VSIB_USED →
      spec.modrm_usage ≠ .NO_MODRM_USAGE ∧
      spec.modrm_usage =
        (((suffixTokens rest1).filterMap modRmUsageOf).getLast?).getD .FULL_MODRM := by
    intro hvs
    cases hl : ((suffixTokens rest1).filterMap modRmUsageOf).getLast? with
    | none =>
      rw [hl] at hmu
      simp only [Option.getD_none, hvs, and_self, if_true] at hmu
      rw [hmu]
      exact ⟨by decide, rfl⟩
    | some u =>
      rw [hl] at hmu
      have hu := getLast?_modRmUsageOf_ne _ u hl
      simp only [Option.getD_some, hu, and_false, if_false] at hmu
      rw [hmu]
      exact ⟨hu, rfl⟩
  exact ⟨fun hvs => ⟨(key hvs).1, spec1, rest, st, rest1, hp, hop, (key hvs).2⟩,
    GetAvailableEncodings_ok spec fun hvs => (key hvs).1⟩

/-- Witness of C13 on `VEX.128.66.0F38.W0 90 /vsib`: the descriptor has VSIB usage
used and, without a ModR/M suffix in the input, full ModR/M usage. -/
theorem C13_vsib_implies_modrm_witness :
    ParseEncodingSpecification "VEX.128.66.0F38.W0 90 /vsib" =
      .ok { vex_prefix := some {
              prefix_type := .VEX_PREFIX
              vex_operand_usage := .NO_VEX_OPERAND_USAGE
              vector_size := .VECTOR_SIZE_128_BIT
              mandatory_prefix := .MANDATORY_PREFIX_OPERAND_SIZE_OVERRIDE
              vex_w_usage := .VEX_W_IS_ZERO
              map_select := .MAP_SELECT_0F38
              vsib_usage := .VSIB_USED }
            opcode := 0x0F3890
            modrm_usage := .FULL_MODRM } ∧
    ∃ m, GetAvailableEncodings
      { vex_prefix := some {
          prefix_type := .VEX_PREFIX
          vex_operand_usage := .NO_VEX_OPERAND_USAGE
          vector_size := .VECTOR_SIZE_128_BIT
          mandatory_prefix := .MANDATORY_PREFIX_OPERAND_SIZE_OVERRIDE
          vex_w_usage := .VEX_W_IS_ZERO
          map_select := .MAP_SELECT_0F38
          vsib_usage := .VSIB_USED }
        opcode := 0x0F3890
        modrm_usage := .FULL_MODRM } = .ok m :=
  ⟨rfl, (C13_vsib_implies_modrm "VEX.128.66.0F38.W0 90 /vsib" _ rfl).2⟩

/-- Claim C14: for every descriptor with a VEX prefix whose VSIB usage is used and
with a ModR/M usage other than none, `GetAvailableEncodings` returns a multiset in
which the VSIB location occurs exactly once and the ModRM.rm location does not
occur; when the ModR/M usage is full the ModRM.reg location occurs exactly once. -/
theorem C14_vsib_replaces_modrm_rm (spec : EncodingSpecification)
    (vex : VexPrefixEncodingSpecification) (hvex : spec.vex_prefix = some vex)
    (hvsib : vex.vsib_usage = .VSIB_USED) (hmodrm : spec.modrm_usage ≠ .NO_MODRM_USAGE) :
    ∃ m, GetAvailableEncodings spec = .ok m ∧
      m.count Encoding.VSIB_ENCODING = 1 ∧
      m.count Encoding.MODRM_RM_ENCODING = 0 ∧
      Encoding.MODRM_RM_ENCODING ∉ m ∧
      (spec.modrm_usage = .FULL_MODRM → m.count Encoding.MODRM_REG_ENCODING = 1) := by
  obtain ⟨m, hm⟩ := GetAvailableEncodings_ok spec fun _ => hmodrm
  obtain ⟨-, hreg, hrm, -, -, -, hvs, -⟩ := GetAvailableEncodings_count spec m hm
  have hu : usesVsib spec = true := by
    rw [usesVsib_eq]
    unfold vsib_usage
    rw [hvex]
    simp [hvsib]
  rw [if_pos hu] at hrm hvs
  refine ⟨m, hm, hvs, hrm, Multiset.count_eq_zero.mp hrm, ?_⟩
  intro hfull
  rw [hreg, if_pos hfull]

/-- Witness of C14 on the descriptor of `VEX.128.66.0F38.W0 90 /vsib`. -/
theorem C14_vsib_replaces_modrm_rm_witness :
    ∃ m, GetAvailableEncodings
        { vex_prefix := some {
            prefix_type := .VEX_PREFIX
            vex_operand_usage := .NO_VEX_OPERAND_USAGE
            vector_size := .VECTOR_SIZE_128_BIT
            mandatory_prefix := .MANDATORY_PREFIX_OPERAND_SIZE_OVERRIDE
            vex_w_usage := .VEX_W_IS_ZERO
            map_select := .MAP_SELECT_0F38
            vsib_usage := .VSIB_USED }
          opcode := 0x0F3890
          modrm_usage := .FULL_MODRM } = .ok m ∧
      m.count Encoding.VSIB_ENCODING = 1 ∧
      m.count Encoding.MODRM_RM_ENCODING = 0 ∧
      Encoding.MODRM_RM_ENCODING ∉ m ∧
      ((ModRmUsage.FULL_MODRM = .FULL_MODRM) → m.count Encoding.MODRM_REG_ENCODING = 1) :=
  C14_vsib_replaces_modrm_rm _ _ rfl rfl (by decide)

/-- Claim C15: for a descriptor with ModR/M usage opcode extension in ModR/M,
`GetAvailableEncodings` returns a multiset without the ModRM.reg location, in which
ModRM.rm occurs exactly once when VSIB is not used; for full ModR/M usage without
VSIB it returns a multiset in which ModRM.reg and ModRM.rm occur exactly once each;
and for ModR/M usage none every multiset it returns has neither location, and it
returns one when VSIB is not used. -/
theorem C15_modrm_locations (spec : EncodingSpecification) :
    (spec.modrm_usage = .OPCODE_EXTENSION_IN_MODRM →
      ∃ m, GetAvailableEncodings spec = .ok m ∧
        m.count Encoding.MODRM_REG_ENCODING = 0 ∧
        (vsib_usage spec = .VSIB_UNUSED → m.count Encoding.MODRM_RM_ENCODING = 1)) ∧
    (spec.modrm_usage = .FULL_MODRM → vsib_usage spec = .VSIB_UNUSED →
      ∃ m, GetAvailableEncodings spec = .ok m ∧
        m.count Encoding.MODRM_REG_ENCODING = 1 ∧
        m.count Encoding.MODRM_RM_ENCODING = 1) ∧
    (spec.modrm_usage = .NO_MODRM_USAGE →
      (∀ m, GetAvailableEncodings spec = .ok m →
        m.count Encoding.MODRM_REG_ENCODING = 0 ∧
        m.count Encoding.MODRM_RM_ENCODING = 0) ∧
      (vsib_usage spec = .VSIB_UNUSED → ∃ m, GetAvailableEncodings spec = .ok m)) := by
  have hun : vsib_usage spec = .VSIB_UNUSED → usesVsib spec = false := by
    intro hu
    rw [usesVsib_eq, hu]
    rfl
  refine ⟨?_, ?_, ?_⟩
  · intro hext
    obtain ⟨m, hm⟩ := GetAvailableEncodings_ok spec fun _ => by rw [hext]; decide
    obtain ⟨-, hreg, hrm, -⟩ := GetAvailableEncodings_count spec m hm
    refine ⟨m, hm, ?_, ?_⟩
    · rw [hreg, hext]; rfl
    · intro hu
      rw [hrm, hun hu, hext]
      rfl
  · intro hfull hu
    obtain ⟨m, hm⟩ := GetAvailableEncodings_ok spec fun _ => by rw [hfull]; decide
    obtain ⟨-, hreg, hrm, -⟩ := GetAvailableEncodings_count spec m hm
    refine ⟨m, hm, ?_, ?_⟩
    · rw [hreg, hfull]; rfl
    · rw [hrm, hun hu, hfull]
      rfl
  · intro hno
    refine ⟨?_, ?_⟩
    · intro m hm
      obtain ⟨-, hreg, hrm, -⟩ := GetAvailableEncodings_count spec m hm
      refine ⟨?_, ?_⟩
      · rw [hreg, hno]; rfl
      · rw [hrm, hno]
        cases usesVsib spec <;> rfl
    · intro hu
      exact GetAvailableEncodings_ok spec fun hused => by rw [hu] at hused; cases hused

/-- Witness of C15 on the descriptor of `0F AE /5`, with ModR/M usage opcode
extension in ModR/M and no VEX prefix: one ModRM.rm location and no ModRM.reg. -/
theorem C15_modrm_locations_witness :
    ∃ m, GetAvailableEncodings
        { legacy_prefixes := some {}
          opcode := 0x0FAE
          modrm_usage := .OPCODE_EXTENSION_IN_MODRM
          modrm_opcode_extension := 5 } = .ok m ∧
      m.count Encoding.MODRM_REG_ENCODING = 0 ∧
      (VsibUsage.VSIB_UNUSED = .VSIB_UNUSED → m.count Encoding.MODRM_RM_ENCODING = 1) :=
  (C15_modrm_locations
    { legacy_prefixes := some {}
      opcode := 0x0FAE
      modrm_usage := .OPCODE_EXTENSION_IN_MODRM
      modrm_opcode_extension := 5 }).1 rfl

/-- Claim C16: when `GetAvailableEncodings` returns on a descriptor, the immediate
value location occurs in the result as many times as `immediate_value_bytes` has
entries, plus once when `code_offset_bytes` is not zero; a descriptor with two
immediate values and a code offset gives three immediate value locations. -/
theorem C16_immediate_locations :
    (∀ (spec : EncodingSpecification) (m : Multiset Encoding),
      GetAvailableEncodings spec = .ok m →
      m.count Encoding.IMMEDIATE_VALUE_ENCODING =
        spec.immediate_value_bytes.length + (if spec.code_offset_bytes ≠ 0 then 1 else 0)) ∧
    (∀ (spec : EncodingSpecification) (m : Multiset Encoding) (i j : Nat),
      GetAvailableEncodings spec = .ok m →
      spec.immediate_value_bytes = [i, j] → spec.code_offset_bytes ≠ 0 →
      m.count Encoding.IMMEDIATE_VALUE_ENCODING = 3) ∧
    GetAvailableEncodings { opcode := 0xEA, immediate_value_bytes := [2, 1],
                            code_offset_bytes := 4 } =
      .ok (Multiset.replicate 3 Encoding.IMMEDIATE_VALUE_ENCODING) := by
  have h1 : ∀ (spec : EncodingSpecification) (m : Multiset Encoding),
      GetAvailableEncodings spec = .ok m →
      m.count Encoding.IMMEDIATE_VALUE_ENCODING =
        spec.immediate_value_bytes.length +
          (if spec.code_offset_bytes ≠ 0 then 1 else 0) := by
    intro spec m hm
    obtain ⟨-, -, -, -, -, -, -, himm⟩ := GetAvailableEncodings_count spec m hm
    rw [himm]
    by_cases h0 : spec.code_offset_bytes = 0 <;> simp [h0]
  refine ⟨h1, ?_, rfl⟩
  intro spec m i j hm hi hc
  rw [h1 spec m hm, hi, if_pos hc]
  rfl

/-- Witness of C16 on a descriptor with the immediate values `[2, 1]` and the code
offset 4. -/
theorem C16_immediate_locations_witness :
    (Multiset.replicate 3 Encoding.IMMEDIATE_VALUE_ENCODING).count
      Encoding.IMMEDIATE_VALUE_ENCODING = 3 :=
  C16_immediate_locations.2.1
    { opcode := 0xEA, immediate_value_bytes := [2, 1], code_offset_bytes := 4 }
    _ 2 1 rfl rfl (by decide)

/-- Claim C17: on every successful parse `immediate_value_bytes` is the list of the
widths of the immediate value suffix tokens among the suffix tokens matched after
the opcode bytes, in the order of the input, where `ib` has width 1, `iw` 2, `id` 4
and `io` 8 and a token of another kind contributes nothing; `C8 iw ib` gives
`[2, 1]` and `C8 ib iw` gives `[1, 2]`. -/
theorem C17_immediate_value_bytes :
    (∀ (specification : String) (spec : EncodingSpecification),
      ParseEncodingSpecification specification = .ok spec →
      ∃ (spec1 : EncodingSpecification) (rest : List Char) (st : OpcodeState)
        (rest1 : List Char),
        ParsePrefix {} specification.toList = .ok (spec1, rest) ∧
        ParseOpcodeBytes spec1 rest = .ok (st, rest1) ∧
        spec.immediate_value_bytes = (suffixTokens rest1).filterMap immediateWidth) ∧
    (immediateWidth ⟨[], ['b'], [], [], []⟩ = some 1 ∧
      immediateWidth ⟨[], ['w'], [], [], []⟩ = some 2 ∧
      immediateWidth ⟨[], ['d'], [], [], []⟩ = some 4 ∧
      immediateWidth ⟨[], ['o'], [], [], []⟩ = some 8 ∧
      ∀ a : SuffixArgs, a.immediate_value_size_str = [] → immediateWidth a = none) ∧
    ParseEncodingSpecification "C8 iw ib" =
      .ok { legacy_prefixes := some {}, opcode := 0xC8, immediate_value_bytes := [2, 1] } ∧
    ParseEncodingSpecification "C8 ib iw" =
      .ok { legacy_prefixes := some {}, opcode := 0xC8, immediate_value_bytes := [1, 2] } := by
  refine ⟨?_, ⟨rfl, rfl, rfl, rfl, ?_⟩, rfl, rfl⟩
  · intro specification spec h
    obtain ⟨spec1, rest, st, rest1, hp, hop, -, -, -, -, himm, -⟩ :=
      ParseFromString_fields _ _ h
    exact ⟨spec1, rest, st, rest1, hp, hop, himm⟩
  · intro a ha
    unfold immediateWidth
    rw [ha]

/-- Witness of C17 on `C8 iw ib`: the suffix tokens after the opcode byte `C8` are
`iw` and `ib`, and the immediate value sizes are `[2, 1]`. -/
theorem C17_immediate_value_bytes_witness :
    ∃ (spec1 : EncodingSpecification) (rest : List Char) (st : OpcodeState)
      (rest1 : List Char),
      ParsePrefix {} "C8 iw ib".toList = .ok (spec1, rest) ∧
      ParseOpcodeBytes spec1 rest = .ok (st, rest1) ∧
      [2, 1] = (suffixTokens rest1).filterMap immediateWidth :=
  C17_immediate_value_bytes.1 "C8 iw ib"
    { legacy_prefixes := some {}, opcode := 0xC8, immediate_value_bytes := [2, 1] } rfl

/-- Claim C18: on every successful parse `code_offset_bytes` is the width of the last
code offset suffix token among the suffix tokens matched after the opcode bytes
(`cb` 1, `cw` 2, `cd` 4, `cp` 6, `co` 8, `ct` 10) and zero when there is none; so it
is zero with no code offset token matched, or one of 1, 2, 4, 6, 8 and 10 with one
matched, and with a single code offset token it is the width of that token;
`E8 cb`, `E8 cw`, `E8 cd`, `E8 cp`, `E8 co` and `E8 ct` give 1, 2, 4, 6, 8 and 10. -/
theorem C18_code_offset_bytes :
    (∀ (specification : String) (spec : EncodingSpecification),
      ParseEncodingSpecification specification = .ok spec →
      ∃ (spec1 : EncodingSpecification) (rest : List Char) (st : OpcodeState)
        (rest1 : List Char),
        ParsePrefix {} specification.toList = .ok (spec1, rest) ∧
        ParseOpcodeBytes spec1 rest = .ok (st, rest1) ∧
        spec.code_offset_bytes =
          (((suffixTokens rest1).filterMap codeOffsetWidth).getLast?).getD 0 ∧
        (((suffixTokens rest1).filterMap codeOffsetWidth = [] ∧ spec.code_offset_bytes = 0) ∨
          ((suffixTokens rest1).filterMap codeOffsetWidth ≠ [] ∧
            spec.code_offset_bytes ∈ [1, 2, 4, 6, 8, 10])) ∧
        (∀ w, (suffixTokens rest1).filterMap codeOffsetWidth = [w] →
          spec.code_offset_bytes = w)) ∧
    (codeOffsetWidth ⟨[], [], [], [], ['b']⟩ = some 1 ∧
      codeOffsetWidth ⟨[], [], [], [], ['w']⟩ = some 2 ∧
      codeOffsetWidth ⟨[], [], [], [], ['d']⟩ = some 4 ∧
      codeOffsetWidth ⟨[], [], [], [], ['p']⟩ = some 6 ∧
      codeOffsetWidth ⟨[], [], [], [], ['o']⟩ = some 8 ∧
      codeOffsetWidth ⟨[], [], [], [], ['t']⟩ = some 10 ∧
      ∀ a : SuffixArgs, a.code_offset_size_str = [] → codeOffsetWidth a = none) ∧
    ParseEncodingSpecification "E8 cb" =
      .ok { legacy_prefixes := some {}, opcode := 0xE8, code_offset_bytes := 1 } ∧
    ParseEncodingSpecification "E8 cw" =
      .ok { legacy_prefixes := some {}, opcode := 0xE8, code_offset_bytes := 2 } ∧
    ParseEncodingSpecification "E8 cd" =
      .ok { legacy_prefixes := some {}, opcode := 0xE8, code_offset_bytes := 4 } ∧
    ParseEncodingSpecification "E8 cp" =
      .ok { legacy_prefixes := some {}, opcode := 0xE8, code_offset_bytes := 6 } ∧
    ParseEncodingSpecification "E8 co" =
      .ok { legacy_prefixes := some {}, opcode := 0xE8, code_offset_bytes := 8 } ∧
    ParseEncodingSpecification "E8 ct" =
      .ok { legacy_prefixes := some {}, opcode := 0xE8, code_offset_bytes := 10 } := by
  refine ⟨?_, ⟨rfl, rfl, rfl, rfl, rfl, rfl, ?_⟩, rfl, rfl, rfl, rfl, rfl, rfl⟩
  · intro specification spec h
    obtain ⟨spec1, rest, st, rest1, hp, hop, -, -, -, -, -, hco, -⟩ :=
      ParseFromString_fields _ _ h
    refine ⟨spec1, rest, st, rest1, hp, hop, hco, ?_, ?_⟩
    · cases hl : ((suffixTokens rest1).filterMap codeOffsetWidth).getLast? with
      | none =>
        left
        rw [hl] at hco
        exact ⟨List.getLast?_eq_none_iff.mp hl, hco⟩
      | some w =>
        right
        rw [hl] at hco
        have hmem := List.mem_of_getLast?_eq_some hl
        refine ⟨List.ne_nil_of_mem hmem, ?_⟩
        obtain ⟨a, -, ha⟩ := List.mem_filterMap.mp hmem
        rw [hco]
        exact codeOffsetWidth_mem a w ha
    · intro w hw
      rw [hco, hw]
      rfl
  · intro a ha
    unfold codeOffsetWidth
    rw [ha]

/-- Witness of C18 on `E8 cd`: the only suffix token is `cd`, and the code offset
size is 4. -/
theorem C18_code_offset_bytes_witness :
    ∃ (spec1 : EncodingSpecification) (rest : List Char) (st : OpcodeState)
      (rest1 : List Char),
      ParsePrefix {} "E8 cd".toList = .ok (spec1, rest) ∧
      ParseOpcodeBytes spec1 rest = .ok (st, rest1) ∧
      4 = (((suffixTokens rest1).filterMap codeOffsetWidth).getLast?).getD 0 ∧
      (((suffixTokens rest1).filterMap codeOffsetWidth = [] ∧ 4 = 0) ∨
        ((suffixTokens rest1).filterMap codeOffsetWidth ≠ [] ∧ 4 ∈ [1, 2, 4, 6, 8, 10])) ∧
      (∀ w, (suffixTokens rest1).filterMap codeOffsetWidth = [w] → 4 = w) :=
  C18_code_offset_bytes.1 "E8 cd"
    { legacy_prefixes := some {}, opcode := 0xE8, code_offset_bytes := 4 } rfl

/-- Claim C19, as the code behaves: on every input on which the VEX prefix pattern
matches, the lookups of the directionality, the mandatory prefix, the W usage and
the opcode map find an entry, and the lookup of the vector size finds one when the
vector size token is present; when that token is omitted the lookup misses and
`ParseVexOrEvexPrefix` ends in the fatal failure. On `VEX.0F 58` and
`VEX.66.0F.W0 58` the pattern matches with an empty vector size token and
`ParseEncodingSpecification` ends in the fatal failure. -/
theorem C19_vector_size_lookup_misses :
    (∀ (s : List Char) (args : VexPrefixArgs) (rest : List Char),
      Consume kVexPrefixRegexp vexPrefixArgs s = some (args, rest) →
      (∃ v, FindOrDie kVexOperandUsageTokens args.vex_operand_directionality = .ok v) ∧
      (∃ v, FindOrDie kMandatoryPrefixTokens args.mandatory_prefix_str = .ok v) ∧
      (∃ v, FindOrDie kVexWUsageTokens args.vex_w_str = .ok v) ∧
      (∃ v, FindOrDie kMapSelectTokens args.opcode_map = .ok v) ∧
      (args.vex_l_usage_str ≠ [] →
        ∃ v, FindOrDie kVectorSizeTokens args.vex_l_usage_str = .ok v) ∧
      (args.vex_l_usage_str = [] →
        FindOrDie kVectorSizeTokens args.vex_l_usage_str = .error (.fatal "Map key not found") ∧
        ∀ spec0 : EncodingSpecification,
          ParseVexOrEvexPrefix spec0 s = .error (.fatal "Map key not found"))) ∧
    (∃ (args : VexPrefixArgs) (rest : List Char),
      Consume kVexPrefixRegexp vexPrefixArgs "VEX.0F 58".toList = some (args, rest) ∧
      args.vex_l_usage_str = []) ∧
    (∃ (args : VexPrefixArgs) (rest : List Char),
      Consume kVexPrefixRegexp vexPrefixArgs "VEX.66.0F.W0 58".toList = some (args, rest) ∧
      args.vex_l_usage_str = []) ∧
    ParseEncodingSpecification "VEX.0F 58" = .error (.fatal "Map key not found") ∧
    ParseEncodingSpecification "VEX.66.0F.W0 58" = .error (.fatal "Map key not found") := by
  refine ⟨?_, ⟨_, _, rfl, rfl⟩, ⟨_, _, rfl, rfl⟩, rfl, rfl⟩
  intro s args rest h
  obtain ⟨h2, h3, h4, h5, h6⟩ := Consume_kVexPrefixRegexp_args s args rest h
  refine ⟨?_, ?_, ?_, ?_, ?_, ?_⟩
  · simp only [List.map, List.mem_cons, List.mem_singleton, List.not_mem_nil, or_false] at h2
    rcases h2 with e | e | e | e <;> rw [e] <;> exact ⟨_, rfl⟩
  · simp only [List.map, List.mem_cons, List.mem_singleton, List.not_mem_nil, or_false] at h4
    rcases h4 with e | e | e | e <;> rw [e] <;> exact ⟨_, rfl⟩
  · simp only [List.map, List.mem_cons, List.mem_singleton, List.not_mem_nil, or_false] at h6
    rcases h6 with e | e | e | e <;> rw [e] <;> exact ⟨_, rfl⟩
  · simp only [List.mem_cons, List.mem_singleton, List.not_mem_nil, or_false] at h5
    rcases h5 with e | e | e <;> rw [e] <;> exact ⟨_, rfl⟩
  · intro hne
    simp only [List.map, List.mem_cons, List.mem_singleton, List.not_mem_nil, or_false] at h3
    rcases h3 with e | e | e | e | e | e | e | e | e
    · exact absurd e hne
    all_goals (rw [e]; exact ⟨_, rfl⟩)
  · intro he
    refine ⟨by rw [he]; rfl, ?_⟩
    intro spec0
    unfold ParseVexOrEvexPrefix
    simp only [h]
    rw [he]
    rfl

/-- Claim C20, refuted as stated: `0F AE /8` parses to a descriptor with ModR/M usage
opcode extension in ModR/M whose opcode extension is 8, above 7. -/
theorem C20_extension_eight_is_accepted :
    ∃ spec : EncodingSpecification,
      ParseEncodingSpecification "0F AE /8" = .ok spec ∧
      spec.modrm_usage = .OPCODE_EXTENSION_IN_MODRM ∧
      spec.modrm_opcode_extension = 8 ∧
      ¬ (0 ≤ spec.modrm_opcode_extension ∧ spec.modrm_opcode_extension ≤ 7) :=
  ⟨{ legacy_prefixes := some {}
     opcode := 0x0FAE
     modrm_usage := .OPCODE_EXTENSION_IN_MODRM
     modrm_opcode_extension := 8 }, rfl, rfl, rfl, by decide⟩

/-- Claim C20, amended: on every successful parse whose descriptor has ModR/M usage
opcode extension in ModR/M, the last ModR/M suffix token matched after the opcode
bytes is a slash with a decimal digit, the opcode extension is the value of that
digit, and it lies in the range 0 to 9. -/
theorem C20_opcode_extension_digit (specification : String) (spec : EncodingSpecification)
    (h : ParseEncodingSpecification specification = .ok spec)
    (hm : spec.modrm_usage = .OPCODE_EXTENSION_IN_MODRM) :
    ∃ (spec1 : EncodingSpecification) (rest : List Char) (st : OpcodeState)
      (rest1 : List Char) (digit : Char),
      ParsePrefix {} specification.toList = .ok (spec1, rest) ∧
      ParseOpcodeBytes spec1 rest = .ok (st, rest1) ∧
      ((suffixTokens rest1).filterMap modRmSuffix).getLast? = some digit ∧
      "0123456789".toList.contains digit = true ∧
      spec.modrm_opcode_extension = (digit.toNat : Int) - ('0'.toNat : Int) ∧
      0 ≤ spec.modrm_opcode_extension ∧ spec.modrm_opcode_extension ≤ 9 := by
  obtain ⟨spec1, rest, st, rest1, hp, hop, -, -, -, -, -, -, hmu, hext⟩ :=
    ParseFromString_fields _ _ h
  rw [filterMap_modRmUsageOf, List.getLast?_map] at hmu
  rw [filterMap_modRmExtensionOf] at hext
  cases hl : ((suffixTokens rest1).filterMap modRmSuffix).getLast? with
  | none =>
    rw [hl, hm] at hmu
    simp only [Option.map_none', Option.getD_none, and_true] at hmu
    split at hmu <;> cases hmu
  | some c =>
    rw [hl, hm] at hmu
    simp only [Option.map_some', Option.getD_some] at hmu
    have hr : c ≠ 'r' := by
      rintro rfl
      simp at hmu
    have hmem := List.mem_of_getLast?_eq_some hl
    obtain ⟨a, ha, hac⟩ := List.mem_filterMap.mp hmem
    have hc := modRmSuffix_mem a c (suffixTokens_shape rest1 a ha) hac
    obtain ⟨hd, h0, h9⟩ := digit_range c hc hr
    obtain ⟨ys, hys⟩ := List.getLast?_eq_some_iff.mp hl
    have hval : spec.modrm_opcode_extension = (c.toNat : Int) - ('0'.toNat : Int) := by
      rw [hext, hys, List.filterMap_append]
      simp [hr]
    refine ⟨spec1, rest, st, rest1, c, hp, hop, hl, hd, hval, ?_, ?_⟩
    · rw [hval]; exact h0
    · rw [hval]; exact h9

/-- Witness of C20 on `0F AE /5`: the last ModR/M suffix token is `/5` and the opcode
extension is 5. -/
theorem C20_opcode_extension_digit_witness :
    ∃ (spec1 : EncodingSpecification) (rest : List Char) (st : OpcodeState)
      (rest1 : List Char) (digit : Char),
      ParsePrefix {} "0F AE /5".toList = .ok (spec1, rest) ∧
      ParseOpcodeBytes spec1 rest = .ok (st, rest1) ∧
      ((suffixTokens rest1).filterMap modRmSuffix).getLast? = some digit ∧
      "0123456789".toList.contains digit = true ∧
      (5 : Int) = (digit.toNat : Int) - ('0'.toNat : Int) ∧
      (0 : Int) ≤ 5 ∧ (5 : Int) ≤ 9 :=
  C20_opcode_extension_digit "0F AE /5"
    { legacy_prefixes := some {}
      opcode := 0x0FAE
      modrm_usage := .OPCODE_EXTENSION_IN_MODRM
      modrm_opcode_extension := 5 } rfl rfl

/-- Claim C21, refuted as stated: with a leading space ` VEX.128.0F.WIG 58 /r` fails
with the error of a missing opcode byte, while `VEX.128.0F.WIG 58 /r` parses to a
descriptor with a VEX prefix. -/
theorem C21_leading_space_is_not_trimmed :
    ParseEncodingSpecification " VEX.128.0F.WIG 58 /r" = .error noOpcodeByte ∧
    (∃ spec : EncodingSpecification,
      ParseEncodingSpecification "VEX.128.0F.WIG 58 /r" = .ok spec ∧
      has_vex_prefix spec = true) ∧
    ParseEncodingSpecification " VEX.128.0F.WIG 58 /r" ≠
      ParseEncodingSpecification "VEX.128.0F.WIG 58 /r" :=
  ⟨rfl,
    ⟨{ vex_prefix := some {
          prefix_type := .VEX_PREFIX
          vex_operand_usage := .NO_VEX_OPERAND_USAGE
          vector_size := .VECTOR_SIZE_128_BIT
          mandatory_prefix := .NO_MANDATORY_PREFIX
          vex_w_usage := .VEX_W_IS_IGNORED
          map_select := .MAP_SELECT_0F }
       opcode := 0x0F58
       modrm_usage := .FULL_MODRM }, rfl, rfl⟩,
    by decide⟩

/-- Claim C21, amended: `ParseEncodingSpecification` inspects the start of the text
as it is given, without trimming it: a text that begins with `VEX.` or `EVEX` goes
to the VEX prefix parser and every other text to the legacy prefix parser, and the
opcode and suffix parser runs on what the prefix parser leaves. A text with one or
more spaces before `VEX.` or `EVEX` therefore goes to the legacy prefix parser and
fails with the error of a missing opcode byte, as ` VEX.128.0F.WIG 58 /r` does. -/
theorem C21_dispatch_on_untrimmed_text :
    (∀ specification : String,
      (starts_with specification.toList "VEX." = true ∨
        starts_with specification.toList "EVEX" = true) →
      ParseEncodingSpecification specification =
        match ParseVexOrEvexPrefix {} specification.toList with
        | .error e => .error e
        | .ok (spec1, rest) => ParseOpcodeAndSuffixes spec1 rest) ∧
    (∀ specification : String,
      starts_with specification.toList "VEX." = false →
      starts_with specification.toList "EVEX" = false →
      ParseEncodingSpecification specification =
        match ParseLegacyPrefixes {} specification.toList with
        | .error e => .error e
        | .ok (spec1, rest) => ParseOpcodeAndSuffixes spec1 rest) ∧
    (∀ (n : Nat) (t : List Char), 0 < n →
      (starts_with t "VEX." = true ∨ starts_with t "EVEX" = true) →
      ParsePrefix {} (List.replicate n ' ' ++ t) =
        ParseLegacyPrefixes {} (List.replicate n ' ' ++ t) ∧
      ParseEncodingSpecification (String.mk (List.replicate n ' ' ++ t)) =
        .error noOpcodeByte) ∧
    ParseEncodingSpecification " VEX.128.0F.WIG 58 /r" = .error noOpcodeByte := by
  refine ⟨?_, ?_, ?_, rfl⟩
  · intro specification h
    unfold ParseEncodingSpecification ParseFromString
    rw [ParsePrefix_vex _ _ h]
  · intro specification h1 h2
    unfold ParseEncodingSpecification ParseFromString
    rw [ParsePrefix_legacy _ _ h1 h2]
  · intro n t hn ht
    obtain ⟨hp, hf⟩ := ParseFromString_spaces_vex n t hn ht
    refine ⟨?_, hf⟩
    obtain ⟨k, rfl⟩ : ∃ k, n = k + 1 := ⟨n - 1, by omega⟩
    apply ParsePrefix_legacy <;>
      simp [List.replicate_succ, starts_with, List.isPrefixOf]

/-- Witness of C21 on three spaces before `EVEX.512.0F.W0 58 /r`. -/
theorem C21_dispatch_on_untrimmed_text_witness :
    ParseEncodingSpecification
      (String.mk (List.replicate 3 ' ' ++ "EVEX.512.0F.W0 58 /r".toList)) =
        .error noOpcodeByte :=
  (C21_dispatch_on_untrimmed_text.2.2.1 3 "EVEX.512.0F.W0 58 /r".toList (by decide)
    (Or.inr rfl)).2

/-- Claim C22: for every VEX specification text made of the family `VEX` or `EVEX`,
an optional directionality field, a separator and the vector size token `LIG.128`,
whatever follows the token and however many spaces stand around the dots, the
parse succeeds with a descriptor exactly when the text with `128` in place of
`LIG.128` succeeds with that descriptor, and the descriptor has the vector size of
128 bits; the same holds for `L0` and `LZ`. The vector size group does match `LIG`
first at `LIG.128`, before it matches `LIG.128`. -/
theorem C22_lig_128_is_128 (family : String) (directionality : Option (Nat × Nat × String))
    (x y : Nat) (t : List Char) (hfamily : family ∈ ["VEX", "EVEX"])
    (hdirectionality : directionalityOk directionality) :
    (∀ spec : EncodingSpecification,
      ParseEncodingSpecification
          (String.mk (vexSizeText family directionality x y "LIG.128" t)) = .ok spec ↔
        ParseEncodingSpecification
          (String.mk (vexSizeText family directionality x y "128" t)) = .ok spec) ∧
    (∀ spec : EncodingSpecification,
      ParseEncodingSpecification
          (String.mk (vexSizeText family directionality x y "LIG.128" t)) = .ok spec →
      ∃ vex : VexPrefixEncodingSpecification,
        spec.vex_prefix = some vex ∧ vex.vector_size = .VECTOR_SIZE_128_BIT) ∧
    (∀ spec : EncodingSpecification,
      ParseEncodingSpecification
          (String.mk (vexSizeText family directionality x y "L0" t)) = .ok spec ↔
        ParseEncodingSpecification
          (String.mk (vexSizeText family directionality x y "LZ" t)) = .ok spec) ∧
    vexSizeGroup.run ("LIG.128".toList ++ t) =
      [([(3, "LIG".toList)], ".128".toList ++ t), ([(3, "LIG.128".toList)], t)] := by
  have m1 : "LIG.128" ∈ sizeTokenPairs := by decide
  have m2 : "128" ∈ sizeTokenPairs := by decide
  have m3 : "L0" ∈ sizeTokenPairs := by decide
  have m4 : "LZ" ∈ sizeTokenPairs := by decide
  refine ⟨fun spec => ⟨?_, ?_⟩, ?_, fun spec => ⟨?_, ?_⟩, vexSizeGroup_LIG_128 t⟩
  · exact ParseFromString_sizeText family hfamily directionality hdirectionality
      "LIG.128" "128" m1 m2 rfl x y t spec
  · exact ParseFromString_sizeText family hfamily directionality hdirectionality
      "128" "LIG.128" m2 m1 rfl x y t spec
  · intro spec h
    obtain ⟨vex, hvex, hsize⟩ := ParseFromString_sizeText_size family hfamily directionality
      hdirectionality "LIG.128" m1 x y t spec h
    refine ⟨vex, hvex, ?_⟩
    have h128 : FindOrDie kVectorSizeTokens "LIG.128".toList = .ok .VECTOR_SIZE_128_BIT := rfl
    rw [h128] at hsize
    simp only [Except.ok.injEq] at hsize
    exact hsize.symm
  · exact ParseFromString_sizeText family hfamily directionality hdirectionality
      "L0" "LZ" m3 m4 rfl x y t spec
  · exact ParseFromString_sizeText family hfamily directionality hdirectionality
      "LZ" "L0" m4 m3 rfl x y t spec

/-- Witness of C22 on `VEX.LIG.128.66.0F.WIG 58 /r`: it parses, hence so does
`VEX.128.66.0F.WIG 58 /r`, to the same descriptor. -/
theorem C22_lig_128_is_128_witness :
    ParseEncodingSpecification "VEX.LIG.128.66.0F.WIG 58 /r" =
      .ok { vex_prefix := some {
              prefix_type := .VEX_PREFIX
              vex_operand_usage := .NO_VEX_OPERAND_USAGE
              vector_size := .VECTOR_SIZE_128_BIT
              mandatory_prefix := .MANDATORY_PREFIX_OPERAND_SIZE_OVERRIDE
              vex_w_usage := .VEX_W_IS_IGNORED
              map_select := .MAP_SELECT_0F }
            opcode := 0x0F58
            modrm_usage := .FULL_MODRM } ∧
    ParseEncodingSpecification "VEX.128.66.0F.WIG 58 /r" =
      .ok { vex_prefix := some {
              prefix_type := .VEX_PREFIX
              vex_operand_usage := .NO_VEX_OPERAND_USAGE
              vector_size := .VECTOR_SIZE_128_BIT
              mandatory_prefix := .MANDATORY_PREFIX_OPERAND_SIZE_OVERRIDE
              vex_w_usage := .VEX_W_IS_IGNORED
              map_select := .MAP_SELECT_0F }
            opcode := 0x0F58
            modrm_usage := .FULL_MODRM } :=
  ⟨rfl,
    ((C22_lig_128_is_128 "VEX" none 0 0 ".66.0F.WIG 58 /r".toList (by decide) trivial).1
      _).mp rfl⟩

/-- Claim C23: `ParseEncodingSpecification` never fails with the invalid immediate
value size or the invalid code offset size failure, whatever the text of the
message; for every match of the suffix pattern the immediate value size argument
is empty or one of `b`, `w`, `d`, `o`, the code offset size argument is empty or
one of `b`, `w`, `d`, `p`, `o`, `t`, and the body of the suffix loop does not reach
either `default:` branch. The branches are in the body: on a size `x` that the
pattern cannot produce it fails with these failures. -/
theorem C23_invalid_size_unreachable :
    (∀ (specification : String) (text : String),
      ParseEncodingSpecification specification ≠ .error (invalidImmediateSize text) ∧
      ParseEncodingSpecification specification ≠ .error (invalidCodeOffsetSize text)) ∧
    (∀ (s : List Char) (a : SuffixArgs) (rest : List Char),
      Consume modrm_and_imm_parser_re suffixArgs s = some (a, rest) →
      (a.immediate_value_size_str = [] ∨
        ∃ c, c ∈ ['b', 'w', 'd', 'o'] ∧ a.immediate_value_size_str = [c]) ∧
      (a.code_offset_size_str = [] ∨
        ∃ c, c ∈ ['b', 'w', 'd', 'p', 'o', 't'] ∧ a.code_offset_size_str = [c]) ∧
      ∀ (spec : EncodingSpecification) (text : String),
        suffixBody spec a ≠ .error (invalidImmediateSize text) ∧
        suffixBody spec a ≠ .error (invalidCodeOffsetSize text)) ∧
    (∀ spec : EncodingSpecification,
      suffixBody spec ⟨[], ['x'], [], [], []⟩ = .error (invalidImmediateSize "x") ∧
      suffixBody spec ⟨[], [], [], [], ['x']⟩ = .error (invalidCodeOffsetSize "")) := by
  refine ⟨?_, ?_, fun spec => ⟨rfl, rfl⟩⟩
  · intro specification text
    unfold ParseEncodingSpecification
    constructor
    · intro h
      exact (ParseFromString_error _ _ h text).1 rfl
    · intro h
      exact (ParseFromString_error _ _ h text).2 rfl
  · intro s a rest h
    have ha := Consume_suffix_shape s a rest h
    refine ⟨?_, ?_, ?_⟩
    · rcases ha with rfl | ⟨c, hc, rfl⟩ | ⟨c, hc, rfl⟩ | rfl | rfl | ⟨c, hc, rfl⟩
      · exact Or.inl rfl
      · exact Or.inr ⟨c, by simpa using hc, rfl⟩
      · exact Or.inl rfl
      · exact Or.inl rfl
      · exact Or.inl rfl
      · exact Or.inl rfl
    · rcases ha with rfl | ⟨c, hc, rfl⟩ | ⟨c, hc, rfl⟩ | rfl | rfl | ⟨c, hc, rfl⟩
      · exact Or.inl rfl
      · exact Or.inl rfl
      · exact Or.inl rfl
      · exact Or.inl rfl
      · exact Or.inl rfl
      · exact Or.inr ⟨c, by simpa using hc, rfl⟩
    · intro spec text
      constructor
      · intro hb
        rcases suffixBody_error spec a _ ha hb with he | he
        · exact (notInvalidSize_of_head _ (by decide) text).1 he.symm
        · exact (notInvalidSize_of_head _ (by decide) text).1 he.symm
      · intro hb
        rcases suffixBody_error spec a _ ha hb with he | he
        · exact (notInvalidSize_of_head _ (by decide) text).2 he.symm
        · exact (notInvalidSize_of_head _ (by decide) text).2 he.symm

/-- Witness of C23 on the suffix text ` cd`: the match of the suffix pattern has the
code offset size `d` and no immediate value size. -/
theorem C23_invalid_size_unreachable_witness :
    (([] : List Char) = [] ∨ ∃ c, c ∈ ['b', 'w', 'd', 'o'] ∧ ([] : List Char) = [c]) ∧
    ((['d'] : List Char) = [] ∨
      ∃ c, c ∈ ['b', 'w', 'd', 'p', 'o', 't'] ∧ (['d'] : List Char) = [c]) ∧
    ∀ (spec : EncodingSpecification) (text : String),
      suffixBody spec ⟨[], [], [], [], ['d']⟩ ≠ .error (invalidImmediateSize text) ∧
      suffixBody spec ⟨[], [], [], [], ['d']⟩ ≠ .error (invalidCodeOffsetSize text) :=
  C23_invalid_size_unreachable.2.1 " cd".toList ⟨[], [], [], [], ['d']⟩ [] rfl

/-- Claim C24: for every descriptor without a VEX prefix (its legacy prefixes
populated or not) `GetAvailableEncodings` returns a multiset without the VEX.vvvv,
the VEX operand suffix and the VSIB location, in which ModRM.reg, ModRM.rm and the
opcode location occur at most once each and every element is one of these three or
the immediate value location. -/
theorem C24_legacy_locations (spec : EncodingSpecification) (hvex : spec.vex_prefix = none) :
    ∃ m, GetAvailableEncodings spec = .ok m ∧
      m.count Encoding.VEX_V_ENCODING = 0 ∧
      m.count Encoding.VEX_SUFFIX_ENCODING = 0 ∧
      m.count Encoding.VSIB_ENCODING = 0 ∧
      m.count Encoding.MODRM_REG_ENCODING ≤ 1 ∧
      m.count Encoding.MODRM_RM_ENCODING ≤ 1 ∧
      m.count Encoding.OPCODE_ENCODING ≤ 1 ∧
      ∀ e ∈ m, e = Encoding.MODRM_REG_ENCODING ∨ e = Encoding.MODRM_RM_ENCODING ∨
        e = Encoding.OPCODE_ENCODING ∨ e = Encoding.IMMEDIATE_VALUE_ENCODING := by
  have hu : usesVsib spec = false := by
    unfold usesVsib
    rw [hvex]
  have hvu : vsib_usage spec = .VSIB_UNUSED := by
    unfold vsib_usage
    rw [hvex]
  obtain ⟨m, hm⟩ := GetAvailableEncodings_ok spec fun h => by rw [hvu] at h; cases h
  obtain ⟨-, hreg, hrm, hop, hv, hsfx, hvsib, -⟩ := GetAvailableEncodings_count spec m hm
  rw [hvex] at hv hsfx
  rw [hu] at hrm hvsib
  simp only at hv hsfx
  have hvs0 : m.count Encoding.VSIB_ENCODING = 0 := by rw [hvsib]; rfl
  refine ⟨m, hm, hv, hsfx, hvs0, ?_, ?_, ?_, ?_⟩
  · rw [hreg]; split <;> omega
  · rw [hrm]; simp only [Bool.false_eq_true, if_false]; split <;> omega
  · rw [hop]; split <;> omega
  · intro e he
    have hpos := Multiset.count_pos.mpr he
    cases e
    · exact Or.inl rfl
    · exact Or.inr (Or.inl rfl)
    · exact Or.inr (Or.inr (Or.inl rfl))
    · omega
    · omega
    · omega
    · exact Or.inr (Or.inr (Or.inr rfl))

/-- Witness of C24 on the descriptor of `66 0F 58 /r`, with populated legacy prefixes
and no VEX prefix. -/
theorem C24_legacy_locations_witness :
    ∃ m, GetAvailableEncodings
        { legacy_prefixes := some { has_mandatory_operand_size_override_prefix := true }
          opcode := 0x0F58
          modrm_usage := .FULL_MODRM } = .ok m ∧
      m.count Encoding.VEX_V_ENCODING = 0 ∧
      m.count Encoding.VEX_SUFFIX_ENCODING = 0 ∧
      m.count Encoding.VSIB_ENCODING = 0 ∧
      m.count Encoding.MODRM_REG_ENCODING ≤ 1 ∧
      m.count Encoding.MODRM_RM_ENCODING ≤ 1 ∧
      m.count Encoding.OPCODE_ENCODING ≤ 1 ∧
      ∀ e ∈ m, e = Encoding.MODRM_REG_ENCODING ∨ e = Encoding.MODRM_RM_ENCODING ∨
        e = Encoding.OPCODE_ENCODING ∨ e = Encoding.IMMEDIATE_VALUE_ENCODING :=
  C24_legacy_locations
    { legacy_prefixes := some { has_mandatory_operand_size_override_prefix := true }
      opcode := 0x0F58
      modrm_usage := .FULL_MODRM } rfl

end x86
